import Mathlib

/-!
# etcpak `BlockData`: a shallow embedding of `BlockData.cpp`

The development follows the source file top to bottom:

* machine integers (`uint32`, `int32`, `uint64`) as `Nat`/`Int` with explicit wrap-around,
* the mapped file as a list of bytes with little-endian 32/64-bit loads and stores,
* the envelope reader `BlockData::BlockData(const char*)`, the writer `OpenForWriting`,
  `AdjustSizeForMipmaps` and the two creating constructors,
* the kernel selection and the tile gathering loop of `BlockData::Process`,
* `DecodeBlockColor`, `DecodePlanar`, `BlockData::Decode` and `BlockData::Dissect`.

Functions that `BlockData.cpp` calls but that live in other files (`clampu8`, `g_table`,
`NumberOfMipLevels`, `ProcessRGB`, `Dither`, the CPU probe) are parameters of the definitions
that use them.
-/

namespace Etcpak

/-! ## Machine integers -/

/-- Conversion of a C++ integer value to `uint32` (reduction modulo `2^32`). -/
def toU32 (x : Int) : Nat := (x % 4294967296).toNat

/-- Conversion of a `uint32` bit pattern to `int32` (two's complement). -/
def toI32 (n : Nat) : Int :=
  if n % 4294967296 < 2147483648 then ((n % 4294967296 : Nat) : Int)
  else ((n % 4294967296 : Nat) : Int) - 4294967296

/-- Conversion of a C++ integer value to `size_t`/`uint64` (reduction modulo `2^64`). -/
def toU64 (x : Int) : Nat := (x % 18446744073709551616).toNat

/-- Ways in which a run of the code stops without a result. -/
inductive Fault where
  /-- an `assert` of the source fails -/
  | assertion
  /-- an `int` computation leaves the range of `int` (undefined behaviour in C++) -/
  | overflow
  /-- a read through a pointer that has left the bytes of the mapping -/
  | access
  deriving DecidableEq, Repr

/-- The result of an `int` computation: the value when it fits a 32-bit `int`. -/
def chkInt (x : Int) : Except Fault Int :=
  if -2147483648 ≤ x ∧ x ≤ 2147483647 then .ok x else .error Fault.overflow

/-- The vector type `v2i` of two `int` components. -/
structure v2i where
  x : Int
  y : Int
  deriving DecidableEq, Repr

/-! ## Byte memory -/

/-- The mapped file (or heap buffer): a list of bytes. -/
abbrev Mem := List Nat

/-- Load of one byte; addresses past the end read as zero, as in the zero-filled tail of the
last mapped page. -/
def load8 (m : Mem) (a : Nat) : Nat := m.getD a 0 % 256

/-- Store of one byte. -/
def store8 (m : Mem) (a : Nat) (v : Nat) : Mem := m.set a (v % 256)

/-- Load of a `uint32` at byte address `a` (little-endian host). -/
def load32 (m : Mem) (a : Nat) : Nat :=
  load8 m a + 256 * load8 m (a + 1) + 65536 * load8 m (a + 2) + 16777216 * load8 m (a + 3)

/-- Store of a `uint32` at byte address `a` (little-endian host). -/
def store32 (m : Mem) (a : Nat) (v : Nat) : Mem :=
  store8 (store8 (store8 (store8 m a v) (a + 1) (v / 256)) (a + 2) (v / 65536))
    (a + 3) (v / 16777216)

/-- Load of a `uint64` at byte address `a` (little-endian host). -/
def load64 (m : Mem) (a : Nat) : Nat :=
  load32 m a + 4294967296 * load32 m (a + 4)

/-- Store of a `uint64` at byte address `a` (little-endian host). -/
def store64 (m : Mem) (a : Nat) (v : Nat) : Mem :=
  store32 (store32 m a v) (a + 4) (v / 4294967296)

/-- The four bytes of a 32-bit word, least significant first. -/
def le32 (v : Nat) : List Nat :=
  [v % 256, v / 256 % 256, v / 65536 % 256, v / 16777216 % 256]

/-! ## The `BlockData` object -/

/-- The data members of `BlockData` (the `FILE*` is left out). -/
structure BlockData where
  m_data : Mem
  m_size : v2i
  m_dataOffset : Nat
  m_maplen : Nat
  deriving DecidableEq, Repr

/-- The constructor `BlockData::BlockData( const char* fn )` applied to the content of the
file: the whole file is mapped, `data32 = (uint32*)m_data`, and the envelope is recognised by
its first word.  `52 + *(data32+12)` and `17 + *(data32+15)` are `unsigned int` sums;
`m_size` holds `int`s.  In the last branch `assert( false )` stops the constructor and gives
no object; compiled with `NDEBUG` (`ndebug`) the assertion is gone and the constructor
returns with `m_size` and `m_dataOffset` never assigned: they keep whatever the members hold,
given by `garbage`. -/
def BlockData.ofFile (ndebug : Bool) (garbage : BlockData) (file : Mem) : Option BlockData :=
  if load32 file 0 = 0x03525650 then
    some { m_data := file
           m_size := { y := toI32 (load32 file (4 * 6)), x := toI32 (load32 file (4 * 7)) }
           m_dataOffset := (52 + load32 file (4 * 12)) % 4294967296
           m_maplen := file.length }
  else if load32 file 0 = 0x58544BAB then
    some { m_data := file
           m_size := { x := toI32 (load32 file (4 * 9)), y := toI32 (load32 file (4 * 10)) }
           m_dataOffset := (17 + load32 file (4 * 15)) % 4294967296
           m_maplen := file.length }
  else if ndebug then
    some { m_data := file
           m_size := garbage.m_size
           m_dataOffset := garbage.m_dataOffset
           m_maplen := file.length }
  else
    none

/-- The payload a `BlockData` exposes: the bytes from `m_data + m_dataOffset` on. -/
def BlockData.payload (b : BlockData) : List Nat := b.m_data.drop b.m_dataOffset

/-- The read `*src++` of block word `k` through
`src = (const uint64*)( m_data + m_dataOffset )` in `Decode` and `Dissect`.  A word that does
not lie inside the bytes of the mapping is no part of what the program mapped or allocated:
the source gives such a read no value, and it is reported as `Fault.access`. -/
def BlockData.word (b : BlockData) (k : Nat) : Except Fault Nat :=
  if b.m_dataOffset + 8 * k + 8 ≤ b.m_data.length then
    .ok (load64 b.m_data (b.m_dataOffset + 8 * k))
  else .error Fault.access

/-- The values of the thirteen `*dst++ = ...` stores of `OpenForWriting`, in program order
(`size.y`, `size.x` and `levels` are `int`s converted to `uint32`). -/
def headerWords (size : v2i) (levels : Int) : List Nat :=
  [0x03525650, 0, 6, 0, 0, 0, toU32 size.y, toU32 size.x, 1, 1, 1, toU32 levels, 0]

/-- Writes the words `ws` at consecutive word addresses starting at byte address `a`
(`*dst++ = w`). -/
def storeWords : Mem → Nat → List Nat → Mem
  | m, _, [] => m
  | m, a, w :: ws => storeWords (store32 m a w) (a + 4) ws

/-- The function `OpenForWriting`: the file is stretched to `len` zero bytes, mapped, and the
thirteen header words are stored from the start of the mapping. -/
def OpenForWriting (len : Nat) (size : v2i) (levels : Int) : Mem :=
  storeWords (List.replicate len 0) 0 (headerWords size levels)

/-- The loop of `AdjustSizeForMipmaps`, run for the given number of iterations. -/
def AdjustSizeForMipmaps.loop : Nat → v2i → Int → Except Fault (v2i × Int)
  | 0, current, len => .ok (current, len)
  | n + 1, current, len =>
    if current.x = 1 ∧ current.y = 1 then .error Fault.assertion
    else do
      let cx := max 1 (current.x.tdiv 2)
      let cy := max 1 (current.y.tdiv 2)
      let p ← chkInt (max 4 cx * max 4 cy)
      let len1 ← chkInt (len + p.tdiv 2)
      AdjustSizeForMipmaps.loop n { x := cx, y := cy } len1

/-- The update of `current` in one pass of the loop of `AdjustSizeForMipmaps`:
`current.x = std::max( 1, current.x / 2 ); current.y = std::max( 1, current.y / 2 )`. -/
def AdjustSizeForMipmaps.halve (current : v2i) : v2i :=
  { x := max 1 (current.x.tdiv 2), y := max 1 (current.y.tdiv 2) }

/-- The function `AdjustSizeForMipmaps`: `for( int i=1; i<levels; i++ )` runs `levels - 1`
times (not at all when `levels ≤ 1`), then the closing assertion is checked. -/
def AdjustSizeForMipmaps (size : v2i) (levels : Int) : Except Fault Int := do
  let r ← AdjustSizeForMipmaps.loop (levels - 1).toNat size 0
  if r.1.x = 1 ∧ r.1.y = 1 then .ok r.2 else .error Fault.assertion

/-- The member initialiser `m_maplen( 52 + m_size.x*m_size.y/2 )` (an `int` expression)
followed by `assert( m_size.x%4 == 0 && m_size.y%4 == 0 )` and, with `mipmap`, by
`levels = NumberOfMipLevels( size ); m_maplen += AdjustSizeForMipmaps( size, levels )`.
Returns `(m_maplen, levels)`. -/
def BlockData.layout (NumberOfMipLevels : v2i → Int) (size : v2i) (mipmap : Bool) :
    Except Fault (Nat × Int) := do
  let p ← chkInt (size.x * size.y)
  let l0 ← chkInt (52 + p.tdiv 2)
  if size.x.tmod 4 = 0 ∧ size.y.tmod 4 = 0 then
    if mipmap then do
      let levels := NumberOfMipLevels size
      let adj ← AdjustSizeForMipmaps size levels
      .ok ((toU64 l0 + toU64 adj) % 18446744073709551616, levels)
    else
      .ok (toU64 l0, 1)
  else
    .error Fault.assertion

/-- The constructor `BlockData::BlockData( const char* fn, const v2i& size, bool mipmap )`. -/
def BlockData.create (NumberOfMipLevels : v2i → Int) (size : v2i) (mipmap : Bool) :
    Except Fault BlockData := do
  let r ← BlockData.layout NumberOfMipLevels size mipmap
  .ok { m_data := OpenForWriting r.1 size r.2
        m_size := size
        m_dataOffset := 52
        m_maplen := r.1 }

/-- The constructor `BlockData::BlockData( const v2i& size, bool mipmap )`: the same layout
in a fresh heap buffer `new uint8[m_maplen]`, whose initial bytes `heap` are arbitrary and
into which no header is written. -/
def BlockData.createInMemory (NumberOfMipLevels : v2i → Int) (heap : Nat → Nat) (size : v2i)
    (mipmap : Bool) : Except Fault BlockData := do
  let r ← BlockData.layout NumberOfMipLevels size mipmap
  .ok { m_data := (List.range r.1).map (fun i => heap i % 256)
        m_size := size
        m_dataOffset := 52
        m_maplen := r.1 }

/-! ## `BlockData::Process` -/

/-- The channel selection `Channels` of `Process`. -/
inductive Channels where
  | RGB
  | Alpha
  deriving DecidableEq, Repr

/-- The eight static kernels `_f_rgb` ... `_f_rgb_etc2_dither_avx2`. -/
inductive Kernel where
  | _f_rgb
  | _f_rgb_avx2
  | _f_rgb_dither
  | _f_rgb_dither_avx2
  | _f_rgb_etc2
  | _f_rgb_etc2_avx2
  | _f_rgb_etc2_dither
  | _f_rgb_etc2_dither_avx2
  deriving DecidableEq, Repr

/-- The block encoders and the dither pass, which live outside `BlockData.cpp`.  A tile is the
list of the sixteen `uint32` entries of `buf`; the encoders return the 64-bit block word and
`Dither` rewrites the tile in place. -/
structure Codec where
  ProcessRGB : List Nat → Nat
  ProcessRGB_AVX2 : List Nat → Nat
  ProcessRGB_ETC2 : List Nat → Nat
  ProcessRGB_ETC2_AVX2 : List Nat → Nat
  Dither : List Nat → List Nat

/-- The bodies of the eight static kernels. -/
def Kernel.run (ext : Codec) : Kernel → List Nat → Nat
  | Kernel._f_rgb, buf => ext.ProcessRGB buf
  | Kernel._f_rgb_avx2, buf => ext.ProcessRGB_AVX2 buf
  | Kernel._f_rgb_dither, buf => ext.ProcessRGB (ext.Dither buf)
  | Kernel._f_rgb_dither_avx2, buf => ext.ProcessRGB_AVX2 (ext.Dither buf)
  | Kernel._f_rgb_etc2, buf => ext.ProcessRGB_ETC2 buf
  | Kernel._f_rgb_etc2_avx2, buf => ext.ProcessRGB_ETC2_AVX2 buf
  | Kernel._f_rgb_etc2_dither, buf => ext.ProcessRGB_ETC2 (ext.Dither buf)
  | Kernel._f_rgb_etc2_dither_avx2, buf => ext.ProcessRGB_ETC2_AVX2 (ext.Dither buf)

/-- The choice of `func` in `Process`.  `sse41` tells whether the translation unit is compiled
with `__SSE4_1__` (the AVX2 branches exist only then) and `probe` is the value of
`can_use_intel_core_4th_gen_features()`. -/
def Process.func (sse41 probe : Bool) (type : Channels) (dither etc2 : Bool) : Kernel :=
  match type with
  | Channels.Alpha =>
    if sse41 && probe then
      if etc2 then Kernel._f_rgb_etc2_avx2 else Kernel._f_rgb_avx2
    else
      if etc2 then Kernel._f_rgb_etc2 else Kernel._f_rgb
  | Channels.RGB =>
    if sse41 && probe then
      if etc2 then
        if dither then Kernel._f_rgb_etc2_dither_avx2 else Kernel._f_rgb_etc2_avx2
      else
        if dither then Kernel._f_rgb_dither_avx2 else Kernel._f_rgb_avx2
    else
      if etc2 then
        if dither then Kernel._f_rgb_etc2_dither else Kernel._f_rgb_etc2
      else
        if dither then Kernel._f_rgb_dither else Kernel._f_rgb

/-- What the gathering loop stores for a source pixel: the pixel itself in the RGB loop,
`a | ( a << 8 ) | ( a << 16 )` with `a = *src >> 24` (in `uint` arithmetic) in the alpha loop. -/
def Process.transform : Channels → Nat → Nat
  | Channels.RGB, px => px
  | Channels.Alpha, px =>
    let a := px >>> 24
    a ||| (a <<< 8) % 4294967296 ||| (a <<< 16) % 4294967296

/-- One pass of the `for( int x=0; x<4; x++ )` body: four pixels of one column are read going
down by `width`, then `src -= width * 3 - 1`.  `src` is the index of the pointer into the
source array `img`.  Returns the four stored entries and the new `src`. -/
def Process.gatherColumn (type : Channels) (img : Nat → Nat) (width src : Nat) :
    List Nat × Nat :=
  let p1 := src + width
  let p2 := p1 + width
  let p3 := p2 + width
  ([Process.transform type (img src), Process.transform type (img p1),
    Process.transform type (img p2), Process.transform type (img p3)],
   p3 - (width * 3 - 1))

/-- The four passes of the `for( int x=0; x<4; x++ )` loop filling `buf`. -/
def Process.gather (type : Channels) (img : Nat → Nat) (width src : Nat) : List Nat × Nat :=
  let c0 := Process.gatherColumn type img width src
  let c1 := Process.gatherColumn type img width c0.2
  let c2 := Process.gatherColumn type img width c1.2
  let c3 := Process.gatherColumn type img width c2.2
  (c0.1 ++ c1.1 ++ c2.1 ++ c3.1, c3.2)

/-- The variables of the `do ... while( --blocks )` loop: the index `src` of the source
pointer, the counter `w`, the byte address `dst` in the mapping, the mapping itself, and (as a
record of the run) the tiles passed to `func` so far. -/
structure ProcState where
  src : Nat
  w : Nat
  dst : Nat
  mem : Mem
  calls : List (List Nat)

/-- One pass of the body of the `do ... while` loop. -/
def Process.step (func : List Nat → Nat) (type : Channels) (img : Nat → Nat) (width : Nat)
    (s : ProcState) : ProcState :=
  let g := Process.gather type img width s.src
  let w1 := s.w + 1
  { src := if w1 = width / 4 then g.2 + width * 3 else g.2
    w := if w1 = width / 4 then 0 else w1
    dst := s.dst + 8
    mem := store64 s.mem s.dst (func g.1)
    calls := s.calls ++ [g.1] }

/-- The body of the loop repeated `n` times. -/
def Process.loop (func : List Nat → Nat) (type : Channels) (img : Nat → Nat) (width : Nat) :
    Nat → ProcState → ProcState
  | 0, s => s
  | n + 1, s => Process.loop func type img width n (Process.step func type img width s)

/-- The number of passes of `do ... while( --blocks )` for a `uint32` counter: `blocks`, and
`2^32` when it starts at zero. -/
def Process.passes (blocks : Nat) : Nat :=
  if blocks % 4294967296 = 0 then 4294967296 else blocks % 4294967296

/-- The method `BlockData::Process`, with
`dst = ((uint64*)( m_data + m_dataOffset )) + offset`. -/
def BlockData.Process (ext : Codec) (sse41 probe : Bool) (b : BlockData) (img : Nat → Nat)
    (blocks offset width : Nat) (type : Channels) (dither etc2 : Bool) : ProcState :=
  Process.loop (Kernel.run ext (Process.func sse41 probe type dither etc2)) type img width
    (Process.passes blocks)
    { src := 0, w := 0, dst := b.m_dataOffset + 8 * offset, mem := b.m_data, calls := [] }

/-! ## The block decoder -/

/-- The local `struct BlockColor` of six `uint32` channels. -/
structure BlockColor where
  r1 : Nat
  g1 : Nat
  b1 : Nat
  r2 : Nat
  g2 : Nat
  b2 : Nat
  deriving DecidableEq, Repr

/-- The local `enum class Etc2Mode`. -/
inductive Etc2Mode where
  | none
  | t
  | h
  | planar
  deriving DecidableEq, Repr

/-- The byte permutation `Decode` and `Dissect` apply to each block word (the masked values
fit 64 bits, so the shifts lose nothing). -/
def permuteBytes (d : Nat) : Nat :=
  ((d &&& 0xFF000000FF000000) >>> 24) |||
  ((d &&& 0x000000FF000000FF) <<< 24) |||
  ((d &&& 0x00FF000000FF0000) >>> 8) |||
  ((d &&& 0x0000FF000000FF00) <<< 8)

/-- The sign extension `if( dr & 0x4 ) dr |= 0xFFFFFFF8;` of an `int32` holding a 3-bit
field. -/
def DecodeBlockColor.signExtend (dr : Nat) : Int :=
  if dr &&& 0x4 ≠ 0 then toI32 (dr ||| 0xFFFFFFF8) else (dr : Int)

/-- The expansion `( v << 3 ) | ( v >> 2 )` in `uint32` arithmetic. -/
def DecodeBlockColor.expand5 (v : Nat) : Nat :=
  (v <<< 3) % 4294967296 ||| v >>> 2

/-- The function `DecodeBlockColor( uint64 d, BlockColor& c )`: the returned mode and the
state of `c` on return.  On entry `c` is whatever the caller's uninitialised local holds. -/
def DecodeBlockColor (d : Nat) (c : BlockColor) : Etc2Mode × BlockColor :=
  if d &&& 0x2 ≠ 0 then
    let r1 := (d &&& 0xF8000000) >>> 27
    let g1 := (d &&& 0x00F80000) >>> 19
    let b1 := (d &&& 0x0000F800) >>> 11
    let dr := DecodeBlockColor.signExtend ((d &&& 0x07000000) >>> 24)
    let dg := DecodeBlockColor.signExtend ((d &&& 0x00070000) >>> 16)
    let db := DecodeBlockColor.signExtend ((d &&& 0x00000700) >>> 8)
    let r : Int := (r1 : Int) + dr
    let g : Int := (g1 : Int) + dg
    let b : Int := (b1 : Int) + db
    let c1 : BlockColor := { c with r1 := r1, g1 := g1, b1 := b1 }
    if r < 0 ∨ r > 31 then (Etc2Mode.t, c1)
    else if g < 0 ∨ g > 31 then (Etc2Mode.h, c1)
    else if b < 0 ∨ b > 31 then (Etc2Mode.planar, c1)
    else
      (Etc2Mode.none,
       { r1 := DecodeBlockColor.expand5 r1
         g1 := DecodeBlockColor.expand5 g1
         b1 := DecodeBlockColor.expand5 b1
         r2 := DecodeBlockColor.expand5 (toU32 ((r1 : Int) + dr))
         g2 := DecodeBlockColor.expand5 (toU32 ((g1 : Int) + dg))
         b2 := DecodeBlockColor.expand5 (toU32 ((b1 : Int) + db)) })
  else
    (Etc2Mode.none,
     { r1 := ((d &&& 0xF0000000) >>> 24) ||| ((d &&& 0xF0000000) >>> 28)
       r2 := ((d &&& 0x0F000000) >>> 20) ||| ((d &&& 0x0F000000) >>> 24)
       g1 := ((d &&& 0x00F00000) >>> 16) ||| ((d &&& 0x00F00000) >>> 20)
       g2 := ((d &&& 0x000F0000) >>> 12) ||| ((d &&& 0x000F0000) >>> 16)
       b1 := ((d &&& 0x0000F000) >>> 8) ||| ((d &&& 0x0000F000) >>> 12)
       b2 := ((d &&& 0x00000F00) >>> 4) ||| ((d &&& 0x00000F00) >>> 8) })

/-- The function `expand6`: `(value << 2) | (value >> 4)` on a `uint32`, returned as
`int32`. -/
def expand6 (value : Nat) : Int := toI32 ((value <<< 2) % 4294967296 ||| value >>> 4)

/-- The function `expand7`: `(value << 1) | (value >> 6)` on a `uint32`, returned as
`int32`. -/
def expand7 (value : Nat) : Int := toI32 ((value <<< 1) % 4294967296 ||| value >>> 6)

/-- The pixel word `r | ( g << 8 ) | ( b << 16 ) | 0xFF000000` in `uint32` arithmetic. -/
def Decode.pixel (r g b : Nat) : Nat :=
  r ||| (g <<< 8) % 4294967296 ||| (b <<< 16) % 4294967296 ||| 0xFF000000

/-- One channel of the planar interpolation,
`clampu8((i * (h - o) + j * (v - o) + 4 * o + 2) >> 2)`, in `int` arithmetic with an
arithmetic right shift. -/
def DecodePlanar.chan (clampu8 : Int → Nat) (o h v : Int) (i j : Nat) : Nat :=
  clampu8 (((i : Int) * (h - o) + (j : Int) * (v - o) + 4 * o + 2) >>> 2)

/-- The function `DecodePlanar( uint64 block, uint32* l[4] )`: the stores `*l[j]++ = ...` it
performs, in program order, each as (index `j` of the row pointer, value stored). -/
def DecodePlanar (clampu8 : Int → Nat) (block : Nat) : List (Nat × Nat) :=
  let bv := expand6 ((block >>> (0 + 32)) &&& 0x3F)
  let gv := expand7 ((block >>> (6 + 32)) &&& 0x7F)
  let rv := expand6 ((block >>> (13 + 32)) &&& 0x3F)
  let bh := expand6 ((block >>> (19 + 32)) &&& 0x3F)
  let gh := expand7 ((block >>> (25 + 32)) &&& 0x7F)
  let rh0 := (block >>> (32 - 32)) &&& 0x01
  let rh1 := ((block >>> (34 - 32)) &&& 0x1F) <<< 1
  let rh := expand6 (rh0 ||| rh1)
  let bo0 := (block >>> (39 - 32)) &&& 0x07
  let bo1 := ((block >>> (43 - 32)) &&& 0x3) <<< 3
  let bo2 := ((block >>> (48 - 32)) &&& 0x1) <<< 5
  let bo := expand6 (bo0 ||| bo1 ||| bo2)
  let go0 := (block >>> (49 - 32)) &&& 0x3F
  let go1 := ((block >>> (56 - 32)) &&& 0x01) <<< 6
  let go := expand7 (go0 ||| go1)
  let ro := expand6 ((block >>> (57 - 32)) &&& 0x3F)
  (List.range 4).flatMap fun j =>
    (List.range 4).map fun i =>
      (j, Decode.pixel (DecodePlanar.chan clampu8 ro rh rv i j)
            (DecodePlanar.chan clampu8 go gh gv i j)
            (DecodePlanar.chan clampu8 bo bh bv i j))

/-- The table index
`( ( d & ( 1ll << ( o + 32 + k ) ) ) >> ( o + 32 + k ) ) | ( ( d & ( 1ll << ( o + 48 + k ) ) ) >> ( o + 47 + k ) )`
used for the store through `l[k]`. -/
def Decode.sel (d o k : Nat) : Nat :=
  ((d &&& (1 <<< (o + 32 + k))) >>> (o + 32 + k)) |||
  ((d &&& (1 <<< (o + 48 + k))) >>> (o + 47 + k))

/-- One channel of an ETC1 pixel, `clampu8( base + g_table[cw][sel] )`: the sum of a `uint32`
and an `int32` is taken in `uint32` and handed to `clampu8` as a signed value. -/
def Decode.chan (clampu8 : Int → Nat) (g_table : Nat → Nat → Int) (base cw sel : Nat) : Nat :=
  clampu8 (toI32 (toU32 ((base : Int) + g_table cw sel)))

/-- The value stored through `l[k]` in the pass with offset `o`, for base colour `(r, g, b)`
and table codeword `cw`. -/
def Decode.texel (clampu8 : Int → Nat) (g_table : Nat → Nat → Int) (r g b cw d o k : Nat) :
    Nat :=
  Decode.pixel (Decode.chan clampu8 g_table r cw (Decode.sel d o k))
    (Decode.chan clampu8 g_table g cw (Decode.sel d o k))
    (Decode.chan clampu8 g_table b cw (Decode.sel d o k))

/-- The stores of the non-planar path of `Decode` for one block (lines `tcw[0] = ...` to the
end of the `if( d & 0x1 )` statement), in program order, each as (index of the row pointer,
value stored).  With the flip bit every pass stores `c1` through `l[0]`, `l[1]` and `c2`
through `l[2]`, `l[3]`; without it the first two passes store `c1` and the last two `c2`. -/
def Decode.etc1 (clampu8 : Int → Nat) (g_table : Nat → Nat → Int) (c : BlockColor) (d : Nat) :
    List (Nat × Nat) :=
  let tcw0 := (d &&& 0xE0) >>> 5
  let tcw1 := (d &&& 0x1C) >>> 2
  let t1 := fun o k => Decode.texel clampu8 g_table c.r1 c.g1 c.b1 tcw0 d o k
  let t2 := fun o k => Decode.texel clampu8 g_table c.r2 c.g2 c.b2 tcw1 d o k
  if d &&& 0x1 ≠ 0 then
    [0, 4, 8, 12].flatMap fun o => [(0, t1 o 0), (1, t1 o 1), (2, t2 o 2), (3, t2 o 3)]
  else
    ([0, 4].flatMap fun o => [(0, t1 o 0), (1, t1 o 1), (2, t1 o 2), (3, t1 o 3)]) ++
    ([8, 12].flatMap fun o => [(0, t2 o 0), (1, t2 o 1), (2, t2 o 2), (3, t2 o 3)])

/-- The body of the inner loop of `Decode` for one block word read from the payload: the
stores it performs.  `c0` is the content of the uninitialised local `BlockColor c`. -/
def Decode.block (clampu8 : Int → Nat) (g_table : Nat → Nat → Int) (c0 : BlockColor)
    (word : Nat) : List (Nat × Nat) :=
  let d := permuteBytes word
  let r := DecodeBlockColor d c0
  if r.1 = Etc2Mode.planar then DecodePlanar clampu8 d
  else Decode.etc1 clampu8 g_table r.2 d

/-- The bitmap being written and the four row pointers `l[0..3]` (as indices into it). -/
structure DecState where
  bmp : List Nat
  l0 : Nat
  l1 : Nat
  l2 : Nat
  l3 : Nat
  deriving DecidableEq, Repr

/-- The store `*l[j]++ = v`. -/
def DecState.put (s : DecState) (j v : Nat) : DecState :=
  match j with
  | 0 => { s with bmp := s.bmp.set s.l0 v, l0 := s.l0 + 1 }
  | 1 => { s with bmp := s.bmp.set s.l1 v, l1 := s.l1 + 1 }
  | 2 => { s with bmp := s.bmp.set s.l2 v, l2 := s.l2 + 1 }
  | _ => { s with bmp := s.bmp.set s.l3 v, l3 := s.l3 + 1 }

/-- The inner loop `for( int x=0; x<m_size.x/4; x++ )` of `Decode`, run for `n` blocks
starting with block number `k`; `stores k` are the stores of block `k`, or the fault of
reading its word. -/
def Decode.blockRow (stores : Nat → Except Fault (List (Nat × Nat))) :
    Nat → Nat → DecState → Except Fault DecState
  | 0, _, s => .ok s
  | n + 1, k, s => do
    let st ← stores k
    Decode.blockRow stores n (k + 1) (st.foldl (fun st p => st.put p.1 p.2) s)

/-- The outer loop `for( int y=0; y<m_size.y/4; y++ )` of `Decode`, run for `n` block rows of
`bw` blocks each; after a row every pointer moves on by the `int` product `m_size.x * 3`. -/
def Decode.blockRows (stores : Nat → Except Fault (List (Nat × Nat))) (bw : Nat)
    (sizex : Int) : Nat → Nat → DecState → Except Fault DecState
  | 0, _, s => .ok s
  | n + 1, k, s => do
    let s1 ← Decode.blockRow stores bw k s
    let skip ← chkInt (sizex * 3)
    Decode.blockRows stores bw sizex n (k + bw)
      { s1 with l0 := s1.l0 + skip.toNat, l1 := s1.l1 + skip.toNat, l2 := s1.l2 + skip.toNat,
                l3 := s1.l3 + skip.toNat }

/-- The method `BlockData::Decode`: the pixel data of the returned bitmap.  `fresh` gives the
initial content of the newly allocated bitmap and `garbage k` the content of the
uninitialised `BlockColor` when block `k` is decoded. -/
def BlockData.Decode (clampu8 : Int → Nat) (g_table : Nat → Nat → Int)
    (garbage : Nat → BlockColor) (fresh : Nat → Nat) (b : BlockData) :
    Except Fault (List Nat) := do
  let sx := b.m_size.x.toNat
  let sy := b.m_size.y.toNat
  let stores := fun k => do
    let d ← b.word k
    .ok (Decode.block clampu8 g_table (garbage k) d)
  let s0 : DecState :=
    { bmp := (List.range (sx * sy)).map fresh, l0 := 0, l1 := sx, l2 := sx + sx,
      l3 := sx + sx + sx }
  let s ← Decode.blockRows stores (sx / 4) b.m_size.x (sy / 4) 0 s0
  .ok s.bmp

/-! ## `BlockData::Dissect` -/

/-- The statement `assert( false )` of `Dissect`: with `NDEBUG` defined it does nothing, so
control falls through to the `break` without a store through `dst`; otherwise the program
stops. -/
def Dissect.assertFalse (ndebug : Bool) : Except Fault (Option Nat) :=
  if ndebug then .ok none else .error Fault.assertion

/-- The `switch( mode )` statement of `Dissect`: the value stored by `*dst++ = ...` into the
block-type bitmap, if a store is made. -/
def Dissect.typePixel (ndebug : Bool) (d : Nat) : Etc2Mode → Except Fault (Option Nat)
  | Etc2Mode.none =>
    if d &&& 0x3 = 0 then .ok (some 0xFF000088)
    else if d &&& 0x3 = 1 then .ok (some 0xFF008800)
    else if d &&& 0x3 = 2 then .ok (some 0xFF0000FF)
    else if d &&& 0x3 = 3 then .ok (some 0xFF00FF00)
    else Dissect.assertFalse ndebug
  | Etc2Mode.planar => .ok (some 0xFFFF0000)
  | _ => Dissect.assertFalse ndebug

/-- The value of `*dst3++ = 0xFF000000 | ( tcw[0] << 8 ) | ( tcw[1] )` with
`tcw[0] = ( d & 0xE0 )` and `tcw[1] = ( d & 0x1C ) << 3` converted to `uint`. -/
def Dissect.selPixel (d : Nat) : Nat :=
  let tcw0 := (d &&& 0xE0) % 4294967296
  let tcw1 := ((d &&& 0x1C) <<< 3) % 4294967296
  0xFF000000 ||| (tcw0 <<< 8) % 4294967296 ||| tcw1

/-- The pixel word `0xFF000000 | ( b << 16 ) | ( g << 8 ) | r` in `uint32` arithmetic. -/
def Dissect.color (r g b : Nat) : Nat :=
  0xFF000000 ||| (b <<< 16) % 4294967296 ||| (g <<< 8) % 4294967296 ||| r

/-- The stores of the `if( d & 0x1 )` statement of `Dissect` into the endpoint bitmap, in
program order, each as (index of the row pointer, value stored).  With the flip bit each of
the four passes stores `c1` through `l[0]`, `l[1]` and `c2` through `l[2]`, `l[3]`; without it
two passes store `c1` through all four pointers and two more store `c2`. -/
def Dissect.endpoints (c : BlockColor) (d : Nat) : List (Nat × Nat) :=
  let p1 := Dissect.color c.r1 c.g1 c.b1
  let p2 := Dissect.color c.r2 c.g2 c.b2
  if d &&& 0x1 ≠ 0 then
    (List.range 4).flatMap fun _ => [(0, p1), (1, p1), (2, p2), (3, p2)]
  else
    ((List.range 2).flatMap fun _ => [(0, p1), (1, p1), (2, p1), (3, p1)]) ++
    ((List.range 2).flatMap fun _ => [(0, p2), (1, p2), (2, p2), (3, p2)])

/-- What the body of the inner loop of `Dissect` stores for one block: through `dst` (at most
one value), through `dst3`, and through the row pointers `l[0..3]`. -/
structure DissectBlock where
  type : Option Nat
  sel : Nat
  color : List (Nat × Nat)
  deriving DecidableEq, Repr

/-- The body of the inner loop of `Dissect` for one block word read from the payload.  `c0` is
the content of the uninitialised local `BlockColor c`. -/
def Dissect.block (ndebug : Bool) (c0 : BlockColor) (word : Nat) :
    Except Fault DissectBlock := do
  let d := permuteBytes word
  let r := DecodeBlockColor d c0
  let t ← Dissect.typePixel ndebug d r.1
  .ok { type := t, sel := Dissect.selPixel d, color := Dissect.endpoints r.2 d }

/-- The three bitmaps `Dissect` fills, with the pointers `dst`, `dst3` (as indices) and the
endpoint bitmap with its row pointers `l[0..3]`. -/
structure DisState where
  bmp : List Nat
  dst : Nat
  bmp3 : List Nat
  dst3 : Nat
  col : DecState
  deriving DecidableEq, Repr

/-- The stores of one block applied to the bitmaps. -/
def DisState.apply (s : DisState) (r : DissectBlock) : DisState :=
  { bmp := match r.type with
      | some v => s.bmp.set s.dst v
      | none => s.bmp
    dst := match r.type with
      | some _ => s.dst + 1
      | none => s.dst
    bmp3 := s.bmp3.set s.dst3 r.sel
    dst3 := s.dst3 + 1
    col := r.color.foldl (fun st p => st.put p.1 p.2) s.col }

/-- The inner loop `for( int x=0; x<size.x; x++ )` of `Dissect`, run for `n` blocks starting
with block number `k`; `body k` is the outcome of the loop body for block `k`. -/
def Dissect.blockRow (body : Nat → Except Fault DissectBlock) :
    Nat → Nat → DisState → Except Fault DisState
  | 0, _, s => .ok s
  | n + 1, k, s => do
    let r ← body k
    Dissect.blockRow body n (k + 1) (s.apply r)

/-- The outer loop `for( int y=0; y<size.y; y++ )` of `Dissect`, run for `n` block rows of
`bw` blocks each; after a row every row pointer moves on by the `int` product
`m_size.x * 3`. -/
def Dissect.blockRows (body : Nat → Except Fault DissectBlock) (bw : Nat) (sizex : Int) :
    Nat → Nat → DisState → Except Fault DisState
  | 0, _, s => .ok s
  | n + 1, k, s => do
    let s1 ← Dissect.blockRow body bw k s
    let skip ← chkInt (sizex * 3)
    Dissect.blockRows body bw sizex n (k + bw)
      { s1 with col := { s1.col with l0 := s1.col.l0 + skip.toNat, l1 := s1.col.l1 + skip.toNat,
                                     l2 := s1.col.l2 + skip.toNat,
                                     l3 := s1.col.l3 + skip.toNat } }

/-- The method `BlockData::Dissect`: the pixel data of the three bitmaps it writes out, in the
order block types, endpoint colours, selectors.  `size = m_size / 4` divides both components
as `int`s.  `fresh1`, `fresh2`, `fresh3` give the initial content of the newly allocated
bitmaps and `garbage k` the content of the uninitialised `BlockColor` for block `k`. -/
def BlockData.Dissect (ndebug : Bool) (garbage : Nat → BlockColor)
    (fresh1 fresh2 fresh3 : Nat → Nat) (b : BlockData) :
    Except Fault (List Nat × List Nat × List Nat) := do
  let sx := b.m_size.x.toNat
  let sy := b.m_size.y.toNat
  let body := fun k => do
    let d ← b.word k
    Dissect.block ndebug (garbage k) d
  let s0 : DisState :=
    { bmp := (List.range ((sx / 4) * (sy / 4))).map fresh1, dst := 0
      bmp3 := (List.range ((sx / 4) * (sy / 4))).map fresh3, dst3 := 0
      col := { bmp := (List.range (sx * sy)).map fresh2, l0 := 0, l1 := sx, l2 := sx + sx,
               l3 := sx + sx + sx } }
  let s ← Dissect.blockRows body (sx / 4) b.m_size.x (sy / 4) 0 s0
  .ok (s.bmp, s.col.bmp, s.bmp3)
/-! ## Instances of the external functions, used to run the definitions on concrete inputs -/

/-- Saturation of a signed value to `0..255`, an instance of `clampu8`. -/
def clampu8_sat (v : Int) : Nat := (max 0 (min v 255)).toNat

/-- The ETC1 intensity modifier table, an instance of `g_table`. -/
def g_table_etc1 (cw sel : Nat) : Int :=
  (([[2, 8, -2, -8], [5, 17, -5, -17], [9, 29, -9, -29], [13, 42, -13, -42],
     [18, 60, -18, -60], [24, 80, -24, -80], [33, 106, -33, -106],
     [47, 183, -47, -183]] : List (List Int)).getD cw []).getD sel 0

/-- A PVR v3 file without payload: the thirteen header words with the given height, width,
mipmap count and metadata size. -/
def examplePVR (height width levels metadata : Nat) : Mem :=
  [0x03525650, 0, 6, 0, 0, 0, height, width, 1, 1, 1, levels, metadata].flatMap le32

/-- A KTX file of an 8x8 ETC1 image: the 12-byte identifier and the thirteen header fields
(endianness, type, type size, format, internal format, base internal format, width 8,
height 8, depth, array elements, faces, mipmap levels, key-value bytes 0), the image size 32
and 32 payload bytes; the payload starts at byte 68. -/
def exampleKTX : Mem :=
  [0x58544BAB, 0xBB313120, 0x0A1A0A0D, 0x04030201, 0, 1, 0, 0x8D64, 0x1907, 8, 8, 0, 0, 1, 1,
    0, 32].flatMap le32 ++ List.replicate 32 0xEE

/-- Encoders that tell the four external kernels apart (they return 0, 1, 2, 3) and a dither
pass that reverses the tile. -/
def exampleCodec : Codec :=
  { ProcessRGB := fun _ => 0
    ProcessRGB_AVX2 := fun _ => 1
    ProcessRGB_ETC2 := fun _ => 2
    ProcessRGB_ETC2_AVX2 := fun _ => 3
    Dither := List.reverse }

/-- A `BlockData` of a 4x4 image: a 52-byte header and one block word
`0x0000000002FB0000`, which is a planar block. -/
def exampleBlockData : BlockData :=
  { m_data := examplePVR 4 4 1 0 ++ [0, 0, 0xFB, 2, 0, 0, 0, 0]
    m_size := ⟨4, 4⟩
    m_dataOffset := 52
    m_maplen := 60 }


/-- A `BlockData` of a 4x4 image: a 52-byte header and one block word
`0x00000000020000FB`, which is classified T (red base 31, delta +3). -/
def exampleBlockDataT : BlockData :=
  { m_data := examplePVR 4 4 1 0 ++ [0xFB, 0, 0, 2, 0, 0, 0, 0]
    m_size := ⟨4, 4⟩
    m_dataOffset := 52
    m_maplen := 60 }

/-- A `BlockData` of an 8x8 image: a 52-byte header and four block words, in block order a
planar word, a T word, a differential word and an individual word. -/
def exampleBlockData8 : BlockData :=
  { m_data := examplePVR 8 8 1 0 ++ [0, 0, 0xFB, 2, 0, 0, 0, 0] ++ [0xFB, 0, 0, 2, 0, 0, 0, 0] ++
      [0xF8, 0, 0, 2, 0, 0, 0, 0] ++ [0x12, 0x34, 0x56, 0, 0x1B, 0xE4, 0x5A, 0xA5]
    m_size := ⟨8, 8⟩
    m_dataOffset := 52
    m_maplen := 84 }
/-! ## Definitions that follow the wording of the specification -/

/-- The 5-bit base colour field at bits `pos+3 .. pos+7` of the permuted word, as the
specification reads it. -/
def specBase (d pos : Nat) : Int := ((d / 2 ^ (pos + 3) % 32 : Nat) : Int)

/-- The two's-complement 3-bit delta field at bits `pos .. pos+2` of the permuted word, as the
specification reads it. -/
def specDelta (d pos : Nat) : Int :=
  if d / 2 ^ pos % 8 < 4 then ((d / 2 ^ pos % 8 : Nat) : Int)
  else ((d / 2 ^ pos % 8 : Nat) : Int) - 8

/-- The candidate second endpoint `base + delta` of the channel whose delta starts at bit
`pos` (24 for red, 16 for green, 8 for blue). -/
def specCandidate (d pos : Nat) : Int := specBase d pos + specDelta d pos

/-- Membership in the 5-bit range `[0, 31]`. -/
def specInside (x : Int) : Prop := 0 ≤ x ∧ x ≤ 31

instance (x : Int) : Decidable (specInside x) := by unfold specInside; infer_instance

/-- The classification of the specification: without the diff bit `none`; with it, the first
channel in the order red, green, blue whose candidate leaves `[0, 31]` decides between T, H
and planar, and `none` when all three stay inside. -/
def specMode (d : Nat) : Etc2Mode :=
  if d / 2 % 2 = 0 then Etc2Mode.none
  else if ¬ specInside (specCandidate d 24) then Etc2Mode.t
  else if ¬ specInside (specCandidate d 16) then Etc2Mode.h
  else if ¬ specInside (specCandidate d 8) then Etc2Mode.planar
  else Etc2Mode.none

/-- The dimension of mipmap level `i` as the specification gives it: `max(1, dim >> i)`. -/
def specLevelDim (dim i : Nat) : Nat := max 1 (dim >>> i)

/-- The payload bytes of mipmap level `i` as the specification gives them:
`max(4, w_i) * max(4, h_i) / 2`. -/
def specLevelBytes (w h i : Nat) : Nat :=
  max 4 (specLevelDim w i) * max 4 (specLevelDim h i) / 2

/-- The mipmap chain length of the specification: `floor(log2(max(w, h))) + 1`. -/
def specLevels (w h : Nat) : Nat := Nat.log2 (max w h) + 1

/-- The payload bytes of the levels `1 .. L-1` of the chain. -/
def specMipBytes (w h : Nat) : Nat :=
  ∑ i ∈ Finset.Ico 1 (specLevels w h), specLevelBytes w h i

/-- The kernel the specification selects: the base encoder by `etc2`, its AVX2 variant by
`avx2`, run after the dither pass when `dither` holds. -/
def specKernel (ext : Codec) (etc2 avx2 dither : Bool) (buf : List Nat) : Nat :=
  let tile := if dither then ext.Dither buf else buf
  if etc2 then
    if avx2 then ext.ProcessRGB_ETC2_AVX2 tile else ext.ProcessRGB_ETC2 tile
  else
    if avx2 then ext.ProcessRGB_AVX2 tile else ext.ProcessRGB tile

/-- Bit `n` of a word. -/
def specBit (d n : Nat) : Nat := d / 2 ^ n % 2

/-- The `n`-bit field of a word whose lowest bit is bit `lo`. -/
def specField (d lo n : Nat) : Nat := d / 2 ^ lo % 2 ^ n

/-- The pixel at column `x`, row `y` of a block, read off the stores of the block: the value
of the `x`-th store through the row pointer `l[y]`. -/
def Decode.pixelAt (stores : List (Nat × Nat)) (x y : Nat) : Option Nat :=
  ((stores.filter (fun p => p.1 == y)).map (fun p => p.2))[x]?

/-- The 4-bit expansion of the specification, `(v<<4) | v`. -/
def specExpand4 (v : Nat) : Nat := (v <<< 4) ||| v

/-- The 5-bit expansion of the specification, `(v<<3) | (v>>2)`. -/
def specExpand5 (v : Nat) : Nat := (v <<< 3) ||| (v >>> 2)

/-- The 6-bit expansion of the specification, `(v<<2) | (v>>4)`. -/
def specExpand6 (v : Nat) : Nat := (v <<< 2) ||| (v >>> 4)

/-- The 7-bit expansion of the specification, `(v<<1) | (v>>6)`. -/
def specExpand7 (v : Nat) : Nat := (v <<< 1) ||| (v >>> 6)

/-- The red, green and blue bytes of a pixel word `0xAABBGGRR`. -/
def specRGB (px : Nat) : Nat × Nat × Nat := (px % 256, px / 256 % 256, px / 65536 % 256)

/-- One channel of the planar interpolation of the specification,
`clamp_u8((i*(H-O) + j*(V-O) + 4*O + 2) >> 2)` with the shift taken as the floor of the
division by 4, for control points `O`, `H`, `V`. -/
def specPlanarChan (clampu8 : Int → Nat) (o h v : Nat) (i j : Nat) : Nat :=
  clampu8 (((i : Int) * ((h : Int) - (o : Int)) + (j : Int) * ((v : Int) - (o : Int)) +
    4 * (o : Int) + 2) / 4)

/-- The row pointer `l[j]` of a decoder state. -/
def DecState.l (s : DecState) (j : Nat) : Nat :=
  match j with
  | 0 => s.l0
  | 1 => s.l1
  | 2 => s.l2
  | _ => s.l3

/-- The number of stores through the row pointer `l[y]` in a list of stores. -/
def Decode.rowCount (stores : List (Nat × Nat)) (y : Nat) : Nat :=
  (stores.filter (fun p => p.1 == y)).length


/-- The bit of the source word that lands at bit `i` of the result when the four bytes of
each 32-bit half are reversed: same half, byte `3 - b` for byte `b` of the half, same bit
inside the byte. -/
def specSwapBit (i : Nat) : Nat := 32 * (i / 32) + 8 * (3 - i % 32 / 8) + i % 8
/-! ## Bit-level lemmas -/

theorem and_mask_shiftRight (x s n : Nat) :
    (x &&& ((2 ^ n - 1) <<< s)) >>> s = (x >>> s) % 2 ^ n := by
  apply Nat.eq_of_testBit_eq
  intro i
  simp only [Nat.testBit_shiftRight, Nat.testBit_and, Nat.testBit_shiftLeft,
    Nat.testBit_mod_two_pow, Nat.testBit_two_pow_sub_one]
  have h : s + i - s = i := by omega
  rw [h]
  by_cases hi : i < n <;> simp [hi]

theorem or_eq_add_of_lt {a : Nat} (k : Nat) (h : a < 2 ^ k) (b : Nat) :
    a ||| 2 ^ k * b = 2 ^ k * b + a := by
  rw [Nat.or_comm]
  exact (Nat.mul_add_lt_is_or h b).symm

theorem Decode.pixel_eq_add {r g b : Nat} (hr : r < 256) (hg : g < 256) (hb : b < 256) :
    Decode.pixel r g b = 4278190080 + b * 65536 + g * 256 + r := by
  unfold Decode.pixel
  have e1 : (g <<< 8) % 4294967296 = 2 ^ 8 * g := by
    rw [Nat.shiftLeft_eq]; omega
  have e2 : (b <<< 16) % 4294967296 = 2 ^ 16 * b := by
    rw [Nat.shiftLeft_eq]; omega
  have e3 : (0xFF000000 : Nat) = 2 ^ 24 * 255 := by norm_num
  rw [e1, e2, e3, or_eq_add_of_lt 8 (by omega), or_eq_add_of_lt 16 (by omega),
    or_eq_add_of_lt 24 (by omega)]
  omega

/-- A pixel word built from three bytes is a 32-bit value whose top byte is `0xFF`. -/
theorem Decode.pixel_alpha {r g b : Nat} (hr : r < 256) (hg : g < 256) (hb : b < 256) :
    Decode.pixel r g b < 4294967296 ∧ (Decode.pixel r g b >>> 24) &&& 0xFF = 0xFF := by
  rw [Decode.pixel_eq_add hr hg hb, Nat.shiftRight_eq_div_pow]
  have e : (4278190080 + b * 65536 + g * 256 + r) / 2 ^ 24 = 255 := by omega
  rw [e]
  exact ⟨by omega, by decide⟩

theorem Decode.texel_alpha (clampu8 : Int → Nat) (g_table : Nat → Nat → Int)
    (hclamp : ∀ v, clampu8 v < 256) (r g b cw d o k : Nat) :
    Decode.texel clampu8 g_table r g b cw d o k < 4294967296 ∧
      (Decode.texel clampu8 g_table r g b cw d o k >>> 24) &&& 0xFF = 0xFF :=
  Decode.pixel_alpha (hclamp _) (hclamp _) (hclamp _)

/-! ## C1: decoded pixels are opaque -/

/-- C1: for every block word, whatever its mode (individual, differential, planar, or a word
classified T or H) and whatever the uninitialised `BlockColor` holds, `Decode` performs
sixteen pixel stores for the block and every stored pixel is a 32-bit value with alpha byte
`0xFF`, provided `clampu8` returns values in `0..255`. -/
theorem Decode_block_alpha (clampu8 : Int → Nat) (g_table : Nat → Nat → Int) (c0 : BlockColor)
    (word : Nat) (hclamp : ∀ v, clampu8 v < 256) :
    (Decode.block clampu8 g_table c0 word).length = 16 ∧
      ∀ p ∈ Decode.block clampu8 g_table c0 word,
        p.2 < 4294967296 ∧ (p.2 >>> 24) &&& 0xFF = 0xFF := by
  unfold Decode.block
  simp only []
  split
  · refine ⟨by simp [DecodePlanar, List.flatMap, List.range, List.range.loop], ?_⟩
    intro p hp
    simp only [DecodePlanar, List.mem_flatMap, List.mem_map] at hp
    obtain ⟨j, -, i, -, rfl⟩ := hp
    exact Decode.pixel_alpha (hclamp _) (hclamp _) (hclamp _)
  · unfold Decode.etc1
    simp only []
    split
    · refine ⟨by simp [List.flatMap], ?_⟩
      intro p hp
      simp only [List.mem_flatMap, List.mem_cons, List.mem_singleton, List.not_mem_nil,
        or_false] at hp
      obtain ⟨o, -, rfl | rfl | rfl | rfl⟩ := hp <;>
        exact Decode.texel_alpha clampu8 g_table hclamp _ _ _ _ _ _ _
    · refine ⟨by simp [List.flatMap], ?_⟩
      intro p hp
      simp only [List.mem_append, List.mem_flatMap, List.mem_cons, List.mem_singleton,
        List.not_mem_nil, or_false] at hp
      obtain ⟨o, -, rfl | rfl | rfl | rfl⟩ | ⟨o, -, rfl | rfl | rfl | rfl⟩ := hp <;>
        exact Decode.texel_alpha clampu8 g_table hclamp _ _ _ _ _ _ _

theorem clampu8_sat_lt (v : Int) : clampu8_sat v < 256 := by
  unfold clampu8_sat
  omega

/-- Witness for C1: the word `0x0200FB00`, which after the byte permutation is `0x00FB0002`
(diff bit set, green 31 + 3 out of range, so classified H), decoded with the saturating clamp
and arbitrary content in the uninitialised colour. -/
theorem Decode_block_alpha_witness :
    (∀ v, clampu8_sat v < 256) ∧
    (Decode.block clampu8_sat g_table_etc1 ⟨0, 0, 0, 77777, 0, 4294967295⟩ 0x0200FB00).length
      = 16 ∧
    ∀ p ∈ Decode.block clampu8_sat g_table_etc1 ⟨0, 0, 0, 77777, 0, 4294967295⟩ 0x0200FB00,
      p.2 < 4294967296 ∧ (p.2 >>> 24) &&& 0xFF = 0xFF :=
  ⟨clampu8_sat_lt, Decode_block_alpha clampu8_sat g_table_etc1 _ _ clampu8_sat_lt⟩

/-! ## C2: mode classification of `DecodeBlockColor` -/

theorem and_shiftLeft_mask (x s n : Nat) :
    x &&& ((2 ^ n - 1) <<< s) = (x / 2 ^ s % 2 ^ n) * 2 ^ s := by
  rw [← Nat.shiftLeft_eq, ← Nat.shiftRight_eq_div_pow]
  apply Nat.eq_of_testBit_eq
  intro i
  simp only [Nat.testBit_shiftRight, Nat.testBit_and, Nat.testBit_shiftLeft,
    Nat.testBit_mod_two_pow, Nat.testBit_two_pow_sub_one]
  by_cases hi : i ≥ s
  · have h : s + (i - s) = i := by omega
    rw [h]
    by_cases hn : i - s < n <;> simp [hi, hn]
  · simp [hi]

theorem signExtend_eq (v : Nat) (h : v < 8) :
    DecodeBlockColor.signExtend v = if v < 4 then (v : Int) else (v : Int) - 8 := by
  interval_cases v <;> rfl

theorem field_eq (d s n : Nat) :
    (d &&& ((2 ^ n - 1) <<< s)) >>> s = d / 2 ^ s % 2 ^ n := by
  rw [and_mask_shiftRight, Nat.shiftRight_eq_div_pow]

theorem DecodeBlockColor_mode_eq (d : Nat) (c : BlockColor) :
    (DecodeBlockColor d c).1 = specMode d := by
  have m2 : d &&& 0x2 = (d / 2 ^ 1 % 2 ^ 1) * 2 ^ 1 := and_shiftLeft_mask d 1 1
  have hdiff : (d &&& 0x2 ≠ 0) ↔ ¬ (d / 2 % 2 = 0) := by rw [m2]; omega
  have mr1 : (d &&& 0xF8000000) >>> 27 = d / 2 ^ (24 + 3) % 32 := field_eq d 27 5
  have mg1 : (d &&& 0x00F80000) >>> 19 = d / 2 ^ (16 + 3) % 32 := field_eq d 19 5
  have mb1 : (d &&& 0x0000F800) >>> 11 = d / 2 ^ (8 + 3) % 32 := field_eq d 11 5
  have mdr : (d &&& 0x07000000) >>> 24 = d / 2 ^ 24 % 8 := field_eq d 24 3
  have mdg : (d &&& 0x00070000) >>> 16 = d / 2 ^ 16 % 8 := field_eq d 16 3
  have mdb : (d &&& 0x00000700) >>> 8 = d / 2 ^ 8 % 8 := field_eq d 8 3
  have sr := signExtend_eq (d / 2 ^ 24 % 8) (Nat.mod_lt _ (by norm_num))
  have sg := signExtend_eq (d / 2 ^ 16 % 8) (Nat.mod_lt _ (by norm_num))
  have sb := signExtend_eq (d / 2 ^ 8 % 8) (Nat.mod_lt _ (by norm_num))
  have er : ∀ p, (((d / 2 ^ (p + 3) % 32 : Nat) : Int) +
        (if d / 2 ^ p % 8 < 4 then ((d / 2 ^ p % 8 : Nat) : Int)
          else ((d / 2 ^ p % 8 : Nat) : Int) - 8) < 0 ∨
      ((d / 2 ^ (p + 3) % 32 : Nat) : Int) +
        (if d / 2 ^ p % 8 < 4 then ((d / 2 ^ p % 8 : Nat) : Int)
          else ((d / 2 ^ p % 8 : Nat) : Int) - 8) > 31) ↔
      ¬ specInside (specCandidate d p) := by
    intro p
    unfold specInside specCandidate specBase specDelta
    omega
  unfold DecodeBlockColor specMode
  simp only [hdiff, mr1, mg1, mb1, mdr, mdg, mdb, sr, sg, sb, er]
  by_cases h0 : d / 2 % 2 = 0
  · simp only [h0, not_true_eq_false, if_false, if_true]
  · simp only [h0, not_false_eq_true, if_false, if_true]
    by_cases hr : specInside (specCandidate d 24) <;>
    by_cases hg : specInside (specCandidate d 16) <;>
    by_cases hb : specInside (specCandidate d 8) <;>
    simp only [hr, hg, hb, not_true_eq_false, not_false_eq_true, if_false, if_true]

/-- C2: on the byte-permuted word `d`, `DecodeBlockColor` classifies a block whose diff bit
(bit 1) is set from the candidate second endpoint `r = r1+dr`, `g = g1+dg`, `b = b1+db`
(5-bit bases at bits 27..31, 19..23, 11..15, two's-complement 3-bit deltas at bits 24..26,
16..18, 8..10): it returns T iff `r` is outside `[0,31]`, H iff `r` is inside and `g` outside,
planar iff `r` and `g` are inside and `b` outside, none iff all three are inside.  A block
whose diff bit is clear is classified none.  With `r1 = 30`, `dr = +1` the red channel does
not leave differential mode (the block is none exactly when green and blue stay inside, as in
the word `0xF1000002`), and with `r1 = 30`, `dr = +2` the block leaves it (T, as in
`0xF2000002`). -/
theorem DecodeBlockColor_classifies (d : Nat) (c : BlockColor) :
    (d / 2 % 2 = 1 →
      ((DecodeBlockColor d c).1 = Etc2Mode.t ↔ ¬ specInside (specCandidate d 24)) ∧
      ((DecodeBlockColor d c).1 = Etc2Mode.h ↔
        specInside (specCandidate d 24) ∧ ¬ specInside (specCandidate d 16)) ∧
      ((DecodeBlockColor d c).1 = Etc2Mode.planar ↔
        specInside (specCandidate d 24) ∧ specInside (specCandidate d 16) ∧
          ¬ specInside (specCandidate d 8)) ∧
      ((DecodeBlockColor d c).1 = Etc2Mode.none ↔
        specInside (specCandidate d 24) ∧ specInside (specCandidate d 16) ∧
          specInside (specCandidate d 8))) ∧
    (d / 2 % 2 = 0 → (DecodeBlockColor d c).1 = Etc2Mode.none) ∧
    (d / 2 % 2 = 1 → specBase d 24 = 30 → specDelta d 24 = 1 →
      (DecodeBlockColor d c).1 ≠ Etc2Mode.t ∧
      ((DecodeBlockColor d c).1 = Etc2Mode.none ↔
        specInside (specCandidate d 16) ∧ specInside (specCandidate d 8))) ∧
    (d / 2 % 2 = 1 → specBase d 24 = 30 → specDelta d 24 = 2 →
      (DecodeBlockColor d c).1 = Etc2Mode.t) ∧
    (DecodeBlockColor 0xF1000002 c).1 = Etc2Mode.none ∧
    (DecodeBlockColor 0xF2000002 c).1 = Etc2Mode.t := by
  rw [DecodeBlockColor_mode_eq d c, DecodeBlockColor_mode_eq, DecodeBlockColor_mode_eq]
  refine ⟨?_, ?_, ?_, ?_, by decide, by decide⟩
  · intro hd
    have hd0 : ¬ (d / 2 % 2 = 0) := by omega
    unfold specMode
    rw [if_neg hd0]
    by_cases hr : specInside (specCandidate d 24) <;>
    by_cases hg : specInside (specCandidate d 16) <;>
    by_cases hb : specInside (specCandidate d 8) <;> simp [hr, hg, hb]
  · intro hd
    unfold specMode
    rw [if_pos hd]
  · intro hd h30 h1
    have hd0 : ¬ (d / 2 % 2 = 0) := by omega
    have hr : specInside (specCandidate d 24) := by
      unfold specInside specCandidate; omega
    unfold specMode
    rw [if_neg hd0]
    by_cases hg : specInside (specCandidate d 16) <;>
    by_cases hb : specInside (specCandidate d 8) <;> simp [hr, hg, hb]
  · intro hd h30 h2
    have hd0 : ¬ (d / 2 % 2 = 0) := by omega
    have hr : ¬ specInside (specCandidate d 24) := by
      unfold specInside specCandidate; omega
    unfold specMode
    rw [if_neg hd0, if_pos hr]
/-! ## Lemmas on the byte memory and the header -/

theorem toU32_lt (x : Int) : toU32 x < 4294967296 := by
  unfold toU32
  omega

theorem toU32_of_nonneg (x : Int) (h0 : 0 ≤ x) (h1 : x < 4294967296) : (toU32 x : Int) = x := by
  unfold toU32
  omega

theorem toI32_toU32 (x : Int) (h0 : -2147483648 ≤ x) (h1 : x ≤ 2147483647) :
    toI32 (toU32 x) = x := by
  unfold toI32 toU32
  split <;> omega

theorem toI32_of_lt (n : Nat) (h : n < 2147483648) : toI32 n = (n : Int) := by
  unfold toI32
  split <;> omega

theorem load8_take (m : Mem) (n a : Nat) (h : a < n) : load8 (m.take n) a = load8 m a := by
  unfold load8
  rw [List.getD_eq_getElem?_getD, List.getD_eq_getElem?_getD, List.getElem?_take_of_lt h]

theorem load32_take (m : Mem) (n a : Nat) (h : a + 3 < n) :
    load32 (m.take n) a = load32 m a := by
  unfold load32
  rw [load8_take m n a (by omega), load8_take m n (a + 1) (by omega),
    load8_take m n (a + 2) (by omega), load8_take m n (a + 3) (by omega)]

theorem store8_length (m : Mem) (a v : Nat) : (store8 m a v).length = m.length := by
  simp [store8]

theorem store32_length (m : Mem) (a v : Nat) : (store32 m a v).length = m.length := by
  simp [store32, store8_length]

theorem store32_mid (pre rest : Mem) (x0 x1 x2 x3 v : Nat) :
    store32 (pre ++ x0 :: x1 :: x2 :: x3 :: rest) pre.length v = pre ++ le32 v ++ rest := by
  simp [store32, store8, le32, List.set_append]

theorem storeWords_mid (ws : List Nat) (pre m : Mem) (h : 4 * ws.length ≤ m.length) :
    storeWords (pre ++ m) pre.length ws = pre ++ ws.flatMap le32 ++ m.drop (4 * ws.length) := by
  induction ws generalizing pre m with
  | nil => simp [storeWords]
  | cons w ws ih =>
    simp only [List.length_cons] at h
    match m, h with
    | x0 :: x1 :: x2 :: x3 :: rest, h =>
      simp only [List.length_cons] at h
      simp only [storeWords]
      rw [store32_mid]
      have hl : pre.length + 4 = (pre ++ le32 w).length := by simp [le32]
      rw [hl, ih (pre ++ le32 w) rest (by omega)]
      have hd : 4 * (ws.length + 1) = (4 * ws.length) + 4 := by omega
      simp [List.flatMap_cons, hd]

/-- The bytes `OpenForWriting` leaves in a file of at least 52 bytes. -/
theorem OpenForWriting_eq (len : Nat) (size : v2i) (levels : Int) (hlen : 52 ≤ len) :
    OpenForWriting len size levels =
      (headerWords size levels).flatMap le32 ++ List.replicate (len - 52) 0 := by
  unfold OpenForWriting
  have h := storeWords_mid (headerWords size levels) [] (List.replicate len 0)
    (by simp [headerWords]; omega)
  simp only [List.nil_append, List.length_nil] at h
  rw [h]
  simp [headerWords]

theorem OpenForWriting_take (len : Nat) (size : v2i) (levels : Int) (hlen : 52 ≤ len) :
    (OpenForWriting len size levels).take 52 = (headerWords size levels).flatMap le32 := by
  rw [OpenForWriting_eq len size levels hlen]
  exact List.take_left' (by simp [headerWords, List.flatMap, le32])

theorem load32_flatMap (ws : List Nat) (i : Nat) (h : i < ws.length) :
    load32 (ws.flatMap le32) (4 * i) = ws[i] % 4294967296 := by
  induction ws generalizing i with
  | nil => simp at h
  | cons w ws ih =>
    cases i with
    | zero =>
      simp only [List.flatMap_cons, le32, load32, load8, List.cons_append, List.nil_append,
        Nat.mul_zero, Nat.zero_add, List.getD_cons_succ, List.getD_cons_zero,
        List.getElem_cons_zero]
      omega
    | succ i =>
      simp only [List.length_cons] at h
      have hi := ih i (by omega)
      have e : 4 * (i + 1) = 4 * i + 1 + 1 + 1 + 1 := by omega
      simp only [List.flatMap_cons, le32, load32, load8, List.cons_append, List.nil_append,
        List.getD_cons_succ, e, List.getElem_cons_succ] at hi ⊢
      exact hi

/-- A 32-bit word read from the header bytes of `OpenForWriting`. -/
theorem load32_header (size : v2i) (levels : Int) :
    load32 ((headerWords size levels).flatMap le32) 0 = 0x03525650 ∧
    load32 ((headerWords size levels).flatMap le32) (4 * 6) = toU32 size.y ∧
    load32 ((headerWords size levels).flatMap le32) (4 * 7) = toU32 size.x ∧
    load32 ((headerWords size levels).flatMap le32) (4 * 11) = toU32 levels ∧
    load32 ((headerWords size levels).flatMap le32) (4 * 12) = 0 := by
  have hy := toU32_lt size.y
  have hx := toU32_lt size.x
  have hl := toU32_lt levels
  have h0 := load32_flatMap (headerWords size levels) 0 (by simp [headerWords])
  refine ⟨?_, ?_, ?_, ?_, ?_⟩
  · rw [h0]; rfl
  · rw [load32_flatMap _ 6 (by simp [headerWords])]
    exact Nat.mod_eq_of_lt hy
  · rw [load32_flatMap _ 7 (by simp [headerWords])]
    exact Nat.mod_eq_of_lt hx
  · rw [load32_flatMap _ 11 (by simp [headerWords])]
    exact Nat.mod_eq_of_lt hl
  · rw [load32_flatMap _ 12 (by simp [headerWords])]
    rfl

/-- What the reader makes of any file that starts with the header of `OpenForWriting`. -/
theorem ofFile_written (ndebug : Bool) (garbage : BlockData) (len : Nat) (size : v2i)
    (levels : Int) (file : Mem) (hlen : 52 ≤ len)
    (hfile : file.take 52 = (OpenForWriting len size levels).take 52) :
    BlockData.ofFile ndebug garbage file =
      some { m_data := file
             m_size := { x := toI32 (toU32 size.x), y := toI32 (toU32 size.y) }
             m_dataOffset := 52
             m_maplen := file.length } := by
  rw [OpenForWriting_take len size levels hlen] at hfile
  obtain ⟨h0, h6, h7, -, h12⟩ := load32_header size levels
  rw [← hfile] at h0 h6 h7 h12
  rw [load32_take _ _ _ (by norm_num)] at h0 h6 h7 h12
  unfold BlockData.ofFile
  rw [if_pos h0, h6, h7, h12]
/-! ## C3: reading back a written PVR v3 file -/

theorem OpenForWriting_length (len : Nat) (size : v2i) (levels : Int) (hlen : 52 ≤ len) :
    (OpenForWriting len size levels).length = len := by
  rw [OpenForWriting_eq len size levels hlen]
  simp [headerWords, le32]
  omega

theorem ofFile_written_append (ndebug : Bool) (garbage : BlockData) (len : Nat) (size : v2i)
    (levels : Int) (payload : List Nat) (hlen : 52 ≤ len) :
    BlockData.ofFile ndebug garbage ((OpenForWriting len size levels).take 52 ++ payload) =
      some { m_data := (OpenForWriting len size levels).take 52 ++ payload
             m_size := { x := toI32 (toU32 size.x), y := toI32 (toU32 size.y) }
             m_dataOffset := 52
             m_maplen := ((OpenForWriting len size levels).take 52 ++ payload).length } := by
  apply ofFile_written ndebug garbage len size levels _ hlen
  rw [List.take_append_of_le_length (by simp [OpenForWriting_length len size levels hlen, hlen])]
  simp

/-- C3 (as amended): for every size whose components are 32-bit `int`s, every mipmap count
`L` and every payload, opening the file made of the header `OpenForWriting` writes followed by
the payload gives (with or without `NDEBUG`) the same size and the data offset 52 at which
the creating constructors place the payload, hence the same payload bytes.  The mipmap count
stays in header word 11 of the mapped file, but the reader parses no field from it. -/
theorem PVR_roundtrip (ndebug : Bool) (garbage : BlockData) (len : Nat) (size : v2i)
    (levels : Int) (payload : List Nat) (hlen : 52 ≤ len)
    (hx : -2147483648 ≤ size.x ∧ size.x ≤ 2147483647)
    (hy : -2147483648 ≤ size.y ∧ size.y ≤ 2147483647) :
    ∃ b, BlockData.ofFile ndebug garbage
        ((OpenForWriting len size levels).take 52 ++ payload) = some b ∧
      b.m_size = size ∧ b.m_dataOffset = 52 ∧ b.payload = payload ∧
      (∀ nml mipmap w, BlockData.create nml size mipmap = .ok w →
        b.m_dataOffset = w.m_dataOffset) ∧
      load32 b.m_data (4 * 11) = toU32 levels := by
  refine ⟨_, ofFile_written_append ndebug garbage len size levels payload hlen, ?_, rfl, ?_,
    ?_, ?_⟩
  · rw [toI32_toU32 _ hx.1 hx.2, toI32_toU32 _ hy.1 hy.2]
  · have hl : ((OpenForWriting len size levels).take 52).length = 52 := by
      simp [OpenForWriting_length len size levels hlen, hlen]
    simp only [BlockData.payload]
    exact List.drop_left' hl
  · intro nml mipmap w hw
    unfold BlockData.create at hw
    cases hr : BlockData.layout nml size mipmap with
    | error e => rw [hr] at hw; cases hw
    | ok r =>
      rw [hr] at hw
      injection hw with hw
      rw [← hw]
  · simp only []
    rw [← load32_take _ 52 _ (by norm_num),
      List.take_append_of_le_length (by simp [OpenForWriting_length len size levels hlen, hlen]),
      List.take_take, Nat.min_self, OpenForWriting_take len size levels hlen]
    exact (load32_header size levels).2.2.2.1

/-- Witness for C3: a 4x4 image with one level and one 8-byte block. -/
theorem PVR_roundtrip_witness :
    (52 ≤ 60 ∧ (-2147483648 : Int) ≤ 4 ∧ (4 : Int) ≤ 2147483647) ∧
    ∃ b, BlockData.ofFile false ⟨[], ⟨0, 0⟩, 0, 0⟩
        ((OpenForWriting 60 ⟨4, 4⟩ 1).take 52 ++ [1, 2, 3, 4, 5, 6, 7, 8]) = some b ∧
      b.m_size = ⟨4, 4⟩ ∧ b.m_dataOffset = 52 ∧ b.payload = [1, 2, 3, 4, 5, 6, 7, 8] ∧
      (∀ nml mipmap w, BlockData.create nml ⟨4, 4⟩ mipmap = .ok w →
        b.m_dataOffset = w.m_dataOffset) ∧
      load32 b.m_data (4 * 11) = toU32 1 :=
  ⟨by decide,
    PVR_roundtrip false ⟨[], ⟨0, 0⟩, 0, 0⟩ 60 ⟨4, 4⟩ 1 [1, 2, 3, 4, 5, 6, 7, 8] (by decide)
      (by decide) (by decide)⟩

/-- Counterexample for C3: the fields the reader sets (`m_size`, `m_dataOffset`, `m_maplen`)
are the same for the files `OpenForWriting` writes with mipmap count 1 and with mipmap
count 5, so no mipmap count can be obtained from what the reader yields. -/
theorem PVR_reader_drops_levels :
    ¬ ∃ (ndebug : Bool) (garbage : BlockData) (L_of : v2i × Nat × Nat → Int),
      ∀ levels : Int,
        (BlockData.ofFile ndebug garbage (OpenForWriting 236 ⟨16, 16⟩ levels)).map
          (fun b => L_of (b.m_size, b.m_dataOffset, b.m_maplen)) = some levels := by
  rintro ⟨ndebug, garbage, L_of, h⟩
  have h1 := h 1
  have h5 := h 5
  rw [ofFile_written ndebug garbage 236 ⟨16, 16⟩ 1 _ (by decide) rfl,
    OpenForWriting_length _ _ _ (by decide)] at h1
  rw [ofFile_written ndebug garbage 236 ⟨16, 16⟩ 5 _ (by decide) rfl,
    OpenForWriting_length _ _ _ (by decide)] at h5
  simp only [Option.map_some', Option.some.injEq] at h1 h5
  rw [h1] at h5
  exact absurd h5 (by decide)

/-! ## C4: the KTX envelope -/

/-- C4 (the code at the failing input): for the KTX file `exampleKTX` (width 8, height 8,
no key-value data) the reader yields, with or without `NDEBUG`, size (8, 8) and the data
offset 17, not 68. -/
theorem ofFile_KTX_offset :
    (∀ (ndebug : Bool) (garbage : BlockData), BlockData.ofFile ndebug garbage exampleKTX =
      some { m_data := exampleKTX, m_size := ⟨8, 8⟩, m_dataOffset := 17, m_maplen := 100 }) ∧
    load32 exampleKTX 0 = 0x58544BAB ∧ load32 exampleKTX (4 * 15) = 0 ∧
    (17 : Nat) ≠ 68 + load32 exampleKTX (4 * 15) := by
  refine ⟨?_, by decide, by decide, by decide⟩
  intro ndebug garbage
  unfold BlockData.ofFile
  rw [if_neg (by decide), if_pos (by decide)]
  decide

/-! ## C5: the PVR v3 envelope -/

/-- C5 (as amended): for every file whose first word is `0x03525650` the reader yields
`m_size.y` = word 6 and `m_size.x` = word 7 read as signed 32-bit values (the word itself
when it is below `2^31`) and the data offset `(52 + word 12) mod 2^32`, which is
`52 + metadata_size` for every metadata size up to `0xFFFFFFCB`; this holds with and without
`NDEBUG`. -/
theorem ofFile_PVR (ndebug : Bool) (garbage : BlockData) (file : Mem)
    (h : load32 file 0 = 0x03525650) :
    ∃ b, BlockData.ofFile ndebug garbage file = some b ∧
      b.m_size.y = toI32 (load32 file (4 * 6)) ∧
      b.m_size.x = toI32 (load32 file (4 * 7)) ∧
      b.m_dataOffset = (52 + load32 file (4 * 12)) % 4294967296 ∧
      (load32 file (4 * 12) ≤ 0xFFFFFFCB → b.m_dataOffset = 52 + load32 file (4 * 12)) ∧
      (load32 file (4 * 6) < 2147483648 → b.m_size.y = (load32 file (4 * 6) : Int)) ∧
      (load32 file (4 * 7) < 2147483648 → b.m_size.x = (load32 file (4 * 7) : Int)) := by
  unfold BlockData.ofFile
  rw [if_pos h]
  refine ⟨_, rfl, rfl, rfl, rfl, ?_, ?_, ?_⟩
  · intro hm
    simp only []
    omega
  · intro hs
    exact toI32_of_lt _ hs
  · intro hs
    exact toI32_of_lt _ hs

/-- Witness for C5: a PVR v3 header of a 4x8 image with 16 bytes of metadata. -/
theorem ofFile_PVR_witness :
    load32 (examplePVR 4 8 1 16) 0 = 0x03525650 ∧
    ∃ b, BlockData.ofFile false ⟨[], ⟨0, 0⟩, 0, 0⟩ (examplePVR 4 8 1 16) = some b ∧
      b.m_size.y = toI32 (load32 (examplePVR 4 8 1 16) (4 * 6)) ∧
      b.m_size.x = toI32 (load32 (examplePVR 4 8 1 16) (4 * 7)) ∧
      b.m_dataOffset = (52 + load32 (examplePVR 4 8 1 16) (4 * 12)) % 4294967296 ∧
      (load32 (examplePVR 4 8 1 16) (4 * 12) ≤ 0xFFFFFFCB →
        b.m_dataOffset = 52 + load32 (examplePVR 4 8 1 16) (4 * 12)) ∧
      (load32 (examplePVR 4 8 1 16) (4 * 6) < 2147483648 →
        b.m_size.y = (load32 (examplePVR 4 8 1 16) (4 * 6) : Int)) ∧
      (load32 (examplePVR 4 8 1 16) (4 * 7) < 2147483648 →
        b.m_size.x = (load32 (examplePVR 4 8 1 16) (4 * 7) : Int)) :=
  ⟨by decide, ofFile_PVR false ⟨[], ⟨0, 0⟩, 0, 0⟩ (examplePVR 4 8 1 16) (by decide)⟩

/-- Counterexample for C5: with metadata size `0xFFFFFFFF` in word 12 the `unsigned int` sum
`52 + *(data32+12)` wraps and the reader yields the data offset 51, not
`52 + metadata_size`. -/
theorem ofFile_PVR_offset_wraps :
    load32 (examplePVR 4 4 1 0xFFFFFFFF) 0 = 0x03525650 ∧
    load32 (examplePVR 4 4 1 0xFFFFFFFF) (4 * 12) = 0xFFFFFFFF ∧
    (∀ (ndebug : Bool) (garbage : BlockData),
      (BlockData.ofFile ndebug garbage (examplePVR 4 4 1 0xFFFFFFFF)).map
        (fun b => b.m_dataOffset) = some 51) ∧
    (51 : Nat) ≠ 52 + load32 (examplePVR 4 4 1 0xFFFFFFFF) (4 * 12) := by
  refine ⟨by decide, by decide, ?_, by decide⟩
  intro ndebug garbage
  unfold BlockData.ofFile
  rw [if_pos (by decide)]
  decide

/-! ## C6: unsupported envelopes -/

/-- C7: for every size and level count (and every file length of at least 52 bytes) the file
`OpenForWriting` leaves starts with the thirteen little-endian words
`[0x03525650, 0, 6, 0, 0, 0, size.y, size.x, 1, 1, 1, levels, 0]` in bytes 0..51 (the `int`s
stored as `uint32`, which is the value itself when it is not negative) and is zero after
them. -/
theorem OpenForWriting_header (len : Nat) (size : v2i) (levels : Int) (hlen : 52 ≤ len) :
    OpenForWriting len size levels =
      [0x03525650, 0, 6, 0, 0, 0, toU32 size.y, toU32 size.x, 1, 1, 1, toU32 levels, 0].flatMap
        le32 ++ List.replicate (len - 52) 0 ∧
    ([0x03525650, 0, 6, 0, 0, 0, toU32 size.y, toU32 size.x, 1, 1, 1, toU32 levels,
      0].flatMap le32).length = 52 ∧
    (∀ i : Nat, i < 13 → load32 (OpenForWriting len size levels) (4 * i) =
      [0x03525650, 0, 6, 0, 0, 0, toU32 size.y, toU32 size.x, 1, 1, 1, toU32 levels,
        0].getD i 0) ∧
    ∀ v : Int, 0 ≤ v → v < 4294967296 → (toU32 v : Int) = v := by
  refine ⟨OpenForWriting_eq len size levels hlen, by simp [le32], ?_, toU32_of_nonneg⟩
  intro i hi
  rw [← load32_take _ 52 _ (by omega), OpenForWriting_take len size levels hlen,
    load32_flatMap _ i (by simp [headerWords]; omega)]
  have hy := toU32_lt size.y
  have hx := toU32_lt size.x
  have hl := toU32_lt levels
  interval_cases i <;> simp [headerWords] <;> omega

/-- Witness for C7: the header of a 16x8 image with four levels in a 236-byte file. -/
theorem OpenForWriting_header_witness :
    52 ≤ 236 ∧
    OpenForWriting 236 ⟨16, 8⟩ 4 =
      [0x03525650, 0, 6, 0, 0, 0, toU32 8, toU32 16, 1, 1, 1, toU32 4, 0].flatMap
        le32 ++ List.replicate (236 - 52) 0 ∧
    ([0x03525650, 0, 6, 0, 0, 0, toU32 8, toU32 16, 1, 1, 1, toU32 4,
      0].flatMap le32).length = 52 ∧
    (∀ i : Nat, i < 13 → load32 (OpenForWriting 236 ⟨16, 8⟩ 4) (4 * i) =
      [0x03525650, 0, 6, 0, 0, 0, toU32 8, toU32 16, 1, 1, 1, toU32 4, 0].getD i 0) ∧
    ∀ v : Int, 0 ≤ v → v < 4294967296 → (toU32 v : Int) = v :=
  ⟨by decide, OpenForWriting_header 236 ⟨16, 8⟩ 4 (by decide)⟩
/-! ## C8: the mapped length computed by the creating constructors -/

theorem chkInt_natCast (n : Nat) (h : n ≤ 2147483647) : chkInt (n : Int) = .ok (n : Int) := by
  unfold chkInt
  rw [if_pos ⟨by omega, by omega⟩]

theorem specLevelDim_succ (dim i : Nat) :
    specLevelDim dim (i + 1) = max 1 (specLevelDim dim i / 2) := by
  unfold specLevelDim
  rw [Nat.shiftRight_eq_div_pow, Nat.shiftRight_eq_div_pow, Nat.pow_succ,
    ← Nat.div_div_eq_div_mul]
  omega

theorem specLevelDim_zero (dim : Nat) (h : 1 ≤ dim) : specLevelDim dim 0 = dim := by
  unfold specLevelDim
  simp only [Nat.shiftRight_zero]
  omega

/-- One pass of the loop on a level given by natural numbers. -/
theorem AdjustSizeForMipmaps.loop_step (n a b l : Nat) (hne : ¬ (a = 1 ∧ b = 1))
    (hP : max 4 (max 1 (a / 2)) * max 4 (max 1 (b / 2)) ≤ 2147483647)
    (hS : l + max 4 (max 1 (a / 2)) * max 4 (max 1 (b / 2)) / 2 ≤ 2147483647) :
    AdjustSizeForMipmaps.loop (n + 1) ⟨(a : Int), (b : Int)⟩ (l : Int) =
      AdjustSizeForMipmaps.loop n ⟨((max 1 (a / 2) : Nat) : Int), ((max 1 (b / 2) : Nat) : Int)⟩
        ((l + max 4 (max 1 (a / 2)) * max 4 (max 1 (b / 2)) / 2 : Nat) : Int) := by
  have hne' : ¬ ((a : Int) = 1 ∧ (b : Int) = 1) := by
    intro h
    exact hne ⟨by omega, by omega⟩
  have ea : max (1 : Int) ((a : Int).tdiv 2) = ((max 1 (a / 2) : Nat) : Int) := by
    rw [show (a : Int).tdiv 2 = ((a / 2 : Nat) : Int) from rfl]
    push_cast
    rfl
  have eb : max (1 : Int) ((b : Int).tdiv 2) = ((max 1 (b / 2) : Nat) : Int) := by
    rw [show (b : Int).tdiv 2 = ((b / 2 : Nat) : Int) from rfl]
    push_cast
    rfl
  have e4 : ∀ x : Nat, max (4 : Int) (x : Int) = ((max 4 x : Nat) : Int) := by
    intro x
    push_cast
    rfl
  simp only [AdjustSizeForMipmaps.loop]
  rw [if_neg hne', ea, eb, e4, e4, ← Nat.cast_mul, chkInt_natCast _ hP]
  simp only [bind, Except.bind]
  rw [show ((max 4 (max 1 (a / 2)) * max 4 (max 1 (b / 2)) : Nat) : Int).tdiv 2 =
      ((max 4 (max 1 (a / 2)) * max 4 (max 1 (b / 2)) / 2 : Nat) : Int) from rfl,
    ← Nat.cast_add, chkInt_natCast _ hS]

/-- The loop started at level `k` and run for `n` passes. -/
theorem AdjustSizeForMipmaps.loop_levels (w h n k l : Nat)
    (hne : ∀ j, k ≤ j → j < k + n → ¬ (specLevelDim w j = 1 ∧ specLevelDim h j = 1))
    (hP : ∀ j, k < j → j ≤ k + n →
      max 4 (specLevelDim w j) * max 4 (specLevelDim h j) ≤ 2147483647)
    (hS : l + ∑ j ∈ Finset.range n, specLevelBytes w h (k + 1 + j) ≤ 2147483647) :
    AdjustSizeForMipmaps.loop n ⟨(specLevelDim w k : Int), (specLevelDim h k : Int)⟩ (l : Int) =
      .ok (⟨(specLevelDim w (k + n) : Int), (specLevelDim h (k + n) : Int)⟩,
        ((l + ∑ j ∈ Finset.range n, specLevelBytes w h (k + 1 + j) : Nat) : Int)) := by
  induction n generalizing k l with
  | zero => simp [AdjustSizeForMipmaps.loop]
  | succ n ih =>
    rw [Finset.sum_range_succ'] at hS ⊢
    have hb : specLevelBytes w h (k + 1 + 0) =
        max 4 (max 1 (specLevelDim w k / 2)) * max 4 (max 1 (specLevelDim h k / 2)) / 2 := by
      unfold specLevelBytes
      rw [Nat.add_zero, specLevelDim_succ, specLevelDim_succ]
    have hP1 := hP (k + 1) (by omega) (by omega)
    rw [specLevelDim_succ, specLevelDim_succ] at hP1
    rw [AdjustSizeForMipmaps.loop_step n _ _ l (hne k (by omega) (by omega)) hP1
      (by rw [← hb]; omega)]
    have hb' : (4 ⊔ specLevelDim w (k + 1)) * (4 ⊔ specLevelDim h (k + 1)) / 2 =
        specLevelBytes w h (k + 1 + 0) := rfl
    rw [← specLevelDim_succ, ← specLevelDim_succ, hb']
    have e : ∑ j ∈ Finset.range n, specLevelBytes w h (k + 1 + (j + 1)) =
        ∑ j ∈ Finset.range n, specLevelBytes w h (k + 1 + 1 + j) :=
      Finset.sum_congr rfl (fun j _ => by rw [show k + 1 + (j + 1) = k + 1 + 1 + j by omega])
    rw [e] at hS ⊢
    rw [ih (k + 1) (l + specLevelBytes w h (k + 1 + 0))
      (fun j h1 h2 => hne j (by omega) (by omega))
      (fun j h1 h2 => hP j (by omega) (by omega)) (by omega)]
    have e2 : k + 1 + n = k + (n + 1) := by omega
    rw [e2]
    congr 2
    push_cast
    ring

theorem specLevelDim_le (dim i : Nat) (h : 1 ≤ dim) : specLevelDim dim i ≤ dim := by
  unfold specLevelDim
  rw [Nat.shiftRight_eq_div_pow]
  have := Nat.div_le_self dim (2 ^ i)
  omega

theorem specLevelDim_ge_two (dim m j : Nat) (hm : dim = m) (hj : j < Nat.log2 m)
    (h0 : m ≠ 0) : 2 ≤ specLevelDim dim j := by
  subst hm
  unfold specLevelDim
  rw [Nat.shiftRight_eq_div_pow]
  have h1 : 2 ^ (j + 1) ≤ dim := (Nat.le_log2 h0).1 (by omega)
  have h2 : 2 ≤ dim / 2 ^ j := by
    rw [Nat.le_div_iff_mul_le (Nat.pos_pow_of_pos j (by norm_num))]
    rw [Nat.pow_succ] at h1
    omega
  omega

theorem specLevelDim_last (dim m : Nat) (hm : dim ≤ m) :
    specLevelDim dim (Nat.log2 m) = 1 := by
  unfold specLevelDim
  rw [Nat.shiftRight_eq_div_pow]
  have h1 : m < 2 ^ (Nat.log2 m + 1) := Nat.lt_log2_self
  have h2 : dim / 2 ^ Nat.log2 m < 2 := by
    rw [Nat.div_lt_iff_lt_mul (Nat.pos_pow_of_pos _ (by norm_num))]
    rw [Nat.pow_succ] at h1
    omega
  omega

/-- The value `AdjustSizeForMipmaps` returns for the chain length of the specification. -/
theorem AdjustSizeForMipmaps_spec (w h : Nat) (hw : 4 ≤ w) (hh : 4 ≤ h)
    (hfit : w * h ≤ 2147483647) (hsum : specMipBytes w h ≤ 2147483647) :
    AdjustSizeForMipmaps ⟨(w : Int), (h : Int)⟩ (specLevels w h : Int) =
      .ok (specMipBytes w h : Int) := by
  have hm0 : max w h ≠ 0 := by omega
  have hS : specMipBytes w h =
      ∑ j ∈ Finset.range (Nat.log2 (max w h)), specLevelBytes w h (0 + 1 + j) := by
    unfold specMipBytes specLevels
    rw [Finset.sum_Ico_eq_sum_range]
    simp
  have hn : ((specLevels w h : Int) - 1).toNat = Nat.log2 (max w h) := by
    unfold specLevels
    push_cast
    omega
  have hloop := AdjustSizeForMipmaps.loop_levels w h (Nat.log2 (max w h)) 0 0
    (by
      intro j _ hj
      rw [Nat.zero_add] at hj
      rcases Nat.le_total w h with hle | hle
      · have := specLevelDim_ge_two h (max w h) j (by omega) hj hm0
        omega
      · have := specLevelDim_ge_two w (max w h) j (by omega) hj hm0
        omega)
    (by
      intro j _ _
      have h1 := specLevelDim_le w j (by omega)
      have h2 := specLevelDim_le h j (by omega)
      calc max 4 (specLevelDim w j) * max 4 (specLevelDim h j)
          ≤ w * h := Nat.mul_le_mul (by omega) (by omega)
        _ ≤ 2147483647 := hfit)
    (by rw [← hS]; omega)
  rw [specLevelDim_zero w (by omega), specLevelDim_zero h (by omega), Nat.zero_add,
    specLevelDim_last w _ (by omega), specLevelDim_last h _ (by omega), ← hS] at hloop
  unfold AdjustSizeForMipmaps
  rw [hn]
  simp only [Nat.cast_zero, Nat.zero_add] at hloop
  rw [hloop]
  simp [bind, Except.bind]

/-- The layout computed by the creating constructors, for sizes whose `int` computations stay
in range. -/
theorem BlockData.layout_spec (nml : v2i → Int) (w h : Nat) (hw : 0 < w) (hh : 0 < h)
    (hw4 : 4 ∣ w) (hh4 : 4 ∣ h) (hfit : w * h ≤ 2147483647) :
    BlockData.layout nml ⟨(w : Int), (h : Int)⟩ false = .ok (52 + w * h / 2, 1) ∧
    (nml ⟨(w : Int), (h : Int)⟩ = (specLevels w h : Int) → specMipBytes w h ≤ 2147483647 →
      BlockData.layout nml ⟨(w : Int), (h : Int)⟩ true =
        .ok (52 + w * h / 2 + specMipBytes w h, (specLevels w h : Int))) := by
  have hw' : 4 ≤ w := Nat.le_of_dvd hw hw4
  have hh' : 4 ≤ h := Nat.le_of_dvd hh hh4
  have e1 : chkInt ((w : Int) * (h : Int)) = .ok ((w * h : Nat) : Int) := by
    rw [← Nat.cast_mul]
    exact chkInt_natCast _ hfit
  have e2 : chkInt (52 + ((w * h : Nat) : Int).tdiv 2) = .ok ((52 + w * h / 2 : Nat) : Int) := by
    rw [show ((w * h : Nat) : Int).tdiv 2 = ((w * h / 2 : Nat) : Int) from rfl]
    have := chkInt_natCast (52 + w * h / 2) (by omega)
    rw [← this]
    push_cast
    rfl
  have e3 : (w : Int).tmod 4 = 0 ∧ (h : Int).tmod 4 = 0 := by
    rw [show (w : Int).tmod 4 = ((w % 4 : Nat) : Int) from rfl,
      show (h : Int).tmod 4 = ((h % 4 : Nat) : Int) from rfl]
    omega
  have e4 : toU64 ((52 + w * h / 2 : Nat) : Int) = 52 + w * h / 2 := by
    unfold toU64
    omega
  refine ⟨?_, ?_⟩
  · unfold BlockData.layout
    rw [e1]
    simp only [bind, Except.bind]
    rw [e2]
    simp only [if_pos e3, e4]
    rfl
  · intro hl hsum
    unfold BlockData.layout
    rw [e1]
    simp only [bind, Except.bind]
    rw [e2]
    simp only [if_pos e3, e4, hl, AdjustSizeForMipmaps_spec w h hw' hh' hfit hsum]
    have e5 : toU64 (specMipBytes w h : Int) = specMipBytes w h := by
      unfold toU64
      omega
    rw [e5, Nat.mod_eq_of_lt (by omega)]
    rfl

theorem log2_sixteen : Nat.log2 16 = 4 := by
  have h1 : Nat.log2 16 < 5 := (Nat.log2_lt (by norm_num)).2 (by norm_num)
  have h2 : 4 ≤ Nat.log2 16 := (Nat.le_log2 (by norm_num)).2 (by norm_num)
  omega

theorem specMipBytes_sixteen : specLevels 16 16 = 5 ∧ specMipBytes 16 16 = 32 + 8 + 8 + 8 := by
  have hl : specLevels 16 16 = 5 := by
    unfold specLevels
    rw [Nat.max_self, log2_sixteen]
  refine ⟨hl, ?_⟩
  unfold specMipBytes
  rw [hl, Finset.sum_Ico_eq_sum_range]
  simp [Finset.sum_range_succ, specLevelBytes, specLevelDim]

/-- C8 (as amended): for every size `(w, h)` with both dimensions positive multiples of 4
whose `int` product `w*h` does not overflow (`w*h ≤ INT_MAX`), both creating constructors
compute the total length `52 + w*h/2` without mipmaps, and, with mipmaps, when
`NumberOfMipLevels` returns `L = floor(log2(max(w,h))) + 1` and the `int` sum of the level
sizes does not overflow, `52 + w*h/2 +` the sum over `i = 1..L-1` of
`max(4, max(1, w>>i)) * max(4, max(1, h>>i)) / 2` (the iterated halving of
`AdjustSizeForMipmaps` agrees with the shifted form and both of its assertions pass).  For
16x16 with mipmaps this is `52 + 128 + 32 + 8 + 8 + 8 = 236`. -/
theorem BlockData_maplen_spec (nml : v2i → Int) (heap : Nat → Nat) (w h : Nat)
    (hw : 0 < w) (hh : 0 < h) (hw4 : 4 ∣ w) (hh4 : 4 ∣ h) (hfit : w * h ≤ 2147483647) :
    (BlockData.create nml ⟨(w : Int), (h : Int)⟩ false).map (fun b => b.m_maplen) =
      .ok (52 + w * h / 2) ∧
    (BlockData.createInMemory nml heap ⟨(w : Int), (h : Int)⟩ false).map
      (fun b => b.m_maplen) = .ok (52 + w * h / 2) ∧
    (nml ⟨(w : Int), (h : Int)⟩ = (specLevels w h : Int) → specMipBytes w h ≤ 2147483647 →
      (BlockData.create nml ⟨(w : Int), (h : Int)⟩ true).map (fun b => b.m_maplen) =
        .ok (52 + w * h / 2 + specMipBytes w h) ∧
      (BlockData.createInMemory nml heap ⟨(w : Int), (h : Int)⟩ true).map
        (fun b => b.m_maplen) = .ok (52 + w * h / 2 + specMipBytes w h)) ∧
    specLevels 16 16 = 5 ∧ specMipBytes 16 16 = 32 + 8 + 8 + 8 ∧
    52 + 16 * 16 / 2 + specMipBytes 16 16 = 236 := by
  obtain ⟨h1, h2⟩ := BlockData.layout_spec nml w h hw hh hw4 hh4 hfit
  refine ⟨?_, ?_, ?_, specMipBytes_sixteen.1, specMipBytes_sixteen.2, ?_⟩
  · unfold BlockData.create
    rw [h1]
    rfl
  · unfold BlockData.createInMemory
    rw [h1]
    rfl
  · intro hl hsum
    have h3 := h2 hl hsum
    constructor
    · unfold BlockData.create
      rw [h3]
      rfl
    · unfold BlockData.createInMemory
      rw [h3]
      rfl
  · rw [specMipBytes_sixteen.2]

/-- Witness for C8: the size 16x16 with `NumberOfMipLevels` returning 5 gives 180 bytes
without and 236 bytes with mipmaps. -/
theorem BlockData_maplen_spec_witness :
    (0 < 16 ∧ 4 ∣ 16 ∧ 16 * 16 ≤ 2147483647) ∧
    (BlockData.create (fun _ => 5) ⟨((16 : Nat) : Int), ((16 : Nat) : Int)⟩ false).map
      (fun b => b.m_maplen) = .ok (52 + 16 * 16 / 2) ∧
    (BlockData.create (fun _ => 5) ⟨((16 : Nat) : Int), ((16 : Nat) : Int)⟩ true).map
      (fun b => b.m_maplen) = .ok 236 := by
  have h := BlockData_maplen_spec (fun _ => 5) (fun _ => 0) 16 16 (by decide) (by decide)
    (by decide) (by decide) (by decide)
  have hs := specMipBytes_sixteen
  have h5 := (h.2.2.1 (by rw [hs.1]; rfl) (by rw [hs.2]; decide)).1
  refine ⟨by decide, h.1, ?_⟩
  rw [h5, hs.2]

/-- Counterexample for C8: for the size 65536x65536 (both dimensions positive multiples of 4)
the `int` product `m_size.x*m_size.y` leaves the range of `int`, so the constructors do not
compute `52 + w*h/2 = 2147483700`, a value no `int` expression can have. -/
theorem BlockData_maplen_overflow :
    (4 ∣ 65536) ∧
    (BlockData.create (fun _ => 17) ⟨65536, 65536⟩ false).map (fun b => b.m_maplen) =
      .error Fault.overflow ∧
    (BlockData.createInMemory (fun _ => 17) (fun _ => 0) ⟨65536, 65536⟩ false).map
      (fun b => b.m_maplen) = .error Fault.overflow ∧
    (2147483647 : Int) < 52 + 65536 * 65536 / 2 := by
  refine ⟨by decide, rfl, rfl, by decide⟩
/-! ## C9: the tiles gathered by `Process` -/

theorem Process.passes_eq (blocks : Nat) (h1 : 1 ≤ blocks) (h2 : blocks < 4294967296) :
    Process.passes blocks = blocks := by
  unfold Process.passes
  rw [Nat.mod_eq_of_lt h2, if_neg (by omega)]

/-- C10 (as amended): the kernel `Process` selects is the base encoder `ProcessRGB_ETC2` if
`etc2` else `ProcessRGB`, in its AVX2 variant iff the file is compiled with `__SSE4_1__` and
`can_use_intel_core_4th_gen_features()` holds, preceded by `Dither` iff `dither` is set and
the channels are RGB.  For the alpha mode the selected kernel is the same for `dither = true`
and `dither = false`. -/
theorem Process_func_spec (ext : Codec) (sse41 probe : Bool) (type : Channels)
    (dither etc2 : Bool) (buf : List Nat) :
    Kernel.run ext (Process.func sse41 probe type dither etc2) buf =
      specKernel ext etc2 (sse41 && probe) (dither && decide (type = Channels.RGB)) buf ∧
    Process.func sse41 probe Channels.Alpha true etc2 =
      Process.func sse41 probe Channels.Alpha false etc2 ∧
    Process.func true probe type dither etc2 =
      (match etc2, probe, dither && decide (type = Channels.RGB) with
        | false, false, false => Kernel._f_rgb
        | false, true, false => Kernel._f_rgb_avx2
        | false, false, true => Kernel._f_rgb_dither
        | false, true, true => Kernel._f_rgb_dither_avx2
        | true, false, false => Kernel._f_rgb_etc2
        | true, true, false => Kernel._f_rgb_etc2_avx2
        | true, false, true => Kernel._f_rgb_etc2_dither
        | true, true, true => Kernel._f_rgb_etc2_dither_avx2) := by
  refine ⟨?_, rfl, ?_⟩
  · cases type <;> cases sse41 <;> cases probe <;> cases dither <;> cases etc2 <;> rfl
  · cases type <;> cases probe <;> cases dither <;> cases etc2 <;> rfl

/-- Counterexample for C10: compiled without `__SSE4_1__`, on a CPU for which the probe would
hold, `Process` selects `_f_rgb`, which calls `ProcessRGB` and not its AVX2 variant. -/
theorem Process_func_without_sse41 :
    Process.func false true Channels.RGB false false = Kernel._f_rgb ∧
    Kernel.run exampleCodec (Process.func false true Channels.RGB false false) [] ≠
      specKernel exampleCodec false true (false && decide (Channels.RGB = Channels.RGB)) [] := by
  decide
/-! ## The result of `DecodeBlockColor` in closed form -/

theorem expand5_eq (v : Nat) (h : v < 32) :
    DecodeBlockColor.expand5 v = specExpand5 v ∧ specExpand5 v ≤ 255 := by
  interval_cases v <;> exact ⟨rfl, by decide⟩

theorem individual_eq (d s : Nat) (hs : 4 ≤ s) :
    ((d &&& ((2 ^ 4 - 1) <<< s)) >>> (s - 4)) ||| ((d &&& ((2 ^ 4 - 1) <<< s)) >>> s) =
      specExpand4 (d / 2 ^ s % 16) ∧ specExpand4 (d / 2 ^ s % 16) ≤ 255 := by
  have hv : d / 2 ^ s % 16 < 16 := Nat.mod_lt _ (by norm_num)
  have e1 : (d &&& ((2 ^ 4 - 1) <<< s)) >>> s = d / 2 ^ s % 16 := field_eq d s 4
  have e2 : (d &&& ((2 ^ 4 - 1) <<< s)) >>> (s - 4) = (d / 2 ^ s % 16) <<< 4 := by
    rw [and_shiftLeft_mask d s 4, Nat.shiftRight_eq_div_pow, Nat.shiftLeft_eq]
    obtain ⟨t, rfl⟩ : ∃ t, s = t + 4 := ⟨s - 4, by omega⟩
    rw [Nat.add_sub_cancel, Nat.pow_add, ← Nat.mul_assoc,
      Nat.mul_comm _ (2 ^ t), Nat.mul_assoc,
      Nat.mul_div_cancel_left _ (Nat.pos_pow_of_pos t (by norm_num))]
    rfl
  rw [e1, e2]
  generalize d / 2 ^ s % 16 = v at hv
  interval_cases v <;> exact ⟨rfl, by decide⟩

/-- The value of `DecodeBlockColor` with the fields of the word written by division and
remainder. -/
theorem DecodeBlockColor_eq (d : Nat) (c : BlockColor) :
    DecodeBlockColor d c =
      if d / 2 % 2 = 0 then
        (Etc2Mode.none,
         { r1 := specExpand4 (d / 2 ^ 28 % 16), r2 := specExpand4 (d / 2 ^ 24 % 16)
           g1 := specExpand4 (d / 2 ^ 20 % 16), g2 := specExpand4 (d / 2 ^ 16 % 16)
           b1 := specExpand4 (d / 2 ^ 12 % 16), b2 := specExpand4 (d / 2 ^ 8 % 16) })
      else if ¬ specInside (specCandidate d 24) ∨ ¬ specInside (specCandidate d 16) ∨
          ¬ specInside (specCandidate d 8) then
        (specMode d,
         { c with r1 := d / 2 ^ 27 % 32, g1 := d / 2 ^ 19 % 32, b1 := d / 2 ^ 11 % 32 })
      else
        (Etc2Mode.none,
         { r1 := specExpand5 (d / 2 ^ 27 % 32)
           g1 := specExpand5 (d / 2 ^ 19 % 32)
           b1 := specExpand5 (d / 2 ^ 11 % 32)
           r2 := specExpand5 (specCandidate d 24).toNat
           g2 := specExpand5 (specCandidate d 16).toNat
           b2 := specExpand5 (specCandidate d 8).toNat }) := by
  have m2 : d &&& 0x2 = (d / 2 ^ 1 % 2 ^ 1) * 2 ^ 1 := and_shiftLeft_mask d 1 1
  have hdiff : (d &&& 0x2 ≠ 0) ↔ ¬ (d / 2 % 2 = 0) := by rw [m2]; omega
  have mr1 : (d &&& 0xF8000000) >>> 27 = d / 2 ^ (24 + 3) % 32 := field_eq d 27 5
  have mg1 : (d &&& 0x00F80000) >>> 19 = d / 2 ^ (16 + 3) % 32 := field_eq d 19 5
  have mb1 : (d &&& 0x0000F800) >>> 11 = d / 2 ^ (8 + 3) % 32 := field_eq d 11 5
  have mdr : (d &&& 0x07000000) >>> 24 = d / 2 ^ 24 % 8 := field_eq d 24 3
  have mdg : (d &&& 0x00070000) >>> 16 = d / 2 ^ 16 % 8 := field_eq d 16 3
  have mdb : (d &&& 0x00000700) >>> 8 = d / 2 ^ 8 % 8 := field_eq d 8 3
  have sr := signExtend_eq (d / 2 ^ 24 % 8) (Nat.mod_lt _ (by norm_num))
  have sg := signExtend_eq (d / 2 ^ 16 % 8) (Nat.mod_lt _ (by norm_num))
  have sb := signExtend_eq (d / 2 ^ 8 % 8) (Nat.mod_lt _ (by norm_num))
  have ec : ∀ p, ((d / 2 ^ (p + 3) % 32 : Nat) : Int) +
        (if d / 2 ^ p % 8 < 4 then ((d / 2 ^ p % 8 : Nat) : Int)
          else ((d / 2 ^ p % 8 : Nat) : Int) - 8) = specCandidate d p := by
    intro p
    unfold specCandidate specBase specDelta
    rfl
  have er : ∀ p, (specCandidate d p < 0 ∨ specCandidate d p > 31) ↔
      ¬ specInside (specCandidate d p) := by
    intro p
    unfold specInside
    omega
  by_cases h0 : d / 2 % 2 = 0
  · rw [if_pos h0]
    unfold DecodeBlockColor
    rw [if_neg (by rw [hdiff]; exact fun h => h h0)]
    have i28 : ((d &&& 0xF0000000) >>> 24) ||| ((d &&& 0xF0000000) >>> 28) =
        specExpand4 (d / 2 ^ 28 % 16) := (individual_eq d 28 (by norm_num)).1
    have i24 : ((d &&& 0x0F000000) >>> 20) ||| ((d &&& 0x0F000000) >>> 24) =
        specExpand4 (d / 2 ^ 24 % 16) := (individual_eq d 24 (by norm_num)).1
    have i20 : ((d &&& 0x00F00000) >>> 16) ||| ((d &&& 0x00F00000) >>> 20) =
        specExpand4 (d / 2 ^ 20 % 16) := (individual_eq d 20 (by norm_num)).1
    have i16 : ((d &&& 0x000F0000) >>> 12) ||| ((d &&& 0x000F0000) >>> 16) =
        specExpand4 (d / 2 ^ 16 % 16) := (individual_eq d 16 (by norm_num)).1
    have i12 : ((d &&& 0x0000F000) >>> 8) ||| ((d &&& 0x0000F000) >>> 12) =
        specExpand4 (d / 2 ^ 12 % 16) := (individual_eq d 12 (by norm_num)).1
    have i8 : ((d &&& 0x00000F00) >>> 4) ||| ((d &&& 0x00000F00) >>> 8) =
        specExpand4 (d / 2 ^ 8 % 16) := (individual_eq d 8 (by norm_num)).1
    rw [i28, i24, i20, i16, i12, i8]
  · rw [if_neg h0]
    have hm := DecodeBlockColor_mode_eq d c
    unfold DecodeBlockColor at hm ⊢
    rw [if_pos (hdiff.2 h0)] at hm ⊢
    simp only [mr1, mg1, mb1, mdr, mdg, mdb, sr, sg, sb, ec, er] at hm ⊢
    by_cases hr : specInside (specCandidate d 24)
    · by_cases hg : specInside (specCandidate d 16)
      · by_cases hb : specInside (specCandidate d 8)
        · simp only [hr, hg, hb, not_true_eq_false, if_false, or_self]
          have e : ∀ p, specInside (specCandidate d p) →
              DecodeBlockColor.expand5 (toU32 (specCandidate d p)) =
                specExpand5 (specCandidate d p).toNat := by
            intro p hp
            unfold specInside at hp
            have e1 : toU32 (specCandidate d p) = (specCandidate d p).toNat := by
              unfold toU32
              omega
            rw [e1]
            exact (expand5_eq _ (by omega)).1
          rw [e 24 hr, e 16 hg, e 8 hb,
            (expand5_eq (d / 2 ^ (24 + 3) % 32) (Nat.mod_lt _ (by norm_num))).1,
            (expand5_eq (d / 2 ^ (16 + 3) % 32) (Nat.mod_lt _ (by norm_num))).1,
            (expand5_eq (d / 2 ^ (8 + 3) % 32) (Nat.mod_lt _ (by norm_num))).1]
        · simp only [hr, hg, hb, not_true_eq_false, not_false_eq_true, if_false, if_true,
            or_true, false_or] at hm ⊢
          rw [← hm]
      · simp only [hr, hg, not_true_eq_false, not_false_eq_true, if_false, if_true,
          or_true, true_or, false_or] at hm ⊢
        rw [← hm]
    · simp only [hr, not_false_eq_true, if_true, true_or] at hm ⊢
      rw [← hm]

theorem specExpand4_le (v : Nat) (h : v < 16) : specExpand4 v ≤ 255 := by
  interval_cases v <;> decide

theorem specInside_of_none (d : Nat) (hd : ¬ d / 2 % 2 = 0) (h : specMode d = Etc2Mode.none) :
    specInside (specCandidate d 24) ∧ specInside (specCandidate d 16) ∧
      specInside (specCandidate d 8) := by
  unfold specMode at h
  rw [if_neg hd] at h
  by_cases hr : specInside (specCandidate d 24) <;>
  by_cases hg : specInside (specCandidate d 16) <;>
  by_cases hb : specInside (specCandidate d 8) <;>
  simp [hr, hg, hb] at h ⊢

/-- The channels returned for a block classified none are bytes. -/
theorem DecodeBlockColor_bounds (d : Nat) (c0 : BlockColor)
    (hmode : (DecodeBlockColor d c0).1 = Etc2Mode.none) :
    ((DecodeBlockColor d c0).2.r1 ≤ 255 ∧ (DecodeBlockColor d c0).2.g1 ≤ 255 ∧
      (DecodeBlockColor d c0).2.b1 ≤ 255 ∧ (DecodeBlockColor d c0).2.r2 ≤ 255 ∧
      (DecodeBlockColor d c0).2.g2 ≤ 255 ∧ (DecodeBlockColor d c0).2.b2 ≤ 255) ∧
    (d / 2 % 2 = 0 →
      (DecodeBlockColor d c0).2 =
        { r1 := specExpand4 (specField d 28 4), r2 := specExpand4 (specField d 24 4)
          g1 := specExpand4 (specField d 20 4), g2 := specExpand4 (specField d 16 4)
          b1 := specExpand4 (specField d 12 4), b2 := specExpand4 (specField d 8 4) }) ∧
    (d / 2 % 2 = 1 →
      (DecodeBlockColor d c0).2 =
        { r1 := specExpand5 (specField d 27 5)
          g1 := specExpand5 (specField d 19 5)
          b1 := specExpand5 (specField d 11 5)
          r2 := specExpand5 (specBase d 24 + specDelta d 24).toNat
          g2 := specExpand5 (specBase d 16 + specDelta d 16).toNat
          b2 := specExpand5 (specBase d 8 + specDelta d 8).toNat } ∧
      (0 ≤ specBase d 24 + specDelta d 24 ∧ specBase d 24 + specDelta d 24 ≤ 31) ∧
      (0 ≤ specBase d 16 + specDelta d 16 ∧ specBase d 16 + specDelta d 16 ≤ 31) ∧
      (0 ≤ specBase d 8 + specDelta d 8 ∧ specBase d 8 + specDelta d 8 ≤ 31)) := by
  rw [DecodeBlockColor_mode_eq] at hmode
  rw [DecodeBlockColor_eq]
  by_cases h0 : d / 2 % 2 = 0
  · rw [if_pos h0]
    refine ⟨⟨?_, ?_, ?_, ?_, ?_, ?_⟩, fun _ => rfl, fun h1 => by omega⟩ <;>
      exact specExpand4_le _ (Nat.mod_lt _ (by norm_num))
  · obtain ⟨hr, hg, hb⟩ := specInside_of_none d h0 hmode
    rw [if_neg h0, if_neg (by simp [hr, hg, hb])]
    have hc : ∀ p, specInside (specCandidate d p) →
        specExpand5 (specCandidate d p).toNat ≤ 255 := by
      intro p hp
      unfold specInside at hp
      exact (expand5_eq _ (by omega)).2
    refine ⟨⟨?_, ?_, ?_, hc 24 hr, hc 16 hg, hc 8 hb⟩, fun h => absurd h h0,
      fun _ => ⟨rfl, hr, hg, hb⟩⟩ <;>
      exact (expand5_eq _ (Nat.mod_lt _ (by norm_num))).2

/-! ## C13: the endpoints of ETC1 blocks -/

/-- C13: for every block `DecodeBlockColor` classifies none, the six endpoint channels it
returns are in `0..255` and are, in individual mode, `(v<<4)|v` for the 4-bit fields `v` at
bits 28..31 (r1), 24..27 (r2), 20..23 (g1), 16..19 (g2), 12..15 (b1), 8..11 (b2) of the
permuted word, and, in differential mode, `(v<<3)|(v>>2)` with `v` the 5-bit base for `c1` and
`v = base + signed 3-bit delta` (which lies in `0..31`) for `c2`. -/
theorem DecodeBlockColor_endpoints (d : Nat) (c0 : BlockColor)
    (hmode : (DecodeBlockColor d c0).1 = Etc2Mode.none) :
    ((DecodeBlockColor d c0).2.r1 ≤ 255 ∧ (DecodeBlockColor d c0).2.g1 ≤ 255 ∧
      (DecodeBlockColor d c0).2.b1 ≤ 255 ∧ (DecodeBlockColor d c0).2.r2 ≤ 255 ∧
      (DecodeBlockColor d c0).2.g2 ≤ 255 ∧ (DecodeBlockColor d c0).2.b2 ≤ 255) ∧
    (d / 2 % 2 = 0 →
      (DecodeBlockColor d c0).2 =
        { r1 := specExpand4 (specField d 28 4), r2 := specExpand4 (specField d 24 4)
          g1 := specExpand4 (specField d 20 4), g2 := specExpand4 (specField d 16 4)
          b1 := specExpand4 (specField d 12 4), b2 := specExpand4 (specField d 8 4) }) ∧
    (d / 2 % 2 = 1 →
      (DecodeBlockColor d c0).2 =
        { r1 := specExpand5 (specField d 27 5)
          g1 := specExpand5 (specField d 19 5)
          b1 := specExpand5 (specField d 11 5)
          r2 := specExpand5 (specBase d 24 + specDelta d 24).toNat
          g2 := specExpand5 (specBase d 16 + specDelta d 16).toNat
          b2 := specExpand5 (specBase d 8 + specDelta d 8).toNat } ∧
      (0 ≤ specBase d 24 + specDelta d 24 ∧ specBase d 24 + specDelta d 24 ≤ 31) ∧
      (0 ≤ specBase d 16 + specDelta d 16 ∧ specBase d 16 + specDelta d 16 ≤ 31) ∧
      (0 ≤ specBase d 8 + specDelta d 8 ∧ specBase d 8 + specDelta d 8 ≤ 31)) := by
  exact DecodeBlockColor_bounds d c0 hmode

/-- Witness for C13: the differential word `0xF1000002` (red base 30, delta +1). -/
theorem DecodeBlockColor_endpoints_witness :
    (DecodeBlockColor 0xF1000002 ⟨0, 0, 0, 0, 0, 0⟩).1 = Etc2Mode.none ∧
    (DecodeBlockColor 0xF1000002 ⟨0, 0, 0, 0, 0, 0⟩).2 =
      { r1 := specExpand5 (specField 0xF1000002 27 5)
        g1 := specExpand5 (specField 0xF1000002 19 5)
        b1 := specExpand5 (specField 0xF1000002 11 5)
        r2 := specExpand5 (specBase 0xF1000002 24 + specDelta 0xF1000002 24).toNat
        g2 := specExpand5 (specBase 0xF1000002 16 + specDelta 0xF1000002 16).toNat
        b2 := specExpand5 (specBase 0xF1000002 8 + specDelta 0xF1000002 8).toNat } :=
  ⟨by decide,
    ((DecodeBlockColor_endpoints 0xF1000002 ⟨0, 0, 0, 0, 0, 0⟩ (by decide)).2.2
      (by decide)).1⟩
/-! ## C11: ETC1 pixel reconstruction -/

theorem Decode.sel_eq (d o k : Nat) :
    Decode.sel d o k =
      specBit d (o + 32 + k) ||| (specBit d (o + 48 + k) <<< 1) ∧ Decode.sel d o k < 4 := by
  have e1 : (d &&& (1 <<< (o + 32 + k))) >>> (o + 32 + k) = d / 2 ^ (o + 32 + k) % 2 :=
    field_eq d (o + 32 + k) 1
  have e2 : (d &&& (1 <<< (o + 48 + k))) >>> (o + 47 + k) =
      (d / 2 ^ (o + 48 + k) % 2) <<< 1 := by
    have h := and_shiftLeft_mask d (o + 48 + k) 1
    have h' : d &&& (1 <<< (o + 48 + k)) = (d / 2 ^ (o + 48 + k) % 2) * 2 ^ (o + 48 + k) := h
    rw [h', Nat.shiftRight_eq_div_pow, Nat.shiftLeft_eq,
      show o + 48 + k = (o + 47 + k) + 1 by omega, Nat.pow_succ, ← Nat.mul_assoc,
      Nat.mul_comm _ (2 ^ (o + 47 + k)), Nat.mul_assoc,
      Nat.mul_div_cancel_left _ (Nat.pos_pow_of_pos _ (by norm_num))]
  unfold Decode.sel specBit
  rw [e1, e2]
  refine ⟨rfl, ?_⟩
  have h1 : d / 2 ^ (o + 32 + k) % 2 < 2 ^ 2 := by omega
  have h2 : (d / 2 ^ (o + 48 + k) % 2) <<< 1 < 2 ^ 2 := by
    rw [Nat.shiftLeft_eq]; omega
  exact Nat.or_lt_two_pow h1 h2

theorem Decode.chan_eq (clampu8 : Int → Nat) (g_table : Nat → Nat → Int)
    (htab : ∀ cw sel, -2147483648 ≤ g_table cw sel ∧ g_table cw sel ≤ 2147483392)
    (base cw sel : Nat) (hb : base ≤ 255) :
    Decode.chan clampu8 g_table base cw sel = clampu8 ((base : Int) + g_table cw sel) := by
  unfold Decode.chan
  have h := htab cw sel
  rw [toI32_toU32 _ (by omega) (by omega)]

theorem specRGB_pixel {r g b : Nat} (hr : r < 256) (hg : g < 256) (hb : b < 256) :
    specRGB (Decode.pixel r g b) = (r, g, b) ∧ Decode.pixel r g b / 2 ^ 24 = 255 := by
  unfold specRGB
  rw [Decode.pixel_eq_add hr hg hb]
  have d1 : (4278190080 + b * 65536 + g * 256 + r) / 256 = 16711680 + b * 256 + g := by omega
  have d2 : (4278190080 + b * 65536 + g * 256 + r) / 65536 = 65280 + b := by omega
  rw [d1, d2]
  refine ⟨?_, by omega⟩
  congr 1
  · omega
  · congr 1 <;> omega

/-- The pixels of the non-planar path with the flip bit set: rows 0, 1 from the first colour
and codeword, rows 2, 3 from the second. -/
theorem Decode.etc1_pixelAt_flip (clampu8 : Int → Nat) (g_table : Nat → Nat → Int)
    (c : BlockColor) (d : Nat) (hf : d &&& 0x1 ≠ 0) (x y : Nat) (hx : x < 4) (hy : y < 4) :
    Decode.pixelAt (Decode.etc1 clampu8 g_table c d) x y =
      some (if y < 2 then
          Decode.texel clampu8 g_table c.r1 c.g1 c.b1 ((d &&& 0xE0) >>> 5) d (4 * x) y
        else Decode.texel clampu8 g_table c.r2 c.g2 c.b2 ((d &&& 0x1C) >>> 2) d (4 * x) y) := by
  unfold Decode.etc1
  simp only [if_pos hf]
  interval_cases x <;> interval_cases y <;> rfl

/-- The pixels of the non-planar path with the flip bit clear: columns 0, 1 from the first
colour and codeword, columns 2, 3 from the second. -/
theorem Decode.etc1_pixelAt_noflip (clampu8 : Int → Nat) (g_table : Nat → Nat → Int)
    (c : BlockColor) (d : Nat) (hf : ¬ d &&& 0x1 ≠ 0) (x y : Nat) (hx : x < 4) (hy : y < 4) :
    Decode.pixelAt (Decode.etc1 clampu8 g_table c d) x y =
      some (if x < 2 then
          Decode.texel clampu8 g_table c.r1 c.g1 c.b1 ((d &&& 0xE0) >>> 5) d (4 * x) y
        else Decode.texel clampu8 g_table c.r2 c.g2 c.b2 ((d &&& 0x1C) >>> 2) d (4 * x) y) := by
  unfold Decode.etc1
  simp only [if_neg hf]
  interval_cases x <;> interval_cases y <;> rfl

theorem Decode.texel_rgb (clampu8 : Int → Nat) (g_table : Nat → Nat → Int)
    (hclamp : ∀ v, clampu8 v < 256)
    (htab : ∀ cw sel, -2147483648 ≤ g_table cw sel ∧ g_table cw sel ≤ 2147483392)
    (r g b cw d x y : Nat) (hr : r ≤ 255) (hg : g ≤ 255) (hb : b ≤ 255) :
    specRGB (Decode.texel clampu8 g_table r g b cw d (4 * x) y) =
      (clampu8 ((r : Int) + g_table cw
          (specBit d (32 + (4 * x + y)) ||| (specBit d (48 + (4 * x + y)) <<< 1))),
       clampu8 ((g : Int) + g_table cw
          (specBit d (32 + (4 * x + y)) ||| (specBit d (48 + (4 * x + y)) <<< 1))),
       clampu8 ((b : Int) + g_table cw
          (specBit d (32 + (4 * x + y)) ||| (specBit d (48 + (4 * x + y)) <<< 1)))) ∧
    Decode.texel clampu8 g_table r g b cw d (4 * x) y / 2 ^ 24 = 255 := by
  unfold Decode.texel
  have hs := (Decode.sel_eq d (4 * x) y).1
  rw [show 4 * x + 32 + y = 32 + (4 * x + y) by omega,
    show 4 * x + 48 + y = 48 + (4 * x + y) by omega] at hs
  obtain ⟨h1, h2⟩ := specRGB_pixel (hclamp (toI32 (toU32 ((r : Int) + g_table cw
      (Decode.sel d (4 * x) y))))) (hclamp (toI32 (toU32 ((g : Int) + g_table cw
      (Decode.sel d (4 * x) y))))) (hclamp (toI32 (toU32 ((b : Int) + g_table cw
      (Decode.sel d (4 * x) y)))))
  refine ⟨?_, h2⟩
  have h1' := h1
  simp only [Decode.chan] at h1' ⊢
  rw [h1', ← hs]
  have t := htab cw (Decode.sel d (4 * x) y)
  rw [toI32_toU32 _ (by omega) (by omega), toI32_toU32 _ (by omega) (by omega),
    toI32_toU32 _ (by omega) (by omega)]

/-- C11: for every block classified none, with `d` the byte-permuted word, the pixel `Decode`
writes at column `x`, row `y` of the block (`k = 4*x + y`) has alpha `0xFF` and each of R, G,
B equal to `clampu8(base_channel + g_table[cw][sel])`, where
`sel = bit(32+k) | (bit(48+k) << 1)` (below 4) and `(base, cw)` is `(c1, (d & 0xE0) >> 5)` in
the first sub-block and `(c2, (d & 0x1C) >> 2)` in the second; the first sub-block is rows
0, 1 when the flip bit `d & 1` is set and columns 0, 1 when it is clear.  `clampu8` returns
bytes and the entries of `g_table` are `int32` values to which a byte can be added. -/
theorem Decode_etc1_pixel (clampu8 : Int → Nat) (g_table : Nat → Nat → Int)
    (c0 : BlockColor) (word : Nat) (hclamp : ∀ v, clampu8 v < 256)
    (htab : ∀ cw sel, -2147483648 ≤ g_table cw sel ∧ g_table cw sel ≤ 2147483392)
    (hmode : (DecodeBlockColor (permuteBytes word) c0).1 = Etc2Mode.none)
    (x y : Nat) (hx : x < 4) (hy : y < 4) :
    ∃ px, Decode.pixelAt (Decode.block clampu8 g_table c0 word) x y = some px ∧
      px / 2 ^ 24 = 255 ∧
      specBit (permuteBytes word) (32 + (4 * x + y)) |||
        (specBit (permuteBytes word) (48 + (4 * x + y)) <<< 1) < 4 ∧
      specRGB px =
        if (if permuteBytes word % 2 = 1 then y < 2 else x < 2) then
          (clampu8 (((DecodeBlockColor (permuteBytes word) c0).2.r1 : Int) +
              g_table ((permuteBytes word &&& 0xE0) >>> 5)
                (specBit (permuteBytes word) (32 + (4 * x + y)) |||
                  (specBit (permuteBytes word) (48 + (4 * x + y)) <<< 1))),
           clampu8 (((DecodeBlockColor (permuteBytes word) c0).2.g1 : Int) +
              g_table ((permuteBytes word &&& 0xE0) >>> 5)
                (specBit (permuteBytes word) (32 + (4 * x + y)) |||
                  (specBit (permuteBytes word) (48 + (4 * x + y)) <<< 1))),
           clampu8 (((DecodeBlockColor (permuteBytes word) c0).2.b1 : Int) +
              g_table ((permuteBytes word &&& 0xE0) >>> 5)
                (specBit (permuteBytes word) (32 + (4 * x + y)) |||
                  (specBit (permuteBytes word) (48 + (4 * x + y)) <<< 1))))
        else
          (clampu8 (((DecodeBlockColor (permuteBytes word) c0).2.r2 : Int) +
              g_table ((permuteBytes word &&& 0x1C) >>> 2)
                (specBit (permuteBytes word) (32 + (4 * x + y)) |||
                  (specBit (permuteBytes word) (48 + (4 * x + y)) <<< 1))),
           clampu8 (((DecodeBlockColor (permuteBytes word) c0).2.g2 : Int) +
              g_table ((permuteBytes word &&& 0x1C) >>> 2)
                (specBit (permuteBytes word) (32 + (4 * x + y)) |||
                  (specBit (permuteBytes word) (48 + (4 * x + y)) <<< 1))),
           clampu8 (((DecodeBlockColor (permuteBytes word) c0).2.b2 : Int) +
              g_table ((permuteBytes word &&& 0x1C) >>> 2)
                (specBit (permuteBytes word) (32 + (4 * x + y)) |||
                  (specBit (permuteBytes word) (48 + (4 * x + y)) <<< 1)))) := by
  obtain ⟨⟨hr1, hg1, hb1, hr2, hg2, hb2⟩, -, -⟩ :=
    DecodeBlockColor_bounds (permuteBytes word) c0 hmode
  have hsel : specBit (permuteBytes word) (32 + (4 * x + y)) |||
      (specBit (permuteBytes word) (48 + (4 * x + y)) <<< 1) < 4 := by
    have h := Decode.sel_eq (permuteBytes word) (4 * x) y
    rw [show 4 * x + 32 + y = 32 + (4 * x + y) by omega,
      show 4 * x + 48 + y = 48 + (4 * x + y) by omega] at h
    rw [← h.1]
    exact h.2
  have hblock : Decode.block clampu8 g_table c0 word =
      Decode.etc1 clampu8 g_table (DecodeBlockColor (permuteBytes word) c0).2
        (permuteBytes word) := by
    unfold Decode.block
    simp only [hmode]
    rw [if_neg (by decide)]
  have hflip : (permuteBytes word &&& 0x1 ≠ 0) ↔ permuteBytes word % 2 = 1 := by
    rw [Nat.and_one_is_mod]
    omega
  rw [hblock]
  clear hblock
  generalize permuteBytes word = d at *
  generalize DecodeBlockColor d c0 = r at *
  by_cases hf : d &&& 0x1 ≠ 0
  · rw [Decode.etc1_pixelAt_flip _ _ _ _ hf x y hx hy]
    simp only [hflip.1 hf, if_true]
    by_cases h2 : y < 2
    · simp only [h2, if_true]
      obtain ⟨e1, e2⟩ := Decode.texel_rgb clampu8 g_table hclamp htab _ _ _
        ((d &&& 0xE0) >>> 5) d x y hr1 hg1 hb1
      exact ⟨_, rfl, e2, hsel, e1⟩
    · simp only [h2, if_false]
      obtain ⟨e1, e2⟩ := Decode.texel_rgb clampu8 g_table hclamp htab _ _ _
        ((d &&& 0x1C) >>> 2) d x y hr2 hg2 hb2
      exact ⟨_, rfl, e2, hsel, e1⟩
  · rw [Decode.etc1_pixelAt_noflip _ _ _ _ hf x y hx hy]
    have hf' : ¬ d % 2 = 1 := fun h => hf (hflip.2 h)
    simp only [hf', if_false]
    by_cases h2 : x < 2
    · simp only [h2, if_true]
      obtain ⟨e1, e2⟩ := Decode.texel_rgb clampu8 g_table hclamp htab _ _ _
        ((d &&& 0xE0) >>> 5) d x y hr1 hg1 hb1
      exact ⟨_, rfl, e2, hsel, e1⟩
    · simp only [h2, if_false]
      obtain ⟨e1, e2⟩ := Decode.texel_rgb clampu8 g_table hclamp htab _ _ _
        ((d &&& 0x1C) >>> 2) d x y hr2 hg2 hb2
      exact ⟨_, rfl, e2, hsel, e1⟩

theorem g_table_etc1_bounds (cw sel : Nat) :
    -2147483648 ≤ g_table_etc1 cw sel ∧ g_table_etc1 cw sel ≤ 2147483392 := by
  have big : ∀ (l : List Int) (n : Nat), l.length ≤ n → l.getD n 0 = 0 := by
    intro l n h
    rw [List.getD_eq_getElem?_getD, List.getElem?_eq_none h]
    rfl
  unfold g_table_etc1
  by_cases hc : cw < 8
  · by_cases hs : sel < 4
    · interval_cases cw <;> interval_cases sel <;> decide
    · rw [big _ sel (by interval_cases cw <;> simp <;> omega)]
      decide
  · rw [List.getD_eq_getElem?_getD (n := cw), List.getElem?_eq_none (by simp; omega)]
    simp

/-- Witness for C11: the all-zero word (individual mode, flip clear) at column 1, row 2, with
the saturating clamp and the ETC1 table: the pixel is `0xFF020202`. -/
theorem Decode_etc1_pixel_witness :
    (DecodeBlockColor (permuteBytes 0) ⟨7, 7, 7, 7, 7, 7⟩).1 = Etc2Mode.none ∧
    ∃ px, Decode.pixelAt (Decode.block clampu8_sat g_table_etc1 ⟨7, 7, 7, 7, 7, 7⟩ 0) 1 2
        = some px ∧ px / 2 ^ 24 = 255 ∧ specRGB px = (2, 2, 2) := by
  obtain ⟨px, h1, h2, -, h3⟩ := Decode_etc1_pixel clampu8_sat g_table_etc1
    ⟨7, 7, 7, 7, 7, 7⟩ 0 clampu8_sat_lt g_table_etc1_bounds (by decide) 1 2 (by decide)
    (by decide)
  refine ⟨by decide, px, h1, h2, ?_⟩
  rw [h3]
  decide
/-! ## C12: planar blocks -/

theorem shift_mask_eq (d s n : Nat) : (d >>> s) &&& (2 ^ n - 1) = specField d s n := by
  rw [Nat.and_pow_two_sub_one_eq_mod, Nat.shiftRight_eq_div_pow]
  rfl

theorem expand6_eq (v : Nat) (h : v < 64) : expand6 v = ((specExpand6 v : Nat) : Int) := by
  interval_cases v <;> rfl

theorem expand7_eq (v : Nat) (h : v < 128) : expand7 v = ((specExpand7 v : Nat) : Int) := by
  interval_cases v <;> rfl

theorem specField_lt (d s n : Nat) : specField d s n < 2 ^ n :=
  Nat.mod_lt _ (Nat.pos_pow_of_pos n (by norm_num))

/-- The arithmetic right shift by two is the floor of the division by four. -/
theorem int_shiftRight_two (m : Int) : m >>> (2 : Int) = m / 4 := by
  cases m with
  | ofNat n =>
    have h := Int.shiftRight_coe_nat n 2
    simp only [Int.ofNat_eq_coe, Nat.cast_ofNat] at h ⊢
    rw [h, Nat.shiftRight_eq_div_pow]
    omega
  | negSucc n =>
    have h := Int.shiftRight_negSucc n 2
    simp only [Nat.cast_ofNat] at h
    rw [h, Nat.shiftRight_eq_div_pow, Int.negSucc_eq, Int.negSucc_eq]
    omega

theorem DecodePlanar.chan_floor (clampu8 : Int → Nat) (o h v i j : Nat) :
    DecodePlanar.chan clampu8 (o : Int) (h : Int) (v : Int) i j =
      specPlanarChan clampu8 o h v i j := by
  unfold DecodePlanar.chan specPlanarChan
  rw [int_shiftRight_two]

/-- The control points `DecodePlanar` extracts, in terms of the fields of the word. -/
theorem DecodePlanar.points (d : Nat) :
    expand6 ((d >>> (0 + 32)) &&& 0x3F) = ((specExpand6 (specField d 32 6) : Nat) : Int) ∧
    expand7 ((d >>> (6 + 32)) &&& 0x7F) = ((specExpand7 (specField d 38 7) : Nat) : Int) ∧
    expand6 ((d >>> (13 + 32)) &&& 0x3F) = ((specExpand6 (specField d 45 6) : Nat) : Int) ∧
    expand6 ((d >>> (19 + 32)) &&& 0x3F) = ((specExpand6 (specField d 51 6) : Nat) : Int) ∧
    expand7 ((d >>> (25 + 32)) &&& 0x7F) = ((specExpand7 (specField d 57 7) : Nat) : Int) ∧
    expand6 (((d >>> (32 - 32)) &&& 0x01) ||| (((d >>> (34 - 32)) &&& 0x1F) <<< 1)) =
      ((specExpand6 (specField d 2 5 * 2 + specField d 0 1) : Nat) : Int) ∧
    expand6 (((d >>> (39 - 32)) &&& 0x07) ||| (((d >>> (43 - 32)) &&& 0x3) <<< 3) |||
        (((d >>> (48 - 32)) &&& 0x1) <<< 5)) =
      ((specExpand6 (specField d 16 1 * 32 + specField d 11 2 * 8 + specField d 7 3) : Nat)
        : Int) ∧
    expand7 (((d >>> (49 - 32)) &&& 0x3F) ||| (((d >>> (56 - 32)) &&& 0x01) <<< 6)) =
      ((specExpand7 (specField d 24 1 * 64 + specField d 17 6) : Nat) : Int) ∧
    expand6 ((d >>> (57 - 32)) &&& 0x3F) = ((specExpand6 (specField d 25 6) : Nat) : Int) := by
  have f32 : (d >>> (0 + 32)) &&& 0x3F = specField d 32 6 := shift_mask_eq d 32 6
  have f38 : (d >>> (6 + 32)) &&& 0x7F = specField d 38 7 := shift_mask_eq d 38 7
  have f45 : (d >>> (13 + 32)) &&& 0x3F = specField d 45 6 := shift_mask_eq d 45 6
  have f51 : (d >>> (19 + 32)) &&& 0x3F = specField d 51 6 := shift_mask_eq d 51 6
  have f57 : (d >>> (25 + 32)) &&& 0x7F = specField d 57 7 := shift_mask_eq d 57 7
  have f0 : (d >>> (32 - 32)) &&& 0x01 = specField d 0 1 := shift_mask_eq d 0 1
  have f2 : (d >>> (34 - 32)) &&& 0x1F = specField d 2 5 := shift_mask_eq d 2 5
  have f7 : (d >>> (39 - 32)) &&& 0x07 = specField d 7 3 := shift_mask_eq d 7 3
  have f11 : (d >>> (43 - 32)) &&& 0x3 = specField d 11 2 := shift_mask_eq d 11 2
  have f16 : (d >>> (48 - 32)) &&& 0x1 = specField d 16 1 := shift_mask_eq d 16 1
  have f17 : (d >>> (49 - 32)) &&& 0x3F = specField d 17 6 := shift_mask_eq d 17 6
  have f24 : (d >>> (56 - 32)) &&& 0x01 = specField d 24 1 := shift_mask_eq d 24 1
  have f25 : (d >>> (57 - 32)) &&& 0x3F = specField d 25 6 := shift_mask_eq d 25 6
  have b0 := specField_lt d 0 1
  have b2 := specField_lt d 2 5
  have b7 := specField_lt d 7 3
  have b11 := specField_lt d 11 2
  have b16 := specField_lt d 16 1
  have b17 := specField_lt d 17 6
  have b24 := specField_lt d 24 1
  have erh : specField d 0 1 ||| (specField d 2 5 <<< 1) =
      specField d 2 5 * 2 + specField d 0 1 := by
    rw [Nat.shiftLeft_eq, Nat.mul_comm _ (2 ^ 1), or_eq_add_of_lt 1 b0]
  have ebo : specField d 7 3 ||| (specField d 11 2 <<< 3) ||| (specField d 16 1 <<< 5) =
      specField d 16 1 * 32 + specField d 11 2 * 8 + specField d 7 3 := by
    rw [Nat.shiftLeft_eq, Nat.shiftLeft_eq, Nat.mul_comm _ (2 ^ 3), Nat.mul_comm _ (2 ^ 5),
      or_eq_add_of_lt 3 b7, or_eq_add_of_lt 5 (by omega)]
    omega
  have ego : specField d 17 6 ||| (specField d 24 1 <<< 6) =
      specField d 24 1 * 64 + specField d 17 6 := by
    rw [Nat.shiftLeft_eq, Nat.mul_comm _ (2 ^ 6), or_eq_add_of_lt 6 b17]
  rw [f32, f38, f45, f51, f57, f0, f2, f7, f11, f16, f17, f24, f25, erh, ebo, ego]
  exact ⟨expand6_eq _ (specField_lt d 32 6), expand7_eq _ (specField_lt d 38 7),
    expand6_eq _ (specField_lt d 45 6), expand6_eq _ (specField_lt d 51 6),
    expand7_eq _ (specField_lt d 57 7), expand6_eq _ (by omega), expand6_eq _ (by omega),
    expand7_eq _ (by omega), expand6_eq _ (specField_lt d 25 6)⟩

/-- The pixel at column `i`, row `j` among the stores of `DecodePlanar`. -/
theorem DecodePlanar.pixelAt_eq (clampu8 : Int → Nat) (d i j : Nat) (hi : i < 4) (hj : j < 4) :
    Decode.pixelAt (DecodePlanar clampu8 d) i j =
      some (Decode.pixel
        (specPlanarChan clampu8 (specExpand6 (specField d 25 6))
          (specExpand6 (specField d 2 5 * 2 + specField d 0 1))
          (specExpand6 (specField d 45 6)) i j)
        (specPlanarChan clampu8 (specExpand7 (specField d 24 1 * 64 + specField d 17 6))
          (specExpand7 (specField d 57 7)) (specExpand7 (specField d 38 7)) i j)
        (specPlanarChan clampu8
          (specExpand6 (specField d 16 1 * 32 + specField d 11 2 * 8 + specField d 7 3))
          (specExpand6 (specField d 51 6)) (specExpand6 (specField d 32 6)) i j)) := by
  obtain ⟨hbv, hgv, hrv, hbh, hgh, hrh, hbo, hgo, hro⟩ := DecodePlanar.points d
  unfold DecodePlanar
  simp only [hbv, hgv, hrv, hbh, hgh, hrh, hbo, hgo, hro, DecodePlanar.chan_floor]
  interval_cases i <;> interval_cases j <;> rfl

/-- C12: for every block classified planar, the pixel written at column `i`, row `j` has
alpha `0xFF` and each channel equal to `clampu8((i*(H-O) + j*(V-O) + 4*O + 2) >> 2)` with an
arithmetic shift, where `O`, `H`, `V` are `expand6`/`expand7` of the fields of the
byte-permuted word `d`: RO = d[25..30], GO = d[24]:d[17..22], BO = d[16]:d[11..12]:d[7..9],
RH = d[2..6]:d[0], GH = d[57..63], BH = d[51..56], RV = d[45..50], GV = d[38..44],
BV = d[32..37], and `expand6(v) = (v<<2)|(v>>4)`, `expand7(v) = (v<<1)|(v>>6)` on 6-bit and
7-bit fields.  `clampu8` returns bytes. -/
theorem DecodePlanar_pixel (clampu8 : Int → Nat) (g_table : Nat → Nat → Int)
    (c0 : BlockColor) (word : Nat) (hclamp : ∀ v, clampu8 v < 256)
    (hmode : (DecodeBlockColor (permuteBytes word) c0).1 = Etc2Mode.planar)
    (i j : Nat) (hi : i < 4) (hj : j < 4) :
    (∃ px, Decode.pixelAt (Decode.block clampu8 g_table c0 word) i j = some px ∧
      px / 2 ^ 24 = 255 ∧
      specRGB px =
        (specPlanarChan clampu8 (specExpand6 (specField (permuteBytes word) 25 6))
            (specExpand6 (specField (permuteBytes word) 2 5 * 2 +
              specField (permuteBytes word) 0 1))
            (specExpand6 (specField (permuteBytes word) 45 6)) i j,
         specPlanarChan clampu8
            (specExpand7 (specField (permuteBytes word) 24 1 * 64 +
              specField (permuteBytes word) 17 6))
            (specExpand7 (specField (permuteBytes word) 57 7))
            (specExpand7 (specField (permuteBytes word) 38 7)) i j,
         specPlanarChan clampu8
            (specExpand6 (specField (permuteBytes word) 16 1 * 32 +
              specField (permuteBytes word) 11 2 * 8 + specField (permuteBytes word) 7 3))
            (specExpand6 (specField (permuteBytes word) 51 6))
            (specExpand6 (specField (permuteBytes word) 32 6)) i j)) ∧
    (∀ v, v < 64 → expand6 v = (((v <<< 2) ||| (v >>> 4) : Nat) : Int)) ∧
    (∀ v, v < 128 → expand7 v = (((v <<< 1) ||| (v >>> 6) : Nat) : Int)) := by
  have hblock : Decode.block clampu8 g_table c0 word =
      DecodePlanar clampu8 (permuteBytes word) := by
    unfold Decode.block
    simp only [hmode, if_true]
  refine ⟨?_, expand6_eq, expand7_eq⟩
  rw [hblock, DecodePlanar.pixelAt_eq clampu8 _ i j hi hj]
  exact ⟨_, rfl, (specRGB_pixel (hclamp _) (hclamp _) (hclamp _)).2,
    (specRGB_pixel (hclamp _) (hclamp _) (hclamp _)).1⟩

/-- Witness for C12: the word `0x02FB0000`, which after the byte permutation is `0x0000FB02`
(diff bit set, blue 31 + 3 out of range, so classified planar), at column 1, row 2. -/
theorem DecodePlanar_pixel_witness :
    (DecodeBlockColor (permuteBytes 0x02FB0000) ⟨0, 0, 0, 0, 0, 0⟩).1 = Etc2Mode.planar ∧
    ∃ px, Decode.pixelAt (Decode.block clampu8_sat g_table_etc1 ⟨0, 0, 0, 0, 0, 0⟩ 0x02FB0000)
        1 2 = some px ∧ px / 2 ^ 24 = 255 := by
  obtain ⟨px, h1, h2, -⟩ := (DecodePlanar_pixel clampu8_sat g_table_etc1 ⟨0, 0, 0, 0, 0, 0⟩
    0x02FB0000 clampu8_sat_lt (by decide) 1 2 (by decide) (by decide)).1
  exact ⟨by decide, px, h1, h2⟩
/-! ## Running the stores of a block on the bitmap -/

theorem Decode.rowCount_cons (j v : Nat) (rest : List (Nat × Nat)) (y : Nat) :
    Decode.rowCount ((j, v) :: rest) y =
      (if j = y then 1 else 0) + Decode.rowCount rest y := by
  unfold Decode.rowCount
  rw [List.filter_cons]
  by_cases h : j = y
  · simp [h]
    omega
  · simp [h]

theorem Decode.pixelAt_cons (j v : Nat) (rest : List (Nat × Nat)) (x y : Nat) :
    Decode.pixelAt ((j, v) :: rest) x y =
      if j = y then (if x = 0 then some v else Decode.pixelAt rest (x - 1) y)
      else Decode.pixelAt rest x y := by
  unfold Decode.pixelAt
  rw [List.filter_cons]
  by_cases h : j = y
  · simp only [h, beq_self_eq_true, if_true, List.map_cons]
    cases x with
    | zero => simp
    | succ x => simp
  · have hb : ((j, v).1 == y) = false := by simpa using h
    simp only [hb, h, if_false, Bool.false_eq_true]

/-- The effect of the stores of one block on a decoder state whose row pointers are far
enough apart: every pointer moves on by the number of stores through it, the bitmap keeps its
length, the `x`-th store through `l[y]` lands at `l[y] + x`, and nothing else changes. -/
theorem DecState.foldl_put (st : List (Nat × Nat)) (s : DecState)
    (hrows : ∀ p ∈ st, p.1 < 4)
    (h01 : s.l0 + Decode.rowCount st 0 ≤ s.l1)
    (h12 : s.l1 + Decode.rowCount st 1 ≤ s.l2)
    (h23 : s.l2 + Decode.rowCount st 2 ≤ s.l3) :
    (st.foldl (fun st p => st.put p.1 p.2) s).l0 = s.l0 + Decode.rowCount st 0 ∧
    (st.foldl (fun st p => st.put p.1 p.2) s).l1 = s.l1 + Decode.rowCount st 1 ∧
    (st.foldl (fun st p => st.put p.1 p.2) s).l2 = s.l2 + Decode.rowCount st 2 ∧
    (st.foldl (fun st p => st.put p.1 p.2) s).l3 = s.l3 + Decode.rowCount st 3 ∧
    (st.foldl (fun st p => st.put p.1 p.2) s).bmp.length = s.bmp.length ∧
    (∀ y x, y < 4 → x < Decode.rowCount st y → s.l y + x < s.bmp.length →
      (st.foldl (fun st p => st.put p.1 p.2) s).bmp[s.l y + x]? = Decode.pixelAt st x y) ∧
    (∀ i, (∀ y, y < 4 → ¬ (s.l y ≤ i ∧ i < s.l y + Decode.rowCount st y)) →
      (st.foldl (fun st p => st.put p.1 p.2) s).bmp[i]? = s.bmp[i]?) := by
  induction st generalizing s with
  | nil =>
    refine ⟨rfl, rfl, rfl, rfl, rfl, ?_, fun _ _ => rfl⟩
    intro y x _ hx
    simp [Decode.rowCount] at hx
  | cons p rest ih =>
    obtain ⟨j, v⟩ := p
    have hj : j < 4 := hrows (j, v) (List.mem_cons_self _ _)
    have hrest : ∀ p ∈ rest, p.1 < 4 := fun p hp => hrows p (List.mem_cons_of_mem _ hp)
    have c0 := Decode.rowCount_cons j v rest 0
    have c1 := Decode.rowCount_cons j v rest 1
    have c2 := Decode.rowCount_cons j v rest 2
    have c3 := Decode.rowCount_cons j v rest 3
    rw [List.foldl_cons]
    obtain ⟨i0, i1, i2, i3, il, ia, ib⟩ := ih (s.put j v) hrest
      (by interval_cases j <;> simp [DecState.put] at c0 c1 c2 c3 ⊢ <;> omega)
      (by interval_cases j <;> simp [DecState.put] at c0 c1 c2 c3 ⊢ <;> omega)
      (by interval_cases j <;> simp [DecState.put] at c0 c1 c2 c3 ⊢ <;> omega)
    have hl : (s.put j v).bmp.length = s.bmp.length := by
      interval_cases j <;> simp [DecState.put]
    refine ⟨?_, ?_, ?_, ?_, by rw [il, hl], ?_, ?_⟩
    · rw [i0]; interval_cases j <;> simp [DecState.put] at c0 ⊢ <;> omega
    · rw [i1]; interval_cases j <;> simp [DecState.put] at c1 ⊢ <;> omega
    · rw [i2]; interval_cases j <;> simp [DecState.put] at c2 ⊢ <;> omega
    · rw [i3]; interval_cases j <;> simp [DecState.put] at c3 ⊢ <;> omega
    · intro y x hy hx hlen
      rw [Decode.pixelAt_cons]
      have cy := Decode.rowCount_cons j v rest y
      by_cases hjy : j = y
      · subst hjy
        rw [if_pos rfl]
        rw [if_pos rfl] at cy
        by_cases hx0 : x = 0
        · subst hx0
          rw [if_pos rfl, ib]
          · interval_cases j <;> simp [DecState.put, DecState.l] at hlen ⊢ <;>
              exact List.getElem?_set_self (by omega)
          · intro y' hy'
            interval_cases j <;> interval_cases y' <;>
              simp [DecState.put, DecState.l] at c0 c1 c2 c3 ⊢ <;> omega
        · rw [if_neg hx0]
          have e : s.l j + x = (s.put j v).l j + (x - 1) := by
            interval_cases j <;> simp [DecState.put, DecState.l] <;> omega
          rw [e]
          exact ia j (x - 1) hy (by omega) (by rw [← e, hl]; exact hlen)
      · rw [if_neg hjy]
        rw [if_neg hjy] at cy
        have e : s.l y = (s.put j v).l y := by
          interval_cases j <;> interval_cases y <;> simp [DecState.put, DecState.l] at hjy ⊢
        rw [e]
        exact ia y x hy (by omega) (by rw [← e, hl]; exact hlen)
    · intro i hi
      have h0 := hi 0 (by norm_num)
      have h1 := hi 1 (by norm_num)
      have h2 := hi 2 (by norm_num)
      have h3 := hi 3 (by norm_num)
      simp only [DecState.l] at h0 h1 h2 h3
      rw [ib]
      · interval_cases j <;> simp only [DecState.put] <;>
          rw [List.getElem?_set_ne (by simp at c0 c1 c2 c3; omega)]
      · intro y' hy'
        interval_cases j <;> interval_cases y' <;>
          simp [DecState.put, DecState.l] at c0 c1 c2 c3 ⊢ <;> omega

/-- The shape of the stores of a block, whatever its mode: sixteen stores, four through each
of the four row pointers. -/
theorem Decode.block_shape (clampu8 : Int → Nat) (g_table : Nat → Nat → Int) (c0 : BlockColor)
    (word : Nat) :
    (∀ p ∈ Decode.block clampu8 g_table c0 word, p.1 < 4) ∧
    (∀ y, y < 4 → Decode.rowCount (Decode.block clampu8 g_table c0 word) y = 4) := by
  unfold Decode.block
  simp only []
  split
  · constructor
    · intro p hp
      simp only [DecodePlanar, List.mem_flatMap, List.mem_map, List.mem_range] at hp
      obtain ⟨j, hj, i, -, rfl⟩ := hp
      exact hj
    · intro y hy
      interval_cases y <;> rfl
  · unfold Decode.etc1
    simp only []
    split
    · constructor
      · intro p hp
        simp only [List.mem_flatMap, List.mem_cons, List.mem_singleton, List.not_mem_nil,
          or_false] at hp
        obtain ⟨o, -, rfl | rfl | rfl | rfl⟩ := hp <;> simp
      · intro y hy
        interval_cases y <;> rfl
    · constructor
      · intro p hp
        simp only [List.mem_append, List.mem_flatMap, List.mem_cons, List.mem_singleton,
          List.not_mem_nil, or_false] at hp
        obtain ⟨o, -, rfl | rfl | rfl | rfl⟩ | ⟨o, -, rfl | rfl | rfl | rfl⟩ := hp <;> simp
      · intro y hy
        interval_cases y <;> rfl

theorem Decode.block_length (clampu8 : Int → Nat) (g_table : Nat → Nat → Int) (c0 : BlockColor)
    (word : Nat) : (Decode.block clampu8 g_table c0 word).length = 16 := by
  unfold Decode.block
  simp only []
  split
  · simp [DecodePlanar, List.flatMap, List.range, List.range.loop]
  · unfold Decode.etc1
    simp only []
    split <;> simp [List.flatMap]

theorem Decode.pixelAt_isSome (st : List (Nat × Nat)) (x y : Nat)
    (h : x < Decode.rowCount st y) : ∃ px, Decode.pixelAt st x y = some px := by
  unfold Decode.rowCount at h
  unfold Decode.pixelAt
  exact ⟨_, List.getElem?_eq_getElem (by simpa using h)⟩
/-! ## C14: words classified T or H in `Decode` -/

/-- The row pointers after the stores of a list, without any condition on the state. -/
theorem DecState.foldl_put_ptr (st : List (Nat × Nat)) (s : DecState)
    (hrows : ∀ p ∈ st, p.1 < 4) :
    (st.foldl (fun st p => st.put p.1 p.2) s).l0 = s.l0 + Decode.rowCount st 0 ∧
    (st.foldl (fun st p => st.put p.1 p.2) s).l1 = s.l1 + Decode.rowCount st 1 ∧
    (st.foldl (fun st p => st.put p.1 p.2) s).l2 = s.l2 + Decode.rowCount st 2 ∧
    (st.foldl (fun st p => st.put p.1 p.2) s).l3 = s.l3 + Decode.rowCount st 3 ∧
    (st.foldl (fun st p => st.put p.1 p.2) s).bmp.length = s.bmp.length := by
  induction st generalizing s with
  | nil => exact ⟨rfl, rfl, rfl, rfl, rfl⟩
  | cons p rest ih =>
    obtain ⟨j, v⟩ := p
    have hj : j < 4 := hrows (j, v) (List.mem_cons_self _ _)
    have c0 := Decode.rowCount_cons j v rest 0
    have c1 := Decode.rowCount_cons j v rest 1
    have c2 := Decode.rowCount_cons j v rest 2
    have c3 := Decode.rowCount_cons j v rest 3
    rw [List.foldl_cons]
    obtain ⟨i0, i1, i2, i3, il⟩ := ih (s.put j v)
      (fun p hp => hrows p (List.mem_cons_of_mem _ hp))
    rw [i0, i1, i2, i3, il]
    interval_cases j <;> simp [DecState.put] at c0 c1 c2 c3 ⊢ <;> omega

/-- C14 (as amended): for every block word that the mode classifier reports as T or H,
`Decode` does not substitute black pixels; it runs the ETC1 reconstruction on the block, so
all 16 pixels of the block (one at every column and row) are written with alpha `0xFF`, their
colours being left open, and decoding of the following blocks proceeds normally: every row
pointer has moved on by 4 and the bitmap has kept its length, as after any other block. -/
theorem Decode_block_TH (clampu8 : Int → Nat) (g_table : Nat → Nat → Int) (c0 : BlockColor)
    (word : Nat) (hclamp : ∀ v, clampu8 v < 256)
    (hmode : (DecodeBlockColor (permuteBytes word) c0).1 = Etc2Mode.t ∨
      (DecodeBlockColor (permuteBytes word) c0).1 = Etc2Mode.h) :
    (Decode.block clampu8 g_table c0 word).length = 16 ∧
    (∀ x y, x < 4 → y < 4 →
      ∃ px, Decode.pixelAt (Decode.block clampu8 g_table c0 word) x y = some px ∧
        px < 4294967296 ∧ (px >>> 24) &&& 0xFF = 0xFF) ∧
    (∀ s : DecState,
      ((Decode.block clampu8 g_table c0 word).foldl (fun st p => st.put p.1 p.2) s).l0 =
        s.l0 + 4 ∧
      ((Decode.block clampu8 g_table c0 word).foldl (fun st p => st.put p.1 p.2) s).l1 =
        s.l1 + 4 ∧
      ((Decode.block clampu8 g_table c0 word).foldl (fun st p => st.put p.1 p.2) s).l2 =
        s.l2 + 4 ∧
      ((Decode.block clampu8 g_table c0 word).foldl (fun st p => st.put p.1 p.2) s).l3 =
        s.l3 + 4 ∧
      ((Decode.block clampu8 g_table c0 word).foldl (fun st p => st.put p.1 p.2) s).bmp.length
        = s.bmp.length) := by
  obtain ⟨hrows, hcnt⟩ := Decode.block_shape clampu8 g_table c0 word
  have hblock : Decode.block clampu8 g_table c0 word =
      Decode.etc1 clampu8 g_table (DecodeBlockColor (permuteBytes word) c0).2
        (permuteBytes word) := by
    unfold Decode.block
    rcases hmode with h | h <;> simp only [h] <;> rw [if_neg (by decide)]
  refine ⟨?_, ?_, ?_⟩
  · rw [hblock]
    unfold Decode.etc1
    simp only []
    split <;> simp [List.flatMap]
  · intro x y hx hy
    rw [hblock]
    by_cases hf : permuteBytes word &&& 0x1 ≠ 0
    · rw [Decode.etc1_pixelAt_flip _ _ _ _ hf x y hx hy]
      refine ⟨_, rfl, ?_⟩
      split <;> exact Decode.texel_alpha clampu8 g_table hclamp _ _ _ _ _ _ _
    · rw [Decode.etc1_pixelAt_noflip _ _ _ _ hf x y hx hy]
      refine ⟨_, rfl, ?_⟩
      split <;> exact Decode.texel_alpha clampu8 g_table hclamp _ _ _ _ _ _ _
  · intro s
    obtain ⟨p0, p1, p2, p3, pl⟩ := DecState.foldl_put_ptr _ s hrows
    rw [p0, p1, p2, p3, pl, hcnt 0 (by norm_num), hcnt 1 (by norm_num),
      hcnt 2 (by norm_num), hcnt 3 (by norm_num)]
    exact ⟨rfl, rfl, rfl, rfl, rfl⟩

/-- Witness for C14: the T word `0x020000FB` (byte-permuted `0xFB000002`: diff bit set, red
31 + 3 out of range). -/
theorem Decode_block_TH_witness :
    ((DecodeBlockColor (permuteBytes 0x020000FB) ⟨1, 2, 3, 4, 5, 6⟩).1 = Etc2Mode.t ∨
      (DecodeBlockColor (permuteBytes 0x020000FB) ⟨1, 2, 3, 4, 5, 6⟩).1 = Etc2Mode.h) ∧
    (Decode.block clampu8_sat g_table_etc1 ⟨1, 2, 3, 4, 5, 6⟩ 0x020000FB).length = 16 :=
  ⟨by decide,
    (Decode_block_TH clampu8_sat g_table_etc1 ⟨1, 2, 3, 4, 5, 6⟩ 0x020000FB clampu8_sat_lt
      (by decide)).1⟩

/-- Counterexample for C14: for the T word `0x020000FB`, whatever the uninitialised colour
holds, the pixel at column 0, row 0 has R = 33, G = 2, B = 2 and is not black. -/
theorem Decode_block_T_not_black :
    (∀ c0 : BlockColor, (DecodeBlockColor (permuteBytes 0x020000FB) c0).1 = Etc2Mode.t) ∧
    (∀ c0 : BlockColor,
      ∃ px, Decode.pixelAt (Decode.block clampu8_sat g_table_etc1 c0 0x020000FB) 0 0 =
          some px ∧
        specRGB px = (33, 2, 2) ∧ specRGB px ≠ (0, 0, 0)) := by
  have hp : permuteBytes 0x020000FB = 0xFB000002 := by decide
  have hm : ∀ c0 : BlockColor,
      (DecodeBlockColor (permuteBytes 0x020000FB) c0).1 = Etc2Mode.t := by
    intro c0
    rw [DecodeBlockColor_mode_eq, hp]
    decide
  refine ⟨hm, ?_⟩
  intro c0
  have hc : DecodeBlockColor 0xFB000002 c0 =
      (Etc2Mode.t, { c0 with r1 := 31, g1 := 0, b1 := 0 }) := by
    rw [DecodeBlockColor_eq, if_neg (by decide), if_pos (by decide)]
    rfl
  have hblock : Decode.block clampu8_sat g_table_etc1 c0 0x020000FB =
      Decode.etc1 clampu8_sat g_table_etc1 { c0 with r1 := 31, g1 := 0, b1 := 0 }
        0xFB000002 := by
    unfold Decode.block
    simp only [hp, hc]
    rw [if_neg (by decide)]
  rw [hblock, Decode.etc1_pixelAt_noflip _ _ _ _ (by decide) 0 0 (by decide) (by decide)]
  simp only [show (0 : Nat) < 2 from by decide, if_true]
  obtain ⟨e, -⟩ := Decode.texel_rgb clampu8_sat g_table_etc1 clampu8_sat_lt
    g_table_etc1_bounds 31 0 0 ((0xFB000002 &&& 0xE0) >>> 5) 0xFB000002 0 0 (by decide)
    (by decide) (by decide)
  have e2 : specRGB (Decode.texel clampu8_sat g_table_etc1 31 0 0
      ((0xFB000002 &&& 0xE0) >>> 5) 0xFB000002 (4 * 0) 0) = (33, 2, 2) := by
    rw [e]
    decide
  exact ⟨_, rfl, e2, by rw [e2]; decide⟩
/-! ## C16: the layout of the decoded bitmap -/

/-- The inner loop of `Decode` over `n` blocks of one block row whose words can all be read;
`pst j` are the stores of block `j`. -/
theorem Decode.blockRow_spec (stores : Nat → Except Fault (List (Nat × Nat)))
    (pst : Nat → List (Nat × Nat))
    (hshape : ∀ k, (∀ p ∈ pst k, p.1 < 4) ∧ ∀ y, y < 4 → Decode.rowCount (pst k) y = 4)
    (n k : Nat) (s : DecState)
    (hst : ∀ j, k ≤ j → j < k + n → stores j = .ok (pst j))
    (h01 : s.l0 + 4 * n ≤ s.l1) (h12 : s.l1 + 4 * n ≤ s.l2) (h23 : s.l2 + 4 * n ≤ s.l3) :
    ∃ s', Decode.blockRow stores n k s = .ok s' ∧
      s'.l0 = s.l0 + 4 * n ∧
      s'.l1 = s.l1 + 4 * n ∧
      s'.l2 = s.l2 + 4 * n ∧
      s'.l3 = s.l3 + 4 * n ∧
      s'.bmp.length = s.bmp.length ∧
      (∀ b x y, b < n → x < 4 → y < 4 → s.l y + 4 * b + x < s.bmp.length →
        s'.bmp[s.l y + 4 * b + x]? = Decode.pixelAt (pst (k + b)) x y) ∧
      (∀ i, (∀ y, y < 4 → ¬ (s.l y ≤ i ∧ i < s.l y + 4 * n)) → s'.bmp[i]? = s.bmp[i]?) := by
  induction n generalizing k s with
  | zero =>
    refine ⟨s, rfl, rfl, rfl, rfl, rfl, rfl, ?_, fun _ _ => rfl⟩
    intro b x y hb
    omega
  | succ n ih =>
    obtain ⟨hrows, hcnt⟩ := hshape k
    have q0 := hcnt 0 (by norm_num)
    have q1 := hcnt 1 (by norm_num)
    have q2 := hcnt 2 (by norm_num)
    have q3 := hcnt 3 (by norm_num)
    obtain ⟨f0, f1, f2, f3, fl, fa, fb⟩ := DecState.foldl_put (pst k) s hrows
      (by omega) (by omega) (by omega)
    rw [q0] at f0
    rw [q1] at f1
    rw [q2] at f2
    rw [q3] at f3
    obtain ⟨s', hs', i0, i1, i2, i3, il, ia, ib⟩ := ih (k + 1)
      ((pst k).foldl (fun st p => st.put p.1 p.2) s)
      (fun j h1 h2 => hst j (by omega) (by omega))
      (by omega) (by omega) (by omega)
    have hl1 : ∀ y, y < 4 →
        ((pst k).foldl (fun st p => st.put p.1 p.2) s).l y = s.l y + 4 := by
      intro y hy
      interval_cases y <;> simp only [DecState.l] <;> assumption
    have hrun : Decode.blockRow stores (n + 1) k s = .ok s' := by
      simp only [Decode.blockRow, hst k (le_refl k) (by omega), bind, Except.bind]
      exact hs'
    refine ⟨s', hrun, by omega, by omega, by omega, by omega, by omega, ?_, ?_⟩
    · intro b x y hb hx hy hlen
      cases b with
      | zero =>
        rw [ib]
        · have := fa y x hy (by rw [hcnt y hy]; exact hx) (by omega)
          simpa using this
        · intro y' hy'
          rw [hl1 y' hy']
          interval_cases y <;> interval_cases y' <;> simp only [DecState.l] <;> omega
      | succ b =>
        have e : s.l y + 4 * (b + 1) + x =
            ((pst k).foldl (fun st p => st.put p.1 p.2) s).l y + 4 * b + x := by
          rw [hl1 y hy]
          omega
        rw [e, show k + (b + 1) = k + 1 + b by omega]
        exact ia b x y (by omega) hx hy (by rw [← e, fl]; exact hlen)
    · intro i hi
      rw [ib, fb]
      · intro y hy
        have := hi y hy
        rw [hcnt y hy]
        omega
      · intro y hy
        have := hi y hy
        rw [hl1 y hy]
        omega

/-- The outer loop of `Decode` over `n` block rows of an image of width `4 * bw` whose words
can all be read and for which `m_size.x * 3` is the `int` `12 * bw`, started with the row
pointers on four consecutive pixel rows from index `B`. -/
theorem Decode.blockRows_spec (stores : Nat → Except Fault (List (Nat × Nat)))
    (pst : Nat → List (Nat × Nat))
    (hshape : ∀ k, (∀ p ∈ pst k, p.1 < 4) ∧ ∀ y, y < 4 → Decode.rowCount (pst k) y = 4)
    (bw : Nat) (sizex : Int) (hskip : chkInt (sizex * 3) = .ok ((12 * bw : Nat) : Int))
    (n k : Nat) (s : DecState) (B : Nat)
    (hst : ∀ j, k ≤ j → j < k + n * bw → stores j = .ok (pst j))
    (hl0 : s.l0 = B) (hl1 : s.l1 = B + 4 * bw) (hl2 : s.l2 = B + 8 * bw)
    (hl3 : s.l3 = B + 12 * bw) :
    ∃ s', Decode.blockRows stores bw sizex n k s = .ok s' ∧
      s'.bmp.length = s.bmp.length ∧
      (∀ r bx x y, r < n → bx < bw → x < 4 → y < 4 →
        B + 16 * (r * bw) + 4 * bw * y + 4 * bx + x < s.bmp.length →
        s'.bmp[B + 16 * (r * bw) + 4 * bw * y + 4 * bx + x]? =
          Decode.pixelAt (pst (k + r * bw + bx)) x y) ∧
      (∀ i, i < B → s'.bmp[i]? = s.bmp[i]?) := by
  induction n generalizing k s B with
  | zero =>
    refine ⟨s, rfl, rfl, ?_, fun _ _ => rfl⟩
    intro r bx x y hr
    omega
  | succ n ih =>
    have hmul : (n + 1) * bw = n * bw + bw := by rw [Nat.add_mul, Nat.one_mul]
    obtain ⟨s1, hs1, r0, r1, r2, r3, rl, ra, rb⟩ := Decode.blockRow_spec stores pst hshape bw k
      s (fun j h1 h2 => hst j h1 (by omega)) (by omega) (by omega) (by omega)
    obtain ⟨s2, hs2, il, ia, ib⟩ := ih (k + bw)
      { s1 with
        l0 := s1.l0 + 12 * bw
        l1 := s1.l1 + 12 * bw
        l2 := s1.l2 + 12 * bw
        l3 := s1.l3 + 12 * bw }
      (B + 16 * bw) (fun j h1 h2 => hst j (by omega) (by omega))
      (by simp only []; omega) (by simp only []; omega)
      (by simp only []; omega) (by simp only []; omega)
    simp only [] at il ia ib
    have hrun : Decode.blockRows stores bw sizex (n + 1) k s = .ok s2 := by
      simp only [Decode.blockRows, hs1, hskip, bind, Except.bind, Int.toNat_ofNat]
      exact hs2
    refine ⟨s2, hrun, by omega, ?_, ?_⟩
    · intro r bx x y hr hbx hx hy hlen
      cases r with
      | zero =>
        simp only [Nat.zero_mul, Nat.mul_zero, Nat.add_zero] at hlen ⊢
        rw [ib _ (by interval_cases y <;> omega)]
        have e : B + 4 * bw * y + 4 * bx + x = s.l y + 4 * bx + x := by
          interval_cases y <;> simp only [DecState.l] <;> omega
        rw [e] at hlen ⊢
        exact ra bx x y hbx hx hy hlen
      | succ r =>
        have e : B + 16 * ((r + 1) * bw) + 4 * bw * y + 4 * bx + x =
            B + 16 * bw + 16 * (r * bw) + 4 * bw * y + 4 * bx + x := by
          rw [Nat.add_mul, Nat.one_mul]
          omega
        have e2 : k + (r + 1) * bw + bx = k + bw + r * bw + bx := by
          rw [Nat.add_mul, Nat.one_mul]
          omega
        rw [e, e2]
        exact ia r bx x y (by omega) hbx hx hy (by rw [← e, rl]; exact hlen)
    · intro i hi
      rw [ib i (by omega), rb]
      intro y hy
      interval_cases y <;> simp only [DecState.l] <;> omega

/-- Every index of a `4*bw` by `4*bh` bitmap is the destination of exactly one local pixel of
exactly one block. -/
theorem pixel_index_bij (bw bh : Nat) (hbw : 0 < bw) :
    (∀ i, i < 4 * bw * (4 * bh) →
      ∃ bx by' x y, bx < bw ∧ by' < bh ∧ x < 4 ∧ y < 4 ∧
        (4 * by' + y) * (4 * bw) + 4 * bx + x = i) ∧
    (∀ bx by' x y bx2 by2 x2 y2, bx < bw → x < 4 → y < 4 → bx2 < bw → x2 < 4 → y2 < 4 →
      (4 * by' + y) * (4 * bw) + 4 * bx + x = (4 * by2 + y2) * (4 * bw) + 4 * bx2 + x2 →
      bx = bx2 ∧ by' = by2 ∧ x = x2 ∧ y = y2) := by
  have hW : 0 < 4 * bw := by omega
  constructor
  · intro i hi
    have hrow : i / (4 * bw) < 4 * bh := Nat.div_lt_of_lt_mul hi
    have hcol : i % (4 * bw) < 4 * bw := Nat.mod_lt _ hW
    refine ⟨i % (4 * bw) / 4, i / (4 * bw) / 4, i % (4 * bw) % 4, i / (4 * bw) % 4,
      by omega, by omega, by omega, by omega, ?_⟩
    have e1 : 4 * (i / (4 * bw) / 4) + i / (4 * bw) % 4 = i / (4 * bw) := by omega
    have e2 := Nat.div_add_mod i (4 * bw)
    rw [e1, Nat.mul_comm]
    omega
  · intro bx by' x y bx2 by2 x2 y2 hbx hx hy hbx2 hx2 hy2 he
    have hd : ∀ R C, C < 4 * bw → (R * (4 * bw) + C) / (4 * bw) = R ∧
        (R * (4 * bw) + C) % (4 * bw) = C := by
      intro R C hC
      rw [Nat.mul_comm]
      exact ⟨by rw [Nat.mul_add_div hW, Nat.div_eq_of_lt hC, Nat.add_zero],
        by rw [Nat.mul_add_mod, Nat.mod_eq_of_lt hC]⟩
    have h1 := hd (4 * by' + y) (4 * bx + x) (by omega)
    have h2 := hd (4 * by2 + y2) (4 * bx2 + x2) (by omega)
    rw [Nat.add_assoc] at he
    rw [Nat.add_assoc ((4 * by2 + y2) * (4 * bw))] at he
    rw [he] at h1
    have hR : 4 * by' + y = 4 * by2 + y2 := by rw [← h1.1, h2.1]
    have hC : 4 * bx + x = 4 * bx2 + x2 := by rw [← h1.2, h2.2]
    omega

/-- A block word inside the mapping is read as it stands. -/
theorem BlockData.word_ok (b : BlockData) (n k : Nat)
    (hmap : b.m_dataOffset + 8 * n ≤ b.m_data.length) (hk : k < n) :
    b.word k = .ok (load64 b.m_data (b.m_dataOffset + 8 * k)) := by
  unfold BlockData.word
  rw [if_pos (by omega)]

/-- C16 (as amended): for every size `(w, h)` with both dimensions positive multiples of 4,
`3*w ≤ INT_MAX` (so that the `int` product `m_size.x * 3` does not overflow) and the
`(w/4)*(h/4)` block words from the data offset on inside the mapping, `Decode` returns a
bitmap of exactly `w*h` pixels; block `(bx, by)` is decoded from the word number
`by*(w/4) + bx` (below `(w/4)*(h/4)`) read at the data offset, every block performs sixteen
stores, and local pixel (column `x`, row `y`) of block `(bx, by)` is at bitmap index
`(4*by + y)*w + 4*bx + x`, for ETC1 and planar blocks alike; every index of the bitmap is
the destination of exactly one local pixel of exactly one block. -/
theorem Decode_layout (clampu8 : Int → Nat) (g_table : Nat → Nat → Int)
    (garbage : Nat → BlockColor) (fresh : Nat → Nat) (b : BlockData) (w h : Nat)
    (hw : 0 < w) (hh : 0 < h) (hw4 : 4 ∣ w) (hh4 : 4 ∣ h)
    (hsize : b.m_size = ⟨(w : Int), (h : Int)⟩) (hfit : 3 * w ≤ 2147483647)
    (hmap : b.m_dataOffset + 8 * ((w / 4) * (h / 4)) ≤ b.m_data.length) :
    ∃ bmp, BlockData.Decode clampu8 g_table garbage fresh b = .ok bmp ∧
      bmp.length = w * h ∧
      (∀ bx by' x y, bx < w / 4 → by' < h / 4 → x < 4 → y < 4 →
        by' * (w / 4) + bx < (w / 4) * (h / 4) ∧
        (4 * by' + y) * w + 4 * bx + x < w * h ∧
        b.word (by' * (w / 4) + bx) =
          .ok (load64 b.m_data (b.m_dataOffset + 8 * (by' * (w / 4) + bx))) ∧
        ∃ px, Decode.pixelAt (Decode.block clampu8 g_table (garbage (by' * (w / 4) + bx))
            (load64 b.m_data (b.m_dataOffset + 8 * (by' * (w / 4) + bx)))) x y = some px ∧
          bmp[(4 * by' + y) * w + 4 * bx + x]? = some px) ∧
      (∀ k, (Decode.block clampu8 g_table (garbage k)
        (load64 b.m_data (b.m_dataOffset + 8 * k))).length = 16) ∧
      (∀ i, i < w * h →
        ∃ bx by' x y, bx < w / 4 ∧ by' < h / 4 ∧ x < 4 ∧ y < 4 ∧
          (4 * by' + y) * w + 4 * bx + x = i) ∧
      (∀ bx by' x y bx2 by2 x2 y2, bx < w / 4 → x < 4 → y < 4 → bx2 < w / 4 → x2 < 4 →
        y2 < 4 →
        (4 * by' + y) * w + 4 * bx + x = (4 * by2 + y2) * w + 4 * bx2 + x2 →
        bx = bx2 ∧ by' = by2 ∧ x = x2 ∧ y = y2) := by
  obtain ⟨bw, rfl⟩ := hw4
  obtain ⟨bh, rfl⟩ := hh4
  have hbw : 0 < bw := by omega
  have hbh : 0 < bh := by omega
  have ew : 4 * bw / 4 = bw := Nat.mul_div_cancel_left bw (by norm_num)
  have eh : 4 * bh / 4 = bh := Nat.mul_div_cancel_left bh (by norm_num)
  rw [ew, eh] at hmap
  have hshape : ∀ k, (∀ p ∈ Decode.block clampu8 g_table (garbage k)
        (load64 b.m_data (b.m_dataOffset + 8 * k)), p.1 < 4) ∧
      ∀ y, y < 4 → Decode.rowCount (Decode.block clampu8 g_table (garbage k)
        (load64 b.m_data (b.m_dataOffset + 8 * k))) y = 4 :=
    fun k => Decode.block_shape clampu8 g_table _ _
  have hc : chkInt (((4 * bw : Nat) : Int) * 3) = .ok ((12 * bw : Nat) : Int) := by
    rw [← chkInt_natCast (12 * bw) (by omega)]
    push_cast
    ring_nf
  obtain ⟨s', hrun, sl, sa, -⟩ := Decode.blockRows_spec
    (fun k => do
      let d ← b.word k
      .ok (Decode.block clampu8 g_table (garbage k) d))
    (fun k => Decode.block clampu8 g_table (garbage k)
      (load64 b.m_data (b.m_dataOffset + 8 * k))) hshape bw ((4 * bw : Nat) : Int) hc bh 0
    { bmp := (List.range (4 * bw * (4 * bh))).map fresh, l0 := 0, l1 := 4 * bw,
      l2 := 4 * bw + 4 * bw, l3 := 4 * bw + 4 * bw + 4 * bw } 0
    (by
      intro j _ hj
      rw [Nat.zero_add, Nat.mul_comm] at hj
      simp only [BlockData.word_ok b (bw * bh) j hmap hj]
      rfl)
    rfl (by simp only []; omega) (by simp only []; omega) (by simp only []; omega)
  simp only [List.length_map, List.length_range] at sl sa
  have hdec : BlockData.Decode clampu8 g_table garbage fresh b = .ok s'.bmp := by
    unfold BlockData.Decode
    simp only [hsize, Int.toNat_ofNat, ew, eh]
    rw [hrun]
    rfl
  obtain ⟨bij1, bij2⟩ := pixel_index_bij bw bh hbw
  refine ⟨_, hdec, sl, ?_, fun k => Decode.block_length clampu8 g_table _ _, ?_, ?_⟩
  · intro bx by' x y hbx hby hx hy
    rw [ew] at hbx ⊢
    rw [eh] at hby ⊢
    have hk : by' * bw + bx < bw * bh := by
      calc by' * bw + bx < by' * bw + bw := by omega
        _ = (by' + 1) * bw := by rw [Nat.add_mul, Nat.one_mul]
        _ ≤ bh * bw := Nat.mul_le_mul_right bw (by omega)
        _ = bw * bh := Nat.mul_comm _ _
    have hidx : (4 * by' + y) * (4 * bw) + 4 * bx + x < 4 * bw * (4 * bh) := by
      calc (4 * by' + y) * (4 * bw) + 4 * bx + x
          < (4 * by' + y) * (4 * bw) + 4 * bw := by omega
        _ = (4 * by' + y + 1) * (4 * bw) := by ring
        _ ≤ 4 * bh * (4 * bw) := Nat.mul_le_mul_right _ (by omega)
        _ = 4 * bw * (4 * bh) := Nat.mul_comm _ _
    have e : (4 * by' + y) * (4 * bw) + 4 * bx + x =
        0 + 16 * (by' * bw) + 4 * bw * y + 4 * bx + x := by ring
    obtain ⟨px, hpx⟩ := Decode.pixelAt_isSome (Decode.block clampu8 g_table
      (garbage (by' * bw + bx)) (load64 b.m_data (b.m_dataOffset + 8 * (by' * bw + bx)))) x y
      (by rw [(hshape _).2 y hy]; exact hx)
    refine ⟨hk, hidx, BlockData.word_ok b (bw * bh) _ hmap hk, px, hpx, ?_⟩
    rw [e] at hidx ⊢
    have := sa by' bx x y hby hbx hx hy hidx
    simp only [Nat.zero_add] at this hpx ⊢
    rw [this, hpx]
  · intro i hi
    rw [ew, eh]
    exact bij1 i hi
  · rw [ew]
    exact bij2

/-- Witness for C16: an 8x8 image of four blocks; the pixel at column 1, row 2 of block
(1, 1), which is decoded from word 3, is at index 53 of the bitmap. -/
theorem Decode_layout_witness :
    (0 < 8 ∧ 4 ∣ 8 ∧ exampleBlockData8.m_size = ⟨((8 : Nat) : Int), ((8 : Nat) : Int)⟩ ∧
      3 * 8 ≤ 2147483647 ∧
      exampleBlockData8.m_dataOffset + 8 * ((8 / 4) * (8 / 4)) ≤
        exampleBlockData8.m_data.length) ∧
    ∃ bmp, BlockData.Decode clampu8_sat g_table_etc1 (fun _ => ⟨0, 0, 0, 0, 0, 0⟩)
        (fun _ => 0) exampleBlockData8 = .ok bmp ∧ bmp.length = 8 * 8 ∧
      ∃ px, Decode.pixelAt (Decode.block clampu8_sat g_table_etc1 ⟨0, 0, 0, 0, 0, 0⟩
          (load64 exampleBlockData8.m_data (exampleBlockData8.m_dataOffset + 8 * 3))) 1 2 =
            some px ∧
        bmp[53]? = some px := by
  obtain ⟨bmp, h1, h2, h3, -⟩ := Decode_layout clampu8_sat g_table_etc1
    (fun _ => ⟨0, 0, 0, 0, 0, 0⟩) (fun _ => 0) exampleBlockData8 8 8 (by decide) (by decide)
    (by decide) (by decide) rfl (by decide) (by decide)
  obtain ⟨-, -, -, px, h4, h5⟩ := h3 1 1 1 2 (by decide) (by decide) (by decide) (by decide)
  exact ⟨⟨by decide, by decide, rfl, by decide, by decide⟩, bmp, h1, h2, px, h4, h5⟩

/-- When the words of the first block row can be read and the product `m_size.x * 3`
overflows, `Decode` stops at the end of the first block row. -/
theorem BlockData.Decode_fault (clampu8 : Int → Nat) (g_table : Nat → Nat → Int)
    (garbage : Nat → BlockColor) (fresh : Nat → Nat) (b : BlockData) (w h : Nat)
    (hh : 4 ≤ h) (hsize : b.m_size = ⟨(w : Int), (h : Int)⟩)
    (hover : 2147483647 < 3 * w)
    (hmap : b.m_dataOffset + 8 * (w / 4) ≤ b.m_data.length) :
    BlockData.Decode clampu8 g_table garbage fresh b = .error Fault.overflow := by
  have hshape : ∀ k, (∀ p ∈ Decode.block clampu8 g_table (garbage k)
        (load64 b.m_data (b.m_dataOffset + 8 * k)), p.1 < 4) ∧
      ∀ y, y < 4 → Decode.rowCount (Decode.block clampu8 g_table (garbage k)
        (load64 b.m_data (b.m_dataOffset + 8 * k))) y = 4 :=
    fun k => Decode.block_shape clampu8 g_table _ _
  obtain ⟨s1, hs1, -⟩ := Decode.blockRow_spec
    (fun k => do
      let d ← b.word k
      .ok (Decode.block clampu8 g_table (garbage k) d))
    (fun k => Decode.block clampu8 g_table (garbage k)
      (load64 b.m_data (b.m_dataOffset + 8 * k))) hshape (w / 4) 0
    { bmp := (List.range (w * h)).map fresh, l0 := 0, l1 := w, l2 := w + w,
      l3 := w + w + w }
    (by
      intro j _ hj
      rw [Nat.zero_add] at hj
      simp only [BlockData.word_ok b (w / 4) j hmap hj]
      rfl)
    (by simp only []; omega) (by simp only []; omega) (by simp only []; omega)
  have hc : chkInt ((w : Int) * 3) = .error Fault.overflow := by
    unfold chkInt
    rw [if_neg (by omega)]
  obtain ⟨n, hn⟩ : ∃ n, h / 4 = n + 1 := ⟨h / 4 - 1, by omega⟩
  unfold BlockData.Decode
  simp only [hsize, Int.toNat_ofNat, hn, Decode.blockRows]
  rw [hs1]
  simp only [hc, bind, Except.bind]

/-- Counterexample for C16: the PVR file of a 715827884 x 8 image (both dimensions positive
multiples of 4) with its whole payload of 2863311536 zero bytes.  The reader accepts it, all
its block words lie inside the mapping, and the `int` product `m_size.x * 3` of
`l[0] += m_size.x * 3` leaves the range of `int` at the end of the first block row, so
`Decode` does not place the pixels of the second block row as claimed. -/
theorem Decode_layout_overflow :
    (4 ∣ 715827884) ∧ (4 ∣ 8) ∧ (2147483647 : Int) < 715827884 * 3 ∧
    ∃ b, BlockData.ofFile false ⟨[], ⟨0, 0⟩, 0, 0⟩
        (OpenForWriting 2863311588 ⟨715827884, 8⟩ 1) = some b ∧
      b.m_size = ⟨715827884, 8⟩ ∧
      b.m_dataOffset + 8 * ((715827884 / 4) * (8 / 4)) ≤ b.m_data.length ∧
      BlockData.Decode clampu8_sat g_table_etc1 (fun _ => ⟨0, 0, 0, 0, 0, 0⟩) (fun _ => 0) b =
        .error Fault.overflow := by
  have hlen : (OpenForWriting 2863311588 ⟨715827884, 8⟩ 1).length = 2863311588 :=
    OpenForWriting_length _ _ _ (by decide)
  have hsz : ({ x := toI32 (toU32 715827884), y := toI32 (toU32 8) } : v2i) =
      ⟨715827884, 8⟩ := by decide
  refine ⟨by decide, by decide, by decide, _,
    ofFile_written false ⟨[], ⟨0, 0⟩, 0, 0⟩ 2863311588 ⟨715827884, 8⟩ 1 _ (by decide) rfl,
    hsz, ?_, ?_⟩
  · simp only [hlen]
    decide
  · exact BlockData.Decode_fault _ _ _ _ _ 715827884 8 (by decide) hsz (by decide)
      (by simp only [hlen]; decide)
/-! ## C17: the assertions of `AdjustSizeForMipmaps` -/

theorem AdjustSizeForMipmaps.halve_level (w h j : Nat) :
    AdjustSizeForMipmaps.halve ⟨(specLevelDim w j : Int), (specLevelDim h j : Int)⟩ =
      ⟨(specLevelDim w (j + 1) : Int), (specLevelDim h (j + 1) : Int)⟩ := by
  unfold AdjustSizeForMipmaps.halve
  rw [specLevelDim_succ, specLevelDim_succ]
  simp only []
  rw [show (specLevelDim w j : Int).tdiv 2 = ((specLevelDim w j / 2 : Nat) : Int) from rfl,
    show (specLevelDim h j : Int).tdiv 2 = ((specLevelDim h j / 2 : Nat) : Int) from rfl]
  push_cast
  rfl

theorem AdjustSizeForMipmaps.halve_iterate (w h j : Nat) (hw : 1 ≤ w) (hh : 1 ≤ h) :
    AdjustSizeForMipmaps.halve^[j] ⟨(w : Int), (h : Int)⟩ =
      ⟨(specLevelDim w j : Int), (specLevelDim h j : Int)⟩ := by
  induction j with
  | zero =>
    rw [specLevelDim_zero w hw, specLevelDim_zero h hh]
    rfl
  | succ j ih =>
    rw [Function.iterate_succ_apply', ih, AdjustSizeForMipmaps.halve_level]

/-- The loop never fails its assertion while the levels it passes are not (1,1): it either
stops on an `int` overflow or reaches the level `k + n`. -/
theorem AdjustSizeForMipmaps.loop_no_assert (w h n k : Nat) (len : Int)
    (hne : ∀ j, k ≤ j → j < k + n → ¬ (specLevelDim w j = 1 ∧ specLevelDim h j = 1)) :
    AdjustSizeForMipmaps.loop n ⟨(specLevelDim w k : Int), (specLevelDim h k : Int)⟩ len =
        .error Fault.overflow ∨
    ∃ len', AdjustSizeForMipmaps.loop n
        ⟨(specLevelDim w k : Int), (specLevelDim h k : Int)⟩ len =
      .ok (⟨(specLevelDim w (k + n) : Int), (specLevelDim h (k + n) : Int)⟩, len') := by
  induction n generalizing k len with
  | zero => exact Or.inr ⟨len, rfl⟩
  | succ n ih =>
    have h1 := hne k (by omega) (by omega)
    have h1' : ¬ ((specLevelDim w k : Int) = 1 ∧ (specLevelDim h k : Int) = 1) := by
      intro hc
      exact h1 ⟨by omega, by omega⟩
    have hh := AdjustSizeForMipmaps.halve_level w h k
    unfold AdjustSizeForMipmaps.halve at hh
    simp only [v2i.mk.injEq] at hh
    simp only [AdjustSizeForMipmaps.loop]
    rw [if_neg h1', hh.1, hh.2]
    cases hp : chkInt (max 4 (specLevelDim w (k + 1) : Int) *
        max 4 (specLevelDim h (k + 1) : Int)) with
    | error e =>
      left
      unfold chkInt at hp
      split at hp
      · cases hp
      · cases hp
        rfl
    | ok p =>
      simp only [bind, Except.bind]
      cases hq : chkInt (len + p.tdiv 2) with
      | error e =>
        left
        unfold chkInt at hq
        split at hq
        · cases hq
        · cases hq
          rfl
      | ok len1 =>
        simp only []
        have := ih (k + 1) len1 (fun j hj1 hj2 => hne j (by omega) (by omega))
        rw [show k + 1 + n = k + (n + 1) by omega] at this
        exact this

theorem specLevel_not_one (w h j : Nat) (hw : 1 ≤ w) (hh : 1 ≤ h)
    (hj : j < Nat.log2 (max w h)) : ¬ (specLevelDim w j = 1 ∧ specLevelDim h j = 1) := by
  have hm0 : max w h ≠ 0 := by omega
  rcases Nat.le_total w h with hle | hle
  · have := specLevelDim_ge_two h (max w h) j (by omega) hj hm0
    omega
  · have := specLevelDim_ge_two w (max w h) j (by omega) hj hm0
    omega

/-- The value `AdjustSizeForMipmaps` returns for every positive size whose `int`
computations stay in range. -/
theorem AdjustSizeForMipmaps_ok (w h : Nat) (hw : 1 ≤ w) (hh : 1 ≤ h)
    (hfit : max 4 w * max 4 h ≤ 2147483647) (hsum : specMipBytes w h ≤ 2147483647) :
    AdjustSizeForMipmaps ⟨(w : Int), (h : Int)⟩ (specLevels w h : Int) =
      .ok (specMipBytes w h : Int) := by
  have hS : specMipBytes w h =
      ∑ j ∈ Finset.range (Nat.log2 (max w h)), specLevelBytes w h (0 + 1 + j) := by
    unfold specMipBytes specLevels
    rw [Finset.sum_Ico_eq_sum_range]
    simp
  have hn : ((specLevels w h : Int) - 1).toNat = Nat.log2 (max w h) := by
    unfold specLevels
    push_cast
    omega
  have hloop := AdjustSizeForMipmaps.loop_levels w h (Nat.log2 (max w h)) 0 0
    (by
      intro j _ hj
      rw [Nat.zero_add] at hj
      exact specLevel_not_one w h j hw hh hj)
    (by
      intro j _ _
      have h1 := specLevelDim_le w j hw
      have h2 := specLevelDim_le h j hh
      calc max 4 (specLevelDim w j) * max 4 (specLevelDim h j)
          ≤ max 4 w * max 4 h := Nat.mul_le_mul (by omega) (by omega)
        _ ≤ 2147483647 := hfit)
    (by rw [← hS]; omega)
  rw [specLevelDim_zero w hw, specLevelDim_zero h hh, Nat.zero_add,
    specLevelDim_last w _ (by omega), specLevelDim_last h _ (by omega), ← hS] at hloop
  unfold AdjustSizeForMipmaps
  rw [hn]
  simp only [Nat.cast_zero, Nat.zero_add] at hloop
  rw [hloop]
  simp [bind, Except.bind]

/-- C17: for every size with `w ≥ 1` and `h ≥ 1` and
`levels = floor(log2(max(w,h))) + 1`, both assertions of `AdjustSizeForMipmaps` hold: the
current level is not (1,1) before any of the `levels - 1` halving steps (each a
`max(1, dim/2)`), and after them it is exactly (1,1).  So the function never stops on an
assertion, and it returns whenever its `int` computations stay in range. -/
theorem AdjustSizeForMipmaps_asserts (w h : Nat) (hw : 1 ≤ w) (hh : 1 ≤ h) :
    (∀ j, j < specLevels w h - 1 →
      AdjustSizeForMipmaps.halve^[j] ⟨(w : Int), (h : Int)⟩ ≠ ⟨1, 1⟩) ∧
    AdjustSizeForMipmaps.halve^[specLevels w h - 1] ⟨(w : Int), (h : Int)⟩ = ⟨1, 1⟩ ∧
    AdjustSizeForMipmaps ⟨(w : Int), (h : Int)⟩ (specLevels w h : Int) ≠
      .error Fault.assertion ∧
    (max 4 w * max 4 h ≤ 2147483647 → specMipBytes w h ≤ 2147483647 →
      AdjustSizeForMipmaps ⟨(w : Int), (h : Int)⟩ (specLevels w h : Int) =
        .ok (specMipBytes w h : Int)) := by
  have hL : specLevels w h - 1 = Nat.log2 (max w h) := by
    unfold specLevels
    omega
  have hn : ((specLevels w h : Int) - 1).toNat = Nat.log2 (max w h) := by
    unfold specLevels
    push_cast
    omega
  refine ⟨?_, ?_, ?_, AdjustSizeForMipmaps_ok w h hw hh⟩
  · intro j hj
    rw [hL] at hj
    rw [AdjustSizeForMipmaps.halve_iterate w h j hw hh]
    intro hc
    simp only [v2i.mk.injEq] at hc
    exact specLevel_not_one w h j hw hh hj ⟨by omega, by omega⟩
  · rw [hL, AdjustSizeForMipmaps.halve_iterate w h _ hw hh,
      specLevelDim_last w _ (by omega), specLevelDim_last h _ (by omega)]
    rfl
  · have hl := AdjustSizeForMipmaps.loop_no_assert w h (Nat.log2 (max w h)) 0 0
      (by
        intro j _ hj
        rw [Nat.zero_add] at hj
        exact specLevel_not_one w h j hw hh hj)
    rw [specLevelDim_zero w hw, specLevelDim_zero h hh, Nat.zero_add,
      specLevelDim_last w _ (by omega), specLevelDim_last h _ (by omega)] at hl
    unfold AdjustSizeForMipmaps
    rw [hn]
    rcases hl with hl | ⟨len', hl⟩
    · rw [hl]
      simp [bind, Except.bind]
    · rw [hl]
      simp [bind, Except.bind]

/-- Witness for C17: the size 16x16, whose five levels are 16, 8, 4, 2, 1. -/
theorem AdjustSizeForMipmaps_asserts_witness :
    (1 ≤ 16) ∧
    AdjustSizeForMipmaps.halve^[specLevels 16 16 - 1] ⟨((16 : Nat) : Int), ((16 : Nat) : Int)⟩
      = ⟨1, 1⟩ ∧
    AdjustSizeForMipmaps ⟨((16 : Nat) : Int), ((16 : Nat) : Int)⟩ (specLevels 16 16 : Int) ≠
      .error Fault.assertion :=
  ⟨by decide, (AdjustSizeForMipmaps_asserts 16 16 (by decide) (by decide)).2.1,
    (AdjustSizeForMipmaps_asserts 16 16 (by decide) (by decide)).2.2.1⟩

/-! ## Memory effect of `Process` -/

theorem store8_getElem? (m : Mem) (a v i : Nat) :
    (store8 m a v)[i]? = if i = a ∧ i < m.length then some (v % 256) else m[i]? := by
  unfold store8
  by_cases h : a = i
  · subst h
    by_cases hl : a < m.length
    · rw [List.getElem?_set_self hl, if_pos ⟨rfl, hl⟩]
    · rw [if_neg (by omega), List.getElem?_eq_none (by rw [List.length_set]; omega),
        List.getElem?_eq_none (by omega)]
  · rw [List.getElem?_set_ne h, if_neg (by omega)]

theorem store32_getElem? (m : Mem) (a v i : Nat) :
    (store32 m a v)[i]? =
      if a ≤ i ∧ i < a + 4 ∧ i < m.length then some (v / 256 ^ (i - a) % 256) else m[i]? := by
  unfold store32
  simp only [store8_getElem?, store8_length]
  by_cases h3 : i = a + 3
  · subst h3
    by_cases hl : a + 3 < m.length
    · rw [if_pos ⟨rfl, hl⟩, if_pos ⟨by omega, by omega, hl⟩]
      rw [show a + 3 - a = 3 by omega]
      norm_num
    · rw [if_neg (by omega), if_neg (by omega), if_neg (by omega), if_neg (by omega),
        if_neg (by omega)]
  rw [if_neg (by omega)]
  by_cases h2 : i = a + 2
  · subst h2
    by_cases hl : a + 2 < m.length
    · rw [if_pos ⟨rfl, hl⟩, if_pos ⟨by omega, by omega, hl⟩]
      rw [show a + 2 - a = 2 by omega]
      norm_num
    · rw [if_neg (by omega), if_neg (by omega), if_neg (by omega), if_neg (by omega)]
  rw [if_neg (by omega)]
  by_cases h1 : i = a + 1
  · subst h1
    by_cases hl : a + 1 < m.length
    · rw [if_pos ⟨rfl, hl⟩, if_pos ⟨by omega, by omega, hl⟩]
      rw [show a + 1 - a = 1 by omega]
      norm_num
    · rw [if_neg (by omega), if_neg (by omega), if_neg (by omega)]
  rw [if_neg (by omega)]
  by_cases h0 : i = a
  · subst h0
    by_cases hl : i < m.length
    · rw [if_pos ⟨rfl, hl⟩, if_pos ⟨by omega, by omega, hl⟩]
      rw [show i - i = 0 by omega]
      simp
    · rw [if_neg (by omega), if_neg (by omega)]
  rw [if_neg (by omega), if_neg (by omega)]

theorem store64_length (m : Mem) (a v : Nat) : (store64 m a v).length = m.length := by
  unfold store64
  rw [store32_length, store32_length]

/-- The bytes of the mapping after a `uint64` store: the eight bytes at `a .. a+7` hold the
bytes of `v`, least significant first; every other byte is unchanged. -/
theorem store64_getElem? (m : Mem) (a v i : Nat) :
    (store64 m a v)[i]? =
      if a ≤ i ∧ i < a + 8 ∧ i < m.length then some (v / 256 ^ (i - a) % 256) else m[i]? := by
  unfold store64
  rw [store32_getElem?, store32_getElem?, store32_length]
  by_cases hh : a + 4 ≤ i ∧ i < a + 4 + 4 ∧ i < m.length
  · rw [if_pos hh, if_pos ⟨by omega, by omega, hh.2.2⟩]
    congr 1
    rw [Nat.div_div_eq_div_mul, show (4294967296 : Nat) = 256 ^ 4 by norm_num, ← pow_add]
    congr 3
    omega
  · rw [if_neg hh]
    by_cases hl : a ≤ i ∧ i < a + 4 ∧ i < m.length
    · rw [if_pos hl, if_pos ⟨by omega, by omega, hl.2.2⟩]
    · rw [if_neg hl, if_neg (by omega)]

theorem load8_eq (m : Mem) (a : Nat) : load8 m a = (m[a]?).getD 0 % 256 := by
  unfold load8
  rw [List.getD_eq_getElem?_getD]

/-- A `uint64` load sees only the eight bytes it covers. -/
theorem load64_congr (m1 m2 : Mem) (a : Nat)
    (h : ∀ i, a ≤ i → i < a + 8 → m1[i]? = m2[i]?) : load64 m1 a = load64 m2 a := by
  unfold load64 load32
  simp only [load8_eq]
  rw [h a (by omega) (by omega), h (a + 1) (by omega) (by omega),
    h (a + 2) (by omega) (by omega), h (a + 3) (by omega) (by omega),
    h (a + 4) (by omega) (by omega), h (a + 4 + 1) (by omega) (by omega),
    h (a + 4 + 2) (by omega) (by omega), h (a + 4 + 3) (by omega) (by omega)]

/-- A `uint64` load of eight bytes that hold the bytes of `v` gives `v` as a `uint64`. -/
theorem load64_bytes (m : Mem) (a v : Nat)
    (h : ∀ i, a ≤ i → i < a + 8 → m[i]? = some (v / 256 ^ (i - a) % 256)) :
    load64 m a = v % 18446744073709551616 := by
  unfold load64 load32
  simp only [load8_eq]
  rw [h a (by omega) (by omega), h (a + 1) (by omega) (by omega),
    h (a + 2) (by omega) (by omega), h (a + 3) (by omega) (by omega),
    h (a + 4) (by omega) (by omega), h (a + 4 + 1) (by omega) (by omega),
    h (a + 4 + 2) (by omega) (by omega), h (a + 4 + 3) (by omega) (by omega)]
  rw [show a - a = 0 by omega, show a + 1 - a = 1 by omega, show a + 2 - a = 2 by omega,
    show a + 3 - a = 3 by omega, show a + 4 - a = 4 by omega, show a + 4 + 1 - a = 5 by omega,
    show a + 4 + 2 - a = 6 by omega, show a + 4 + 3 - a = 7 by omega]
  simp only [Option.getD_some]
  norm_num
  omega

theorem Process.loop_calls (func : List Nat → Nat) (type : Channels) (img : Nat → Nat)
    (width n : Nat) (s : ProcState) :
    ∃ t, (Process.loop func type img width n s).calls = s.calls ++ t ∧ t.length = n := by
  induction n generalizing s with
  | zero => exact ⟨[], by simp [Process.loop], rfl⟩
  | succ n ih =>
    obtain ⟨t, ht, hl⟩ := ih (Process.step func type img width s)
    refine ⟨(Process.gather type img width s.src).1 :: t, ?_, by simp [hl]⟩
    simp only [Process.loop]
    rw [ht]
    simp [Process.step]

/-- The bytes of the mapping after `n` passes of the loop of `Process`: byte `j` of the
`k`-th word from `dst` holds byte `j` of the kernel result for the `k`-th tile of the run, as
far as the mapping reaches; every other byte is unchanged. -/
theorem Process.loop_mem (func : List Nat → Nat) (type : Channels) (img : Nat → Nat)
    (width n : Nat) (s : ProcState) (i : Nat) :
    (Process.loop func type img width n s).mem.length = s.mem.length ∧
    (Process.loop func type img width n s).mem[i]? =
      if s.dst ≤ i ∧ i < s.dst + 8 * n ∧ i < s.mem.length then
        some (func ((Process.loop func type img width n s).calls.getD
          (s.calls.length + (i - s.dst) / 8) []) / 256 ^ ((i - s.dst) % 8) % 256)
      else s.mem[i]? := by
  induction n generalizing s with
  | zero =>
    refine ⟨rfl, ?_⟩
    rw [if_neg (by omega)]
    rfl
  | succ n ih =>
    simp only [Process.loop]
    obtain ⟨hlen, hget⟩ := ih (Process.step func type img width s)
    obtain ⟨t, ht, -⟩ := Process.loop_calls func type img width n
      (Process.step func type img width s)
    have hsl : (Process.step func type img width s).mem.length = s.mem.length := by
      simp only [Process.step, store64_length]
    have hsd : (Process.step func type img width s).dst = s.dst + 8 := rfl
    have hsc : (Process.step func type img width s).calls =
        s.calls ++ [(Process.gather type img width s.src).1] := rfl
    have hsm : (Process.step func type img width s).mem =
        store64 s.mem s.dst (func (Process.gather type img width s.src).1) := rfl
    refine ⟨by rw [hlen, hsl], ?_⟩
    rw [hget, hsl, hsd]
    by_cases h1 : s.dst + 8 ≤ i ∧ i < s.dst + 8 + 8 * n ∧ i < s.mem.length
    · rw [if_pos h1, if_pos ⟨by omega, by omega, h1.2.2⟩, hsc]
      have e1 : (s.calls ++ [(Process.gather type img width s.src).1]).length +
          (i - (s.dst + 8)) / 8 = s.calls.length + (i - s.dst) / 8 := by
        rw [List.length_append, List.length_singleton]
        omega
      have e2 : (i - (s.dst + 8)) % 8 = (i - s.dst) % 8 := by omega
      rw [e1, e2]
    · rw [if_neg h1, hsm, store64_getElem?]
      by_cases h2 : s.dst ≤ i ∧ i < s.dst + 8 ∧ i < s.mem.length
      · rw [if_pos h2, if_pos ⟨by omega, by omega, h2.2.2⟩, ht, hsc]
        have e1 : (i - s.dst) / 8 = 0 := by omega
        have e2 : (i - s.dst) % 8 = i - s.dst := by omega
        rw [e1, e2, Nat.add_zero, List.append_assoc, List.getD_eq_getElem?_getD,
          List.getElem?_append_right (le_refl _)]
        simp
      · rw [if_neg h2, if_neg (by omega)]

/-- The effect of one call of `Process` on the mapping. -/
theorem Process.call_mem (ext : Codec) (sse41 probe : Bool) (b : BlockData) (img : Nat → Nat)
    (blocks offset width : Nat) (type : Channels) (dither etc2 : Bool)
    (hb1 : 1 ≤ blocks) (hb2 : blocks < 4294967296) (i : Nat) :
    (BlockData.Process ext sse41 probe b img blocks offset width type dither etc2).mem.length
      = b.m_data.length ∧
    (BlockData.Process ext sse41 probe b img blocks offset width type dither etc2).mem[i]? =
      if b.m_dataOffset + 8 * offset ≤ i ∧ i < b.m_dataOffset + 8 * offset + 8 * blocks ∧
          i < b.m_data.length then
        some (Kernel.run ext (Process.func sse41 probe type dither etc2)
          ((BlockData.Process ext sse41 probe b img blocks offset width type dither
            etc2).calls.getD ((i - (b.m_dataOffset + 8 * offset)) / 8) [])
          / 256 ^ ((i - (b.m_dataOffset + 8 * offset)) % 8) % 256)
      else b.m_data[i]? := by
  have h := Process.loop_mem (Kernel.run ext (Process.func sse41 probe type dither etc2)) type
    img width blocks
    { src := 0, w := 0, dst := b.m_dataOffset + 8 * offset, mem := b.m_data, calls := [] } i
  simp only [List.length_nil, Nat.zero_add] at h
  unfold BlockData.Process
  rw [Process.passes_eq blocks hb1 hb2]
  exact h

/-- C18: for every `blocks ≥ 1` (a `uint32`), `Process` writes exactly the payload words with
indices `offset .. offset+blocks-1`: the mapping keeps its length, word `n` of the call holds
the kernel result (a `uint64`) for the `n`-th tile whenever the range lies inside the mapping,
every byte outside the byte range of those words is unchanged, so the header and every other
payload word are unchanged; and a byte changed by one call is left unchanged by any call whose
range `[offset, offset+blocks)` is disjoint from the first. -/
theorem Process_writes (ext : Codec) (sse41 probe : Bool) (b : BlockData) (img : Nat → Nat)
    (blocks offset width : Nat) (type : Channels) (dither etc2 : Bool)
    (hb1 : 1 ≤ blocks) (hb2 : blocks < 4294967296) :
    (BlockData.Process ext sse41 probe b img blocks offset width type dither etc2).mem.length
      = b.m_data.length ∧
    (b.m_dataOffset + 8 * (offset + blocks) ≤ b.m_data.length →
      ∀ n, n < blocks → ∃ tile,
        (BlockData.Process ext sse41 probe b img blocks offset width type dither
          etc2).calls[n]? = some tile ∧
        load64 (BlockData.Process ext sse41 probe b img blocks offset width type dither
          etc2).mem (b.m_dataOffset + 8 * (offset + n)) =
          Kernel.run ext (Process.func sse41 probe type dither etc2) tile
            % 18446744073709551616) ∧
    (∀ i, i < b.m_dataOffset + 8 * offset ∨ b.m_dataOffset + 8 * (offset + blocks) ≤ i →
      (BlockData.Process ext sse41 probe b img blocks offset width type dither etc2).mem[i]?
        = b.m_data[i]?) ∧
    (BlockData.Process ext sse41 probe b img blocks offset width type dither etc2).mem.take
      b.m_dataOffset = b.m_data.take b.m_dataOffset ∧
    (∀ k, k < offset ∨ offset + blocks ≤ k →
      load64 (BlockData.Process ext sse41 probe b img blocks offset width type dither
        etc2).mem (b.m_dataOffset + 8 * k) = load64 b.m_data (b.m_dataOffset + 8 * k)) ∧
    (∀ (b2 : BlockData) (img2 : Nat → Nat) (blocks2 offset2 width2 : Nat) (type2 : Channels)
      (dither2 etc22 : Bool), b2.m_dataOffset = b.m_dataOffset → 1 ≤ blocks2 →
      blocks2 < 4294967296 → offset + blocks ≤ offset2 ∨ offset2 + blocks2 ≤ offset →
      ∀ i : Nat,
        (BlockData.Process ext sse41 probe b img blocks offset width type dither
          etc2).mem[i]? ≠ b.m_data[i]? →
        (BlockData.Process ext sse41 probe b2 img2 blocks2 offset2 width2 type2 dither2
          etc22).mem[i]? = b2.m_data[i]?) := by
  have hframe : ∀ i, i < b.m_dataOffset + 8 * offset ∨
      b.m_dataOffset + 8 * (offset + blocks) ≤ i →
      (BlockData.Process ext sse41 probe b img blocks offset width type dither etc2).mem[i]?
        = b.m_data[i]? := by
    intro i hi
    rw [(Process.call_mem ext sse41 probe b img blocks offset width type dither etc2 hb1 hb2
      i).2, if_neg (by omega)]
  have hlen := (Process.call_mem ext sse41 probe b img blocks offset width type dither etc2
    hb1 hb2 0).1
  refine ⟨hlen, ?_, hframe, ?_, ?_, ?_⟩
  · intro hfit n hn
    obtain ⟨t, ht, htl⟩ := Process.loop_calls
      (Kernel.run ext (Process.func sse41 probe type dither etc2)) type img width blocks
      { src := 0, w := 0, dst := b.m_dataOffset + 8 * offset, mem := b.m_data, calls := [] }
    have hc : (BlockData.Process ext sse41 probe b img blocks offset width type dither
        etc2).calls = t := by
      unfold BlockData.Process
      rw [Process.passes_eq blocks hb1 hb2, ht]
      rfl
    have hnt : n < t.length := by omega
    refine ⟨t[n], by rw [hc]; exact List.getElem?_eq_getElem hnt, ?_⟩
    apply load64_bytes
    intro i h1 h2
    rw [(Process.call_mem ext sse41 probe b img blocks offset width type dither etc2 hb1 hb2
      i).2, if_pos ⟨by omega, by omega, by omega⟩, hc]
    have e1 : (i - (b.m_dataOffset + 8 * offset)) / 8 = n := by omega
    have e2 : (i - (b.m_dataOffset + 8 * offset)) % 8 =
        i - (b.m_dataOffset + 8 * (offset + n)) := by omega
    rw [e1, e2, List.getD_eq_getElem?_getD, List.getElem?_eq_getElem hnt]
    rfl
  · apply List.ext_getElem?
    intro i
    by_cases hi : i < b.m_dataOffset
    · rw [List.getElem?_take_of_lt hi, List.getElem?_take_of_lt hi]
      exact hframe i (by omega)
    · rw [List.getElem?_eq_none (by rw [List.length_take]; omega),
        List.getElem?_eq_none (by rw [List.length_take]; omega)]
  · intro k hk
    apply load64_congr
    intro i h1 h2
    exact hframe i (by omega)
  · intro b2 img2 blocks2 offset2 width2 type2 dither2 etc22 hoff h1 h2 hdis i hne
    have hin : b.m_dataOffset + 8 * offset ≤ i ∧ i < b.m_dataOffset + 8 * (offset + blocks) := by
      by_contra hc
      exact hne (hframe i (by omega))
    rw [(Process.call_mem ext sse41 probe b2 img2 blocks2 offset2 width2 type2 dither2 etc22
      h1 h2 i).2, if_neg (by omega)]

/-- Witness for C18: a two-block call at offset 0 on a mapping of 52 + 16 bytes. -/
theorem Process_writes_witness :
    (1 ≤ 2 ∧ 2 < 4294967296) ∧
    (BlockData.Process ⟨fun _ => 7, fun _ => 0, fun _ => 0, fun _ => 0, id⟩ false false
      ⟨List.replicate 68 0, ⟨8, 4⟩, 52, 68⟩ (fun i => i) 2 0 8 Channels.RGB false
      false).mem.take 52 = (List.replicate 68 0).take 52 :=
  ⟨by decide,
    (Process_writes ⟨fun _ => 7, fun _ => 0, fun _ => 0, fun _ => 0, id⟩ false false
      ⟨List.replicate 68 0, ⟨8, 4⟩, 52, 68⟩ (fun i => i) 2 0 8 Channels.RGB false false
      (by decide) (by decide)).2.2.2.1⟩

/-! ## C15: encoding a block range in pieces -/

/-- The entry of the block-type palette for a block classified none: by the flip bit (bit 0)
and the diff bit (bit 1) of the permuted word. -/
theorem Dissect.typePixel_none (ndebug : Bool) (d : Nat) :
    Dissect.typePixel ndebug d Etc2Mode.none =
      .ok (some (if specBit d 1 = 0 then (if specBit d 0 = 0 then 0xFF000088 else 0xFF008800)
        else (if specBit d 0 = 0 then 0xFF0000FF else 0xFF00FF00))) := by
  have hm : d &&& 0x3 = d % 2 ^ 2 := Nat.and_pow_two_sub_one_eq_mod d 2
  unfold Dissect.typePixel specBit
  rw [hm]
  have h4 : d % 2 ^ 2 < 4 := Nat.mod_lt _ (by norm_num)
  have e0 : d / 2 ^ 0 % 2 = d % 2 ^ 2 % 2 := by
    norm_num
  have e1 : d / 2 ^ 1 % 2 = d % 2 ^ 2 / 2 := by
    norm_num
    omega
  rw [e0, e1]
  generalize d % 2 ^ 2 = m at h4
  interval_cases m <;> rfl

/-- The loop body of `Dissect` for a block classified T or H. -/
theorem Dissect.block_TH (ndebug : Bool) (c0 : BlockColor) (word : Nat)
    (hmode : (DecodeBlockColor (permuteBytes word) c0).1 = Etc2Mode.t ∨
      (DecodeBlockColor (permuteBytes word) c0).1 = Etc2Mode.h) :
    Dissect.block ndebug c0 word =
      if ndebug then
        .ok { type := none, sel := Dissect.selPixel (permuteBytes word)
              color := Dissect.endpoints (DecodeBlockColor (permuteBytes word) c0).2
                (permuteBytes word) }
      else .error Fault.assertion := by
  unfold Dissect.block
  rcases hmode with h | h <;> cases ndebug <;>
    simp [h, Dissect.typePixel, Dissect.assertFalse, bind, Except.bind]

/-- The loop body of `Dissect` for a block classified none or planar. -/
theorem Dissect.block_ok (ndebug : Bool) (c0 : BlockColor) (word : Nat) :
    ((DecodeBlockColor (permuteBytes word) c0).1 = Etc2Mode.none →
      Dissect.block ndebug c0 word =
        .ok { type := some
                (if specBit (permuteBytes word) 1 = 0 then
                  (if specBit (permuteBytes word) 0 = 0 then 0xFF000088 else 0xFF008800)
                else (if specBit (permuteBytes word) 0 = 0 then 0xFF0000FF else 0xFF00FF00))
              sel := Dissect.selPixel (permuteBytes word)
              color := Dissect.endpoints (DecodeBlockColor (permuteBytes word) c0).2
                (permuteBytes word) }) ∧
    ((DecodeBlockColor (permuteBytes word) c0).1 = Etc2Mode.planar →
      Dissect.block ndebug c0 word =
        .ok { type := some 0xFFFF0000
              sel := Dissect.selPixel (permuteBytes word)
              color := Dissect.endpoints (DecodeBlockColor (permuteBytes word) c0).2
                (permuteBytes word) }) := by
  constructor
  · intro h
    unfold Dissect.block
    simp only [h, Dissect.typePixel_none]
    rfl
  · intro h
    unfold Dissect.block
    simp only [h, Dissect.typePixel]
    rfl

/-- C19 (as amended): for every block the mode classifier reports as T or H, the loop
body of `Dissect` reaches `assert( false )` and stores no pixel in the block-type map: with
assertions enabled the body stops with the failed assertion, and with `NDEBUG` it stores
nothing through `dst` and goes on to the selector and endpoint stores of the block.  A block
classified none stores exactly one palette colour chosen by its diff and flip bits, and a
planar block stores `0xFFFF0000`. -/
theorem Dissect_block_type (c0 : BlockColor) (word : Nat) :
    ((DecodeBlockColor (permuteBytes word) c0).1 = Etc2Mode.t ∨
        (DecodeBlockColor (permuteBytes word) c0).1 = Etc2Mode.h →
      Dissect.block false c0 word = .error Fault.assertion ∧
      ∃ r, Dissect.block true c0 word = .ok r ∧ r.type = none ∧
        r.sel = Dissect.selPixel (permuteBytes word) ∧ r.color.length = 16) ∧
    ((DecodeBlockColor (permuteBytes word) c0).1 = Etc2Mode.none →
      ∀ ndebug, ∃ r, Dissect.block ndebug c0 word = .ok r ∧
        r.type = some
          (if specBit (permuteBytes word) 1 = 0 then
            (if specBit (permuteBytes word) 0 = 0 then 0xFF000088 else 0xFF008800)
          else (if specBit (permuteBytes word) 0 = 0 then 0xFF0000FF else 0xFF00FF00))) ∧
    ((DecodeBlockColor (permuteBytes word) c0).1 = Etc2Mode.planar →
      ∀ ndebug, ∃ r, Dissect.block ndebug c0 word = .ok r ∧ r.type = some 0xFFFF0000) := by
  refine ⟨?_, ?_, ?_⟩
  · intro h
    refine ⟨by rw [Dissect.block_TH false c0 word h]; rfl, _, by
      rw [Dissect.block_TH true c0 word h]; rfl, rfl, rfl, ?_⟩
    unfold Dissect.endpoints
    split <;> rfl
  · intro h ndebug
    exact ⟨_, (Dissect.block_ok ndebug c0 word).1 h, rfl⟩
  · intro h ndebug
    exact ⟨_, (Dissect.block_ok ndebug c0 word).2 h, rfl⟩

/-- Witness for C19: the T word `0x020000FB` with an arbitrary uninitialised colour. -/
theorem Dissect_block_type_witness :
    ((DecodeBlockColor (permuteBytes 0x020000FB) ⟨1, 2, 3, 4, 5, 6⟩).1 = Etc2Mode.t ∨
      (DecodeBlockColor (permuteBytes 0x020000FB) ⟨1, 2, 3, 4, 5, 6⟩).1 = Etc2Mode.h) ∧
    Dissect.block false ⟨1, 2, 3, 4, 5, 6⟩ 0x020000FB = .error Fault.assertion :=
  ⟨by decide,
    ((Dissect_block_type ⟨1, 2, 3, 4, 5, 6⟩ 0x020000FB).1 (by decide)).1⟩

/-- The run of `Dissect` on a 4x4 image whose block word lies inside the mapping: one pass
of the loop body. -/
theorem BlockData.Dissect_single (ndebug : Bool) (garbage : Nat → BlockColor)
    (fresh1 fresh2 fresh3 : Nat → Nat) (b : BlockData) (hsize : b.m_size = ⟨4, 4⟩)
    (hmap : b.m_dataOffset + 8 ≤ b.m_data.length) :
    BlockData.Dissect ndebug garbage fresh1 fresh2 fresh3 b =
      (Dissect.block ndebug (garbage 0) (load64 b.m_data (b.m_dataOffset + 8 * 0))).bind
        fun r => .ok
          ((match r.type with
            | some v => [fresh1 0].set 0 v
            | none => [fresh1 0]),
           (r.color.foldl (fun (st : DecState) p => st.put p.1 p.2)
              ({ bmp := (List.range 16).map fresh2, l0 := 0, l1 := 4, l2 := 8, l3 := 12 } :
                DecState)).bmp,
           [fresh3 0].set 0 r.sel) := by
  have hwd : b.word 0 = .ok (load64 b.m_data (b.m_dataOffset + 8 * 0)) :=
    BlockData.word_ok b 1 0 (by omega) (by decide)
  unfold BlockData.Dissect
  rw [hsize]
  simp only [Int.toNat_ofNat, Nat.div_self, Nat.reduceMul, Nat.reduceAdd, Nat.reduceDiv,
    Int.toNat_ofNat, Dissect.blockRows, Dissect.blockRow, hwd, bind, Except.bind]
  cases h : Dissect.block ndebug (garbage 0) (load64 b.m_data (b.m_dataOffset + 8 * 0)) with
  | error e => rfl
  | ok r => rfl

/-- Counterexample for C19: the 4x4 image whose only block is the T word `0x020000FB`.  With
assertions enabled `Dissect` stops on `assert( false )`; with `NDEBUG` it finishes and the only
pixel of the block-type map still has its content from allocation: no pixel was stored. -/
theorem Dissect_T_no_sentinel :
    (∀ c0 : BlockColor,
      (DecodeBlockColor (permuteBytes (load64 exampleBlockDataT.m_data
        (exampleBlockDataT.m_dataOffset + 8 * 0))) c0).1 = Etc2Mode.t) ∧
    (∀ (garbage : Nat → BlockColor) (fresh1 fresh2 fresh3 : Nat → Nat),
      BlockData.Dissect false garbage fresh1 fresh2 fresh3 exampleBlockDataT =
        .error Fault.assertion) ∧
    (∀ (garbage : Nat → BlockColor) (fresh1 fresh2 fresh3 : Nat → Nat),
      ∃ out, BlockData.Dissect true garbage fresh1 fresh2 fresh3 exampleBlockDataT = .ok out ∧
        out.1 = [fresh1 0]) := by
  have hw : load64 exampleBlockDataT.m_data (exampleBlockDataT.m_dataOffset + 8 * 0) =
      0x020000FB := by decide
  have hm : ∀ c0 : BlockColor,
      (DecodeBlockColor (permuteBytes 0x020000FB) c0).1 = Etc2Mode.t := by
    intro c0
    rw [DecodeBlockColor_mode_eq]
    decide
  refine ⟨?_, ?_, ?_⟩
  · intro c0
    rw [hw]
    exact hm c0
  · intro garbage fresh1 fresh2 fresh3
    rw [BlockData.Dissect_single false garbage fresh1 fresh2 fresh3 exampleBlockDataT rfl
      (by decide), hw,
      Dissect.block_TH false _ _ (Or.inl (hm _))]
    rfl
  · intro garbage fresh1 fresh2 fresh3
    rw [BlockData.Dissect_single true garbage fresh1 fresh2 fresh3 exampleBlockDataT rfl
      (by decide), hw,
      Dissect.block_TH true _ _ (Or.inl (hm _))]
    exact ⟨_, rfl, rfl⟩

/-! ## C20: the endpoint map of `Dissect` -/

theorem Dissect.color_eq_pixel (r g b : Nat) : Dissect.color r g b = Decode.pixel r g b := by
  unfold Dissect.color Decode.pixel
  rw [Nat.lor_comm (r ||| (g <<< 8) % 4294967296 ||| (b <<< 16) % 4294967296) 0xFF000000,
    Nat.lor_comm (r ||| (g <<< 8) % 4294967296) ((b <<< 16) % 4294967296),
    Nat.lor_comm r ((g <<< 8) % 4294967296), Nat.lor_assoc, Nat.lor_assoc]

/-- The pixels of the endpoint stores of one block: the first colour fills rows 0, 1 with
the flip bit and columns 0, 1 without it, the second colour the rest. -/
theorem Dissect.endpoints_pixelAt (c : BlockColor) (d : Nat) (x y : Nat) (hx : x < 4)
    (hy : y < 4) :
    Decode.pixelAt (Dissect.endpoints c d) x y =
      some (if (if specBit d 0 = 1 then y < 2 else x < 2) then Decode.pixel c.r1 c.g1 c.b1
        else Decode.pixel c.r2 c.g2 c.b2) := by
  have hm : d &&& 0x1 = d % 2 ^ 1 := Nat.and_pow_two_sub_one_eq_mod d 1
  have hb : specBit d 0 = d % 2 := by
    unfold specBit
    norm_num
  unfold Dissect.endpoints
  simp only [Dissect.color_eq_pixel]
  by_cases hf : d &&& 0x1 ≠ 0
  · have h1 : specBit d 0 = 1 := by rw [hb]; omega
    simp only [if_pos hf, h1, if_true]
    interval_cases x <;> interval_cases y <;> rfl
  · have h1 : ¬ specBit d 0 = 1 := by rw [hb]; omega
    simp only [if_neg hf, h1, if_false]
    interval_cases x <;> interval_cases y <;> rfl

/-- The endpoint pixels `Dissect` paints for an ETC1 differential block. -/
theorem Dissect.block_endpoints (ndebug : Bool) (c0 : BlockColor) (word : Nat)
    (hmode : (DecodeBlockColor (permuteBytes word) c0).1 = Etc2Mode.none)
    (hdiff : specBit (permuteBytes word) 1 = 1) (x y : Nat) (hx : x < 4) (hy : y < 4) :
    ∃ r, Dissect.block ndebug c0 word = .ok r ∧
      ∃ px, Decode.pixelAt r.color x y = some px ∧ px / 2 ^ 24 = 255 ∧
        specRGB px =
          (if (if specBit (permuteBytes word) 0 = 1 then y < 2 else x < 2) then
            (specExpand5 (specField (permuteBytes word) 27 5),
             specExpand5 (specField (permuteBytes word) 19 5),
             specExpand5 (specField (permuteBytes word) 11 5))
          else
            (specExpand5 (specBase (permuteBytes word) 24 +
                specDelta (permuteBytes word) 24).toNat,
             specExpand5 (specBase (permuteBytes word) 16 +
                specDelta (permuteBytes word) 16).toNat,
             specExpand5 (specBase (permuteBytes word) 8 +
                specDelta (permuteBytes word) 8).toNat)) ∧
        (specRGB px).1 ≤ 255 ∧ (specRGB px).2.1 ≤ 255 ∧ (specRGB px).2.2 ≤ 255 := by
  have hd : permuteBytes word / 2 % 2 = 1 := by
    unfold specBit at hdiff
    rw [pow_one] at hdiff
    exact hdiff
  obtain ⟨⟨b1, b2, b3, b4, b5, b6⟩, -, hc⟩ := DecodeBlockColor_bounds (permuteBytes word) c0 hmode
  obtain ⟨hc, -⟩ := hc hd
  refine ⟨_, (Dissect.block_ok ndebug c0 word).1 hmode, ?_⟩
  simp only []
  rw [Dissect.endpoints_pixelAt _ _ x y hx hy]
  have p1 := specRGB_pixel (Nat.lt_succ_of_le b1) (Nat.lt_succ_of_le b2) (Nat.lt_succ_of_le b3)
  have p2 := specRGB_pixel (Nat.lt_succ_of_le b4) (Nat.lt_succ_of_le b5) (Nat.lt_succ_of_le b6)
  by_cases hh : (if specBit (permuteBytes word) 0 = 1 then y < 2 else x < 2)
  · rw [if_pos hh, if_pos hh]
    refine ⟨_, rfl, p1.2, ?_, ?_⟩
    · rw [p1.1, hc]
    · rw [p1.1]
      exact ⟨b1, b2, b3⟩
  · rw [if_neg hh, if_neg hh]
    refine ⟨_, rfl, p2.2, ?_, ?_⟩
    · rw [p2.1, hc]
    · rw [p2.1]
      exact ⟨b4, b5, b6⟩

/-- C20 (as amended): for every ETC1 differential block (classified none, diff bit
set), the 4x4 region `Dissect` paints in the endpoint map has its first half (columns 0, 1
when the flip bit is clear, rows 0, 1 when it is set) filled with `c1` and its second half
with `c2`, with alpha `0xFF`, where the channels painted are the endpoints as
`DecodeBlockColor` returns them: the 5-bit values (the base for `c1`, base + delta for `c2`)
expanded to 8 bits by `(v<<3)|(v>>2)`, each in `0..255`. -/
theorem Dissect_endpoint_map (ndebug : Bool) (c0 : BlockColor) (word : Nat)
    (hmode : (DecodeBlockColor (permuteBytes word) c0).1 = Etc2Mode.none)
    (hdiff : specBit (permuteBytes word) 1 = 1) (x y : Nat) (hx : x < 4) (hy : y < 4) :
    ∃ r, Dissect.block ndebug c0 word = .ok r ∧
      ∃ px, Decode.pixelAt r.color x y = some px ∧ px / 2 ^ 24 = 255 ∧
        specRGB px =
          (if (if specBit (permuteBytes word) 0 = 1 then y < 2 else x < 2) then
            (specExpand5 (specField (permuteBytes word) 27 5),
             specExpand5 (specField (permuteBytes word) 19 5),
             specExpand5 (specField (permuteBytes word) 11 5))
          else
            (specExpand5 (specBase (permuteBytes word) 24 +
                specDelta (permuteBytes word) 24).toNat,
             specExpand5 (specBase (permuteBytes word) 16 +
                specDelta (permuteBytes word) 16).toNat,
             specExpand5 (specBase (permuteBytes word) 8 +
                specDelta (permuteBytes word) 8).toNat)) ∧
        (specRGB px).1 ≤ 255 ∧ (specRGB px).2.1 ≤ 255 ∧ (specRGB px).2.2 ≤ 255 := by
  exact Dissect.block_endpoints ndebug c0 word hmode hdiff x y hx hy

/-- Witness for C20: the differential word `0x020000F8` (red base 31, all deltas 0, flip
clear) at column 3, row 1. -/
theorem Dissect_endpoint_map_witness :
    ((DecodeBlockColor (permuteBytes 0x020000F8) ⟨1, 2, 3, 4, 5, 6⟩).1 = Etc2Mode.none ∧
      specBit (permuteBytes 0x020000F8) 1 = 1 ∧ 3 < 4 ∧ 1 < 4) ∧
    ∃ r, Dissect.block false ⟨1, 2, 3, 4, 5, 6⟩ 0x020000F8 = .ok r ∧
      ∃ px, Decode.pixelAt r.color 3 1 = some px ∧ px / 2 ^ 24 = 255 := by
  obtain ⟨r, h1, px, h2, h3, -⟩ := Dissect_endpoint_map false ⟨1, 2, 3, 4, 5, 6⟩ 0x020000F8
    (by decide) (by decide) 3 1 (by decide) (by decide)
  exact ⟨by decide, r, h1, px, h2, h3⟩

/-- Counterexample for C20: the differential word `0x020000F8` has the raw 5-bit red base 31;
the pixel `Dissect` paints at column 0, row 0 of the endpoint map has R = 255, which is not in
`0..31`. -/
theorem Dissect_paints_expanded :
    (∀ c0 : BlockColor, (DecodeBlockColor (permuteBytes 0x020000F8) c0).1 = Etc2Mode.none) ∧
    specBit (permuteBytes 0x020000F8) 1 = 1 ∧
    specField (permuteBytes 0x020000F8) 27 5 = 31 ∧
    (∀ (ndebug : Bool) (c0 : BlockColor),
      ∃ r, Dissect.block ndebug c0 0x020000F8 = .ok r ∧
        ∃ px, Decode.pixelAt r.color 0 0 = some px ∧ (specRGB px).1 = 255 ∧
          ¬ (specRGB px).1 ≤ 31) := by
  have hm : ∀ c0 : BlockColor,
      (DecodeBlockColor (permuteBytes 0x020000F8) c0).1 = Etc2Mode.none := by
    intro c0
    rw [DecodeBlockColor_mode_eq]
    decide
  refine ⟨hm, by decide, by decide, ?_⟩
  intro ndebug c0
  obtain ⟨r, h1, px, h2, -, h3, -⟩ := Dissect.block_endpoints ndebug c0 0x020000F8 (hm c0)
    (by decide) 0 0 (by decide) (by decide)
  have h4 : (specRGB px).1 = 255 := by
    rw [h3]
    decide
  exact ⟨r, h1, px, h2, h4, by rw [h4]; decide⟩

/-! ## C21: the byte offsets of the block words -/

/-- Both creating constructors set `m_dataOffset` to 52. -/
theorem BlockData.create_offset (nml : v2i → Int) (heap : Nat → Nat) (size : v2i)
    (mipmap : Bool) (b : BlockData)
    (hb : BlockData.create nml size mipmap = .ok b ∨
      BlockData.createInMemory nml heap size mipmap = .ok b) : b.m_dataOffset = 52 := by
  rcases hb with hb | hb
  · unfold BlockData.create at hb
    cases hl : BlockData.layout nml size mipmap with
    | error e => simp [hl, bind, Except.bind] at hb
    | ok r =>
      simp only [hl, bind, Except.bind, Except.ok.injEq] at hb
      rw [← hb]
  · unfold BlockData.createInMemory at hb
    cases hl : BlockData.layout nml size mipmap with
    | error e => simp [hl, bind, Except.bind] at hb
    | ok r =>
      simp only [hl, bind, Except.bind, Except.ok.injEq] at hb
      rw [← hb]

theorem Process.loop_dst (func : List Nat → Nat) (type : Channels) (img : Nat → Nat)
    (width n : Nat) (s : ProcState) :
    (Process.loop func type img width n s).dst = s.dst + 8 * n := by
  induction n generalizing s with
  | zero => rfl
  | succ n ih =>
    simp only [Process.loop]
    rw [ih]
    simp only [Process.step]
    omega

/-- C21 (as amended): in a `BlockData` made by one of the creating constructors the data
offset is 52, so payload word `k` is the 8-byte slice at byte offset `52 + 8*k` from the start
of the mapping.  That offset is a multiple of 4 and leaves the remainder 4 modulo 8 for every
`k`: it is never a multiple of 8.  A call of `Process` ends with `dst` at offset
`52 + 8*(offset+blocks)`, and every byte it changes lies in the slice of one of the words
`offset .. offset+blocks-1`. -/
theorem Process_word_offset (nml : v2i → Int) (heap : Nat → Nat) (size : v2i)
    (mipmap : Bool) (b : BlockData)
    (hb : BlockData.create nml size mipmap = .ok b ∨
      BlockData.createInMemory nml heap size mipmap = .ok b) (k : Nat) :
    b.m_dataOffset = 52 ∧
    (b.m_dataOffset + 8 * k) % 8 = 4 ∧ (b.m_dataOffset + 8 * k) % 4 = 0 ∧
    ¬ 8 ∣ (b.m_dataOffset + 8 * k) ∧
    (∀ (ext : Codec) (sse41 probe : Bool) (img : Nat → Nat) (blocks offset width : Nat)
      (type : Channels) (dither etc2 : Bool), 1 ≤ blocks → blocks < 4294967296 →
      (BlockData.Process ext sse41 probe b img blocks offset width type dither etc2).dst =
        52 + 8 * (offset + blocks) ∧
      ∀ i : Nat,
        (BlockData.Process ext sse41 probe b img blocks offset width type dither
          etc2).mem[i]? ≠ b.m_data[i]? →
        ∃ n, n < blocks ∧ 52 + 8 * (offset + n) ≤ i ∧ i < 52 + 8 * (offset + n) + 8) := by
  have h52 := BlockData.create_offset nml heap size mipmap b hb
  refine ⟨h52, by omega, by omega, by omega, ?_⟩
  intro ext sse41 probe img blocks offset width type dither etc2 hb1 hb2
  constructor
  · unfold BlockData.Process
    rw [Process.passes_eq blocks hb1 hb2, Process.loop_dst, h52]
    simp only []
    omega
  · intro i hne
    rw [(Process.call_mem ext sse41 probe b img blocks offset width type dither etc2 hb1 hb2
      i).2] at hne
    by_cases hin : b.m_dataOffset + 8 * offset ≤ i ∧
        i < b.m_dataOffset + 8 * offset + 8 * blocks ∧ i < b.m_data.length
    · rw [h52] at hin
      exact ⟨(i - (52 + 8 * offset)) / 8, by omega, by omega, by omega⟩
    · rw [if_neg hin] at hne
      exact absurd rfl hne

/-- Witness for C21: the 4x4 image created in a file, payload word 3. -/
theorem Process_word_offset_witness :
    (BlockData.create (fun _ => 1) ⟨4, 4⟩ false =
        .ok ⟨OpenForWriting 60 ⟨4, 4⟩ 1, ⟨4, 4⟩, 52, 60⟩ ∨
      BlockData.createInMemory (fun _ => 1) (fun _ => 0) ⟨4, 4⟩ false =
        .ok ⟨OpenForWriting 60 ⟨4, 4⟩ 1, ⟨4, 4⟩, 52, 60⟩) ∧
    ((⟨OpenForWriting 60 ⟨4, 4⟩ 1, ⟨4, 4⟩, 52, 60⟩ : BlockData).m_dataOffset + 8 * 3) % 8 = 4 :=
  ⟨Or.inl rfl,
    (Process_word_offset (fun _ => 1) (fun _ => 0) ⟨4, 4⟩ false
      ⟨OpenForWriting 60 ⟨4, 4⟩ 1, ⟨4, 4⟩, 52, 60⟩ (Or.inl rfl) 3).2.1⟩

/-- Counterexample for C21: the 4x4 image created in a file and encoded with a kernel that
returns 1.  `Process` changes the byte at offset 52, the first byte of payload word 0, from 0
to 1, and 52 is not a multiple of 8. -/
theorem Process_word_misaligned :
    ∃ b, BlockData.create (fun _ => 1) ⟨4, 4⟩ false = .ok b ∧ b.m_dataOffset = 52 ∧
      b.m_data[52]? = some 0 ∧
      (BlockData.Process exampleCodec true true b (fun _ => 0) 1 0 4 Channels.RGB false
        false).mem[52]? = some 1 ∧
      (b.m_dataOffset + 8 * 0) % 8 = 4 ∧ ¬ 8 ∣ (b.m_dataOffset + 8 * 0) := by
  have hlen : (OpenForWriting 60 ⟨4, 4⟩ 1).length = 60 :=
    OpenForWriting_length 60 ⟨4, 4⟩ 1 (by decide)
  have h0 : (OpenForWriting 60 ⟨4, 4⟩ 1)[52]? = some 0 := by
    rw [OpenForWriting_eq 60 ⟨4, 4⟩ 1 (by decide),
      List.getElem?_append_right (by simp [headerWords, le32])]
    simp [headerWords, le32]
  refine ⟨⟨OpenForWriting 60 ⟨4, 4⟩ 1, ⟨4, 4⟩, 52, 60⟩, rfl, rfl, h0, ?_, by decide, by decide⟩
  rw [(Process.call_mem exampleCodec true true ⟨OpenForWriting 60 ⟨4, 4⟩ 1, ⟨4, 4⟩, 52, 60⟩
    (fun _ => 0) 1 0 4 Channels.RGB false false (by decide) (by decide) 52).2]
  simp only [hlen]
  rw [if_pos (by decide)]
  rfl

/-! ## C22: the byte permutation of `Decode` and `Dissect` -/

/-- Bit `i` of the permuted word is bit `specSwapBit i` of the word. -/
theorem permuteBytes_testBit (d i : Nat) (hi : i < 64) :
    (permuteBytes d).testBit i = d.testBit (specSwapBit i) := by
  unfold permuteBytes
  simp only [Nat.testBit_or, Nat.testBit_and, Nat.testBit_shiftRight, Nat.testBit_shiftLeft]
  interval_cases i <;> simp [specSwapBit, Nat.testBit]

theorem permuteBytes_lt (d : Nat) : permuteBytes d < 2 ^ 64 := by
  unfold permuteBytes
  have h1 : (d &&& 0xFF000000FF000000) >>> 24 < 2 ^ 64 := by
    have := @Nat.and_le_right d 0xFF000000FF000000
    rw [Nat.shiftRight_eq_div_pow]
    omega
  have h2 : (d &&& 0x000000FF000000FF) <<< 24 < 2 ^ 64 := by
    have := @Nat.and_le_right d 0x000000FF000000FF
    rw [Nat.shiftLeft_eq]
    omega
  have h3 : (d &&& 0x00FF000000FF0000) >>> 8 < 2 ^ 64 := by
    have := @Nat.and_le_right d 0x00FF000000FF0000
    rw [Nat.shiftRight_eq_div_pow]
    omega
  have h4 : (d &&& 0x0000FF000000FF00) <<< 8 < 2 ^ 64 := by
    have := @Nat.and_le_right d 0x0000FF000000FF00
    rw [Nat.shiftLeft_eq]
    omega
  exact Nat.or_lt_two_pow (Nat.or_lt_two_pow (Nat.or_lt_two_pow h1 h2) h3) h4

theorem testBit_of_ge (x i : Nat) (hx : x < 2 ^ 64) (hi : 64 ≤ i) : x.testBit i = false :=
  Nat.testBit_lt_two_pow (lt_of_lt_of_le hx (Nat.pow_le_pow_right (by norm_num) hi))

theorem specSwapBit_props (i : Nat) (hi : i < 64) :
    specSwapBit i < 64 ∧ specSwapBit (specSwapBit i) = i ∧ specSwapBit i / 32 = i / 32 := by
  unfold specSwapBit
  omega

/-- The permutation is an involution on 64-bit words. -/
theorem permuteBytes_permuteBytes (d : Nat) (hd : d < 2 ^ 64) :
    permuteBytes (permuteBytes d) = d := by
  apply Nat.eq_of_testBit_eq
  intro i
  by_cases hi : i < 64
  · obtain ⟨h1, h2, -⟩ := specSwapBit_props i hi
    rw [permuteBytes_testBit _ i hi, permuteBytes_testBit _ _ h1, h2]
  · rw [testBit_of_ge _ i (permuteBytes_lt _) (by omega), testBit_of_ge d i hd (by omega)]

/-- Byte `j` of the permuted word is byte `4*(j/4) + (3 - j mod 4)` of the word. -/
theorem permuteBytes_byte (d j : Nat) (hj : j < 8) :
    specField (permuteBytes d) (8 * j) 8 = specField d (8 * (4 * (j / 4) + (3 - j % 4))) 8 := by
  unfold specField
  rw [← Nat.shiftRight_eq_div_pow, ← Nat.shiftRight_eq_div_pow]
  apply Nat.eq_of_testBit_eq
  intro i
  simp only [Nat.testBit_mod_two_pow, Nat.testBit_shiftRight]
  by_cases hi : i < 8
  · have e : specSwapBit (8 * j + i) = 8 * (4 * (j / 4) + (3 - j % 4)) + i := by
      unfold specSwapBit
      omega
    rw [permuteBytes_testBit d (8 * j + i) (by omega), e]
  · simp [hi]

/-- The low half of the permuted word is determined by the low half of the word, and the high
half by the high half. -/
theorem permuteBytes_halves (d e : Nat) :
    (d % 2 ^ 32 = e % 2 ^ 32 → permuteBytes d % 2 ^ 32 = permuteBytes e % 2 ^ 32) ∧
    (d / 2 ^ 32 % 2 ^ 32 = e / 2 ^ 32 % 2 ^ 32 →
      permuteBytes d / 2 ^ 32 = permuteBytes e / 2 ^ 32) := by
  constructor
  · intro h
    apply Nat.eq_of_testBit_eq
    intro i
    simp only [Nat.testBit_mod_two_pow]
    by_cases hi : i < 32
    · have hs : specSwapBit i < 32 := by
        unfold specSwapBit
        omega
      have hb : ∀ x : Nat, x.testBit (specSwapBit i) = (x % 2 ^ 32).testBit (specSwapBit i) := by
        intro x
        rw [Nat.testBit_mod_two_pow]
        simp [hs]
      rw [permuteBytes_testBit d i (by omega), permuteBytes_testBit e i (by omega), hb d, hb e,
        h]
    · simp [hi]
  · intro h
    rw [← Nat.shiftRight_eq_div_pow, ← Nat.shiftRight_eq_div_pow]
    apply Nat.eq_of_testBit_eq
    intro i
    simp only [Nat.testBit_shiftRight]
    by_cases hi : i < 32
    · have hs : ∃ t, t < 32 ∧ specSwapBit (32 + i) = 32 + t := by
        refine ⟨specSwapBit (32 + i) - 32, ?_, ?_⟩ <;>
        · unfold specSwapBit
          omega
      obtain ⟨t, ht, hst⟩ := hs
      have hb : ∀ x : Nat, x.testBit (32 + t) = (x / 2 ^ 32 % 2 ^ 32).testBit t := by
        intro x
        rw [Nat.testBit_mod_two_pow, ← Nat.shiftRight_eq_div_pow, Nat.testBit_shiftRight]
        simp [ht]
      rw [permuteBytes_testBit d (32 + i) (by omega), permuteBytes_testBit e (32 + i) (by omega),
        hst, hb d, hb e, h]
    · rw [testBit_of_ge _ _ (permuteBytes_lt d) (by omega),
        testBit_of_ge _ _ (permuteBytes_lt e) (by omega)]

/-- C22: the byte permutation applied to each block word in `Decode` and `Dissect` gives a
64-bit word and reverses the four bytes of each 32-bit half independently: bytes 0..3 of the
result are bytes 3..0 of the word and bytes 4..7 are bytes 7..4, so the low half of the result
is determined by the low half of the word and the high half by the high half; and it is an
involution: applying it twice returns the original word, for every 64-bit value. -/
theorem permuteBytes_involution (d : Nat) (hd : d < 2 ^ 64) :
    permuteBytes d < 2 ^ 64 ∧
    (∀ j, j < 4 →
      specField (permuteBytes d) (8 * j) 8 = specField d (8 * (3 - j)) 8 ∧
      specField (permuteBytes d) (32 + 8 * j) 8 = specField d (32 + 8 * (3 - j)) 8) ∧
    (∀ e, d % 2 ^ 32 = e % 2 ^ 32 → permuteBytes d % 2 ^ 32 = permuteBytes e % 2 ^ 32) ∧
    (∀ e, d / 2 ^ 32 % 2 ^ 32 = e / 2 ^ 32 % 2 ^ 32 →
      permuteBytes d / 2 ^ 32 = permuteBytes e / 2 ^ 32) ∧
    permuteBytes (permuteBytes d) = d := by
  refine ⟨permuteBytes_lt d, ?_, fun e => (permuteBytes_halves d e).1,
    fun e => (permuteBytes_halves d e).2, permuteBytes_permuteBytes d hd⟩
  intro j hj
  have h1 := permuteBytes_byte d j (by omega)
  have h2 := permuteBytes_byte d (4 + j) (by omega)
  rw [show 4 * (j / 4) + (3 - j % 4) = 3 - j by omega] at h1
  rw [show 8 * (4 + j) = 32 + 8 * j by omega,
    show 8 * (4 * ((4 + j) / 4) + (3 - (4 + j) % 4)) = 32 + 8 * (3 - j) by omega] at h2
  exact ⟨h1, h2⟩

/-- Witness for C22: the word `0x0102030405060708`, which the permutation sends to
`0x0403020108070605` and back. -/
theorem permuteBytes_involution_witness :
    (0x0102030405060708 < 2 ^ 64) ∧
    permuteBytes 0x0102030405060708 = 0x0403020108070605 ∧
    permuteBytes (permuteBytes 0x0102030405060708) = 0x0102030405060708 :=
  ⟨by decide, by decide,
    (permuteBytes_involution 0x0102030405060708 (by decide)).2.2.2.2⟩

/-! ## C23: the modifier-table lookups of `Decode` stay in bounds -/

theorem Decode.tcw_lt (d : Nat) : (d &&& 0xE0) >>> 5 < 8 ∧ (d &&& 0x1C) >>> 2 < 8 := by
  have h0 : (d &&& 0xE0) >>> 5 = d / 2 ^ 5 % 2 ^ 3 := field_eq d 5 3
  have h1 : (d &&& 0x1C) >>> 2 = d / 2 ^ 2 % 2 ^ 3 := field_eq d 2 3
  rw [h0, h1]
  exact ⟨Nat.mod_lt _ (by norm_num), Nat.mod_lt _ (by norm_num)⟩

/-- A pixel of the non-planar path reads the table only at `[cw][sel]` with `sel < 4`. -/
theorem Decode.texel_congr (clampu8 : Int → Nat) (g g' : Nat → Nat → Int)
    (h : ∀ cw sel, cw < 8 → sel < 4 → g cw sel = g' cw sel) (r gg b cw d o k : Nat)
    (hcw : cw < 8) :
    Decode.texel clampu8 g r gg b cw d o k = Decode.texel clampu8 g' r gg b cw d o k := by
  unfold Decode.texel Decode.chan
  rw [h cw (Decode.sel d o k) hcw (Decode.sel_eq d o k).2]

/-- The stores of a block depend on the table only through its 8x4 entries. -/
theorem Decode.block_congr (clampu8 : Int → Nat) (g g' : Nat → Nat → Int)
    (h : ∀ cw sel, cw < 8 → sel < 4 → g cw sel = g' cw sel) (c0 : BlockColor) (word : Nat) :
    Decode.block clampu8 g c0 word = Decode.block clampu8 g' c0 word := by
  have t0 : ∀ c : BlockColor, ∀ o k, Decode.texel clampu8 g c.r1 c.g1 c.b1
      ((permuteBytes word &&& 0xE0) >>> 5) (permuteBytes word) o k =
      Decode.texel clampu8 g' c.r1 c.g1 c.b1
        ((permuteBytes word &&& 0xE0) >>> 5) (permuteBytes word) o k :=
    fun c o k => Decode.texel_congr clampu8 g g' h _ _ _ _ _ o k (Decode.tcw_lt _).1
  have t1 : ∀ c : BlockColor, ∀ o k, Decode.texel clampu8 g c.r2 c.g2 c.b2
      ((permuteBytes word &&& 0x1C) >>> 2) (permuteBytes word) o k =
      Decode.texel clampu8 g' c.r2 c.g2 c.b2
        ((permuteBytes word &&& 0x1C) >>> 2) (permuteBytes word) o k :=
    fun c o k => Decode.texel_congr clampu8 g g' h _ _ _ _ _ o k (Decode.tcw_lt _).2
  unfold Decode.block Decode.etc1
  simp only [t0, t1]

/-- C23: for every block word, every modifier-table lookup `Decode` performs is in bounds of
an 8x4 table: both codeword indices `tcw[0] = (d & 0xE0) >> 5` and `tcw[1] = (d & 0x1C) >> 2`
are in `0..7`, and every selector index is in `0..3`; the index of local pixel `k` (pass
offset `4*(k/4)`, row `k mod 4`) is `bit(32+k) | bit(48+k) << 1` for `k` in `0..15`, which for
`k = 15` is built from bits 47 and 63.  So the pixels stored for a block are the same for any
two tables that agree on their 8x4 entries. -/
theorem Decode_table_bounds (d : Nat) :
    (d &&& 0xE0) >>> 5 < 8 ∧ (d &&& 0x1C) >>> 2 < 8 ∧
    (∀ o k, Decode.sel d o k < 4) ∧
    (∀ k, k < 16 →
      Decode.sel d (4 * (k / 4)) (k % 4) =
        specBit d (32 + k) ||| (specBit d (48 + k) <<< 1)) ∧
    Decode.sel d 12 3 = specBit d 47 ||| (specBit d 63 <<< 1) ∧
    (∀ (clampu8 : Int → Nat) (g g' : Nat → Nat → Int) (c0 : BlockColor) (word : Nat),
      (∀ cw sel, cw < 8 → sel < 4 → g cw sel = g' cw sel) →
      Decode.block clampu8 g c0 word = Decode.block clampu8 g' c0 word) := by
  refine ⟨(Decode.tcw_lt d).1, (Decode.tcw_lt d).2, fun o k => (Decode.sel_eq d o k).2, ?_,
    (Decode.sel_eq d 12 3).1, fun clampu8 g g' c0 word h =>
      Decode.block_congr clampu8 g g' h c0 word⟩
  intro k hk
  rw [(Decode.sel_eq d (4 * (k / 4)) (k % 4)).1,
    show 4 * (k / 4) + 32 + k % 4 = 32 + k by omega,
    show 4 * (k / 4) + 48 + k % 4 = 48 + k by omega]
end Etcpak
